import Mathlib

set_option maxRecDepth 100000

deriving instance DecidableEq for Except

/-!
Verification of the release-checklist engine in `.github/libs/GithubUtils.js`.

The JavaScript source works on JS strings; we embed strings as `List Char`
(a JS string is a sequence of UTF-16 code units, and every string handled
here is plain text).  The regular expressions used by the source are small
and fixed, so each one is embedded as an explicit character-list scanner
with the exact matching semantics of the JS regex engine on the shapes of
input the source feeds it (leftmost match, greedy quantifiers, `.` not
matching line terminators, explicit `\r?\n` handling).
-/

namespace Checklist

/-- JS strings as character sequences. -/
abbrev Str := List Char

/-- Convert a Lean string literal to the embedded string type. -/
def lit (s : String) : Str := s.data

/-- `[0-9]` character class. -/
def isDigitCh (c : Char) : Bool := '0' ≤ c && c ≤ '9'

/-- The JS `.` metacharacter: any character except a line terminator. -/
def isDotCh (c : Char) : Bool :=
  c ≠ '\n' && c ≠ '\r' && c ≠ ' ' && c ≠ ' '

/-- The JS `\s` character class (whitespace), restricted to the code points
that can occur in the texts this program handles. -/
def isWsCh (c : Char) : Bool :=
  c = ' ' || c = '\t' || c = '\n' || c = '\r' ||
  c = '\x0b' || c = '\x0c' || c = ' '

/-- Drop a literal from the front of a string (regex literal matching). -/
def dropLit : Str → Str → Option Str
  | [], cs => some cs
  | _ :: _, [] => none
  | p :: ps, c :: cs => if c = p then dropLit ps cs else none

/-- `dropLit` for a Lean string literal. -/
def dropLitS (s : String) (cs : Str) : Option Str := dropLit (lit s) cs

/-- Whether a literal is a prefix of a string. -/
def startsWithLit (p cs : Str) : Bool := (dropLit p cs).isSome

/-- Match `\r?\n` at the front of a string. -/
def dropCRLF : Str → Option Str
  | '\r' :: '\n' :: cs => some cs
  | '\n' :: cs => some cs
  | _ => none

/-- Take the maximal run of characters satisfying `p` (greedy `p*`),
returning the run and the remainder. -/
def takeRun (p : Char → Bool) : Str → Str × Str
  | [] => ([], [])
  | c :: cs =>
    if p c then
      let r := takeRun p cs
      (c :: r.1, r.2)
    else ([], c :: cs)

/-- Greedy `[0-9]+`: at least one digit, maximal run. -/
def takeDigits1 (cs : Str) : Option (Str × Str) :=
  let r := takeRun isDigitCh cs
  if r.1 = [] then none else some r

/-- Numeric value of a digit string (the effect of `Number.parseInt(s, 10)`
on the all-digit captures produced by the regexes of the source). -/
def digitsToNat (ds : Str) : Nat :=
  ds.foldl (fun acc c => acc * 10 + (c.toNat - '0'.toNat)) 0

/-- Generic leftmost-match scan: try the position matcher `f` at every
position of the string from left to right (including the end-of-string
position, as `String.prototype.match` does) and return the first success. -/
def scanFirst (f : Str → Option α) : Str → Option α
  | [] => f []
  | c :: cs =>
    match f (c :: cs) with
    | some a => some a
    | none => scanFirst f cs

/-- Whether a pattern occurs as a contiguous substring. -/
def occursIn (p cs : Str) : Bool :=
  (scanFirst (fun t => if startsWithLit p t then some () else none) cs).isSome

/-! ### The version regex

`new RegExp('([0-9]+)\\.([0-9]+)\\.([0-9]+)(?:-([0-9]+))?', 'g')`, used as
`issue.body.match(versionRegex)[0]`: the first (leftmost) match in the body.
At a given position the engine takes a maximal digit run, a literal dot,
and so on; the optional `-BUILD` group is taken when it matches. -/

/-- Try the version pattern at the current position, returning the matched
text.  Greedy digit runs followed by a literal cannot backtrack usefully
(a digit given back would have to be matched by `.` = `\.`, impossible),
so maximal-run semantics is exact. -/
def versionAt (cs : Str) : Option Str :=
  match takeDigits1 cs with
  | none => none
  | some (d1, r1) =>
    match dropLit ['.'] r1 with
    | none => none
    | some r2 =>
      match takeDigits1 r2 with
      | none => none
      | some (d2, r3) =>
        match dropLit ['.'] r3 with
        | none => none
        | some r4 =>
          match takeDigits1 r4 with
          | none => none
          | some (d3, r5) =>
            let base := d1 ++ ['.'] ++ d2 ++ ['.'] ++ d3
            match r5 with
            | c :: r6 =>
              if c = '-' then
                match takeDigits1 r6 with
                | some (d4, _) => some (base ++ ['-'] ++ d4)
                | none => some base
              else some base
            | [] => some base

/-- `body.match(versionRegex)[0]`: leftmost version-shaped token in the
body, or `none` when there is no match (in which case the JS source throws
a `TypeError` that the caller turns into the malformed-ticket error). -/
def firstVersionMatch (body : Str) : Option Str := scanFirst versionAt body

/-! ### The URL regexes

```
GITHUB_BASE_URL_REGEX = https?://(?:github\.com|api\.github\.com)
PULL_REQUEST_REGEX    = BASE/.*/.*/pull/([0-9]+).*
ISSUE_OR_PULL_REQUEST_REGEX = BASE/.*/.*/(?:pull|issues)/([0-9]+).*
```

These are matched against single-line texts (checklist lines); `.` does
not cross line terminators.  After the literal scheme/host/slash part, the
pattern `.*/.*/KEY/([0-9]+).*` matches the rest of the line exactly when
the rest of the line contains an occurrence of `/KEY/` followed by at
least one digit with at least one `/` strictly before the occurrence; the
greedy `.*`s make the engine capture the digits of the last such
occurrence, and the trailing `.*` extends the whole match to the end of
the line.  The scanners below implement exactly that characterisation. -/

/-- Does `/KEY/[0-9]+` start at this suffix, for one of the allowed keys?
`keys` lists the alternation branches (e.g. `pull` alone, or
`pull`/`issues`).  Returns the digits captured at this occurrence (the
greedy maximal run). -/
def keyOccurrenceAt (keys : List Str) (t : Str) : Option Str :=
  keys.firstM (fun k => do
    let r ← dropLit ('/' :: k ++ ['/']) t
    let (ds, _) ← takeDigits1 r
    pure ds)

/-- Scan `t` for occurrences of `/KEY/[0-9]+` that have a `/` strictly
before their starting position (`slashSeen` records whether a slash
occurred before the current position), returning the digits of the last
such occurrence. -/
def tailScan (keys : List Str) (slashSeen : Bool) : Str → Option Str
  | [] => none
  | c :: cs =>
    match tailScan keys (slashSeen || c = '/') cs with
    | some ds => some ds
    | none => if slashSeen then keyOccurrenceAt keys (c :: cs) else none

/-- Match `.*/.*/(?:KEYS)/([0-9]+).*` against an entire line remainder
`t` (all characters of `t` are on one line; the literal `/` preceding the
first `.*` has already been consumed by the caller).  The pattern
decomposes `t` as `A ++ "/" ++ B ++ "/KEY/" ++ digits ++ tail`, i.e. it
succeeds iff some key occurrence has a slash strictly before it; the
greedy `.*` backtracking makes the captured number come from the last
such occurrence (if the last occurrence had no slash before it, no
occurrence would produce a match at all), and the match consumes the
whole remainder of the line. -/
def tailKeyCapture (keys : List Str) (t : Str) : Option Nat :=
  (tailScan keys false t).map digitsToNat

/-- Match `https?://` at the front. -/
def dropScheme (cs : Str) : Option Str :=
  match dropLitS "https://" cs with
  | some r => some r
  | none => dropLitS "http://" cs

/-- Match `(?:github\.com|api\.github\.com)` at the front (first
alternative preferred, with backtracking into the second if the rest of
the pattern fails — the caller tries both continuations). -/
def dropHost (cs : Str) : List Str :=
  match dropLitS "github.com" cs with
  | some r =>
    match dropLitS "api.github.com" cs with
    | some r2 => [r, r2]
    | none => [r]
  | none =>
    match dropLitS "api.github.com" cs with
    | some r2 => [r2]
    | none => []

/-- Match one of the URL regexes at the current position of a line.  `t`
must be a single-line text (no `\r`/`\n`); the result is the captured
number.  The full match always extends to the end of the line (trailing
greedy `.*`), so the matched text is the whole of `t`. -/
def urlMatchAt (keys : List Str) (t : Str) : Option Nat := do
  let r1 ← dropScheme t
  (dropHost r1).firstM (fun r2 =>
    match r2 with
    | '/' :: r3 => tailKeyCapture keys r3
    | _ => none)

/-- `PULL_REQUEST_REGEX` at a position. -/
def pullUrlAt (t : Str) : Option Nat := urlMatchAt [lit "pull"] t

/-- `ISSUE_OR_PULL_REQUEST_REGEX` at a position. -/
def issueOrPullUrlAt (t : Str) : Option Nat :=
  urlMatchAt [lit "pull", lit "issues"] t

/-- `GithubUtils.getPullRequestNumberFromURL`: match the whole URL string
against `PULL_REQUEST_REGEX` (`String.prototype.match` scans from the
left), throwing (modelled as `none`) when there is no match.  URLs passed
here are single-line strings. -/
def getPullRequestNumberFromURL (url : Str) : Option Nat :=
  scanFirst pullUrlAt url

/-- `GithubUtils.getIssueOrPullRequestNumberFromURL`. -/
def getIssueOrPullRequestNumberFromURL (url : Str) : Option Nat :=
  scanFirst issueOrPullUrlAt url

/-! ### Stable sorting (underscore `_.sortBy`)

`_.sortBy(list, iteratee)` computes the iteratee for every element and
then sorts stably in ascending order of the computed keys.  We embed it as
a stable insertion sort; `List.mergeSort` is not used because underscore's
sort is stable and we need an implementation the kernel can evaluate. -/

/-- Insert `a` before the first element `b` with `key a ≤ key b`
(stable: among equal keys, earlier elements stay first). -/
def insertByKey (key : α → Nat) (a : α) : List α → List α
  | [] => [a]
  | b :: bs =>
    if key a ≤ key b then a :: b :: bs else b :: insertByKey key a bs

/-- Stable ascending sort by a numeric key (`_.sortBy`). -/
def sortByKey (key : α → Nat) (l : List α) : List α :=
  l.foldr (insertByKey key) []

/-! ### Splitting a body into lines

The section regexes are anchored on `\r?\n`, so it is convenient to view
the body as the list of its `\n`-separated segments.  Every segment but
the last is a complete line (it is followed by a `\n` in the body); the
last segment is the unterminated tail. -/

/-- Split on `\n`.  The result is never empty; all elements except the
last correspond to complete (newline-terminated) lines of the input, and
keep any `\r` characters they contain. -/
def splitNl : Str → List Str
  | [] => [[]]
  | c :: cs =>
    match splitNl cs with
    | [] => [[c]]
    | l :: ls => if c = '\n' then [] :: l :: ls else (c :: l) :: ls

/-- The complete (newline-terminated) lines of a body, raw contents. -/
def completeLines (body : Str) : List Str := (splitNl body).dropLast

/-- Remove a single trailing `'\r'` if present (the `\r` consumed by a
trailing `\r?\n` in the regexes). -/
def stripCR (l : Str) : Str := if l.getLast? = some '\r' then l.dropLast else l

/-- Whether `p` is a suffix of `l`. -/
def endsWithLit (p l : Str) : Bool := startsWithLit p.reverse l.reverse

/-! ### Section extraction

```
PRListSection      = /pull requests:\*\*\r?\n((?:-.*\r?\n)+)\r?\n\r?\n?/
deployBlockerSection = /Deploy Blockers:\*\*\r?\n((?:-.*\r?\n)+)/
internalQASection  = /Internal QA:\*\*\r?\n((?:- \[[ x]].*\r?\n)+)/
```

A match of one of these patterns consists of a complete line whose
content (after the optional `\r`) ends with the header literal, followed
by a maximal non-empty run of complete lines of the repeated shape, and —
for the PR-list pattern only — a following blank complete line (the
mandatory `\r?\n` after the group; the final `\r?\n?` is optional and
captures nothing).  Giving back repetitions cannot help the mandatory
`\r?\n` (a repeated line starts with `-`), so the maximal run is exact,
and on failure the engine resumes scanning at later positions, which is
what the recursion below does.  `String.prototype.match` returns the
leftmost match; the scan therefore proceeds line by line from the top. -/

/-- A line matching `-.*\r?` in full: `-`, then characters matched by
`.`, then an optional trailing `\r`. -/
def isDashLine (l : Str) : Bool :=
  match stripCR l with
  | '-' :: rest => rest.all isDotCh
  | _ => false

/-- A line matching `- \[[ x]].*\r?` in full. -/
def isInternalQALine (l : Str) : Bool :=
  match stripCR l with
  | '-' :: ' ' :: '[' :: c :: ']' :: rest =>
    (c = ' ' || c = 'x') && rest.all isDotCh
  | _ => false

/-- Is there a blank complete line right after the block? -/
def blankAfter (block ls : List Str) : Bool :=
  match ls.drop block.length with
  | [] => false
  | l :: _ => stripCR l = []

/-- Find the first section match in a list of complete lines, returning
the captured block with each line's trailing `\r` stripped (the entry
regexes applied to the capture never match the `\r\n` separators, see
below). -/
def findSectionFrom (header : Str) (needBlank : Bool) (dashPred : Str → Bool) :
    List Str → Option (List Str)
  | [] => none
  | l :: ls =>
    if endsWithLit header (stripCR l) then
      let block := ls.takeWhile dashPred
      if !block.isEmpty && (!needBlank || blankAfter block ls) then
        some (block.map stripCR)
      else findSectionFrom header needBlank dashPred ls
    else findSectionFrom header needBlank dashPred ls

/-- The `pull requests:**` section capture of a body. -/
def prSectionOf (body : Str) : Option (List Str) :=
  findSectionFrom (lit "pull requests:**") true isDashLine (completeLines body)

/-- The `Deploy Blockers:**` section capture of a body. -/
def deployBlockerSectionOf (body : Str) : Option (List Str) :=
  findSectionFrom (lit "Deploy Blockers:**") false isDashLine (completeLines body)

/-- The `Internal QA:**` section capture of a body. -/
def internalQASectionOf (body : Str) : Option (List Str) :=
  findSectionFrom (lit "Internal QA:**") false isInternalQALine (completeLines body)

/-! ### Entry extraction from a captured section

`matchAll` with `- \[([ x])] (URL_REGEX)` (or with `\s` as separator) is
applied to the captured block.  No element of these patterns can match a
line terminator except the single `\s`, and a `\s` match of `\r`/`\n`
would have to be followed immediately by the scheme literal, impossible
inside a capture whose every line starts with `-`; a successful match
always extends to the end of its line (trailing greedy `.*`).  Hence
`matchAll` yields, for each line of the capture in order, the leftmost
match inside that line (at most one per line). -/

/-- First `- \[([ x])] (PULL_REQUEST_REGEX)` match at a position of a
line: returns (checkbox is `x`, match[2] = URL text to end of line,
match[3] = captured number). -/
def prEntryAt (t : Str) : Option (Bool × Str × Nat) :=
  match t with
  | '-' :: ' ' :: '[' :: c :: ']' :: ' ' :: rest =>
    if c = ' ' || c = 'x' then
      (pullUrlAt rest).map (fun n => (c = 'x', rest, n))
    else none
  | _ => none

/-- `- \[([ x])]\s(REGEX)` match at a position of a line (the separator
is `\s`; within a line it can only be an in-line whitespace character). -/
def wsEntryAt (urlAt : Str → Option Nat) (t : Str) : Option (Bool × Str × Nat) :=
  match t with
  | '-' :: ' ' :: '[' :: c :: ']' :: w :: rest =>
    if (c = ' ' || c = 'x') && isWsCh w then
      (urlAt rest).map (fun n => (c = 'x', rest, n))
    else none
  | _ => none

/-! ### Parsed entry shapes (the objects the parser builds) -/

structure PREntry where
  url : Str
  number : Nat
  isVerified : Bool
deriving DecidableEq

structure DeployBlockerEntry where
  url : Str
  number : Nat
  isResolved : Bool
deriving DecidableEq

structure InternalQAEntry where
  url : Str
  number : Nat
  isResolved : Bool
deriving DecidableEq

/-- `url.split('-')[0]`: the part before the first `-` (the whole string
when there is none). -/
def splitDashHead (t : Str) : Str := t.takeWhile (fun c => c ≠ '-')

/-- `String.prototype.trim`. -/
def jsTrim (t : Str) : Str :=
  ((t.dropWhile isWsCh).reverse.dropWhile isWsCh).reverse

/-- `GithubUtils.getStagingDeployCashPRList` applied to a body. -/
def getStagingDeployCashPRList (body : Str) : List PREntry :=
  match prSectionOf body with
  | none => []
  | some block =>
    sortByKey PREntry.number
      (block.filterMap (fun l =>
        (scanFirst prEntryAt l).map (fun m =>
          { url := m.2.1, number := m.2.2, isVerified := m.1 })))

/-- `GithubUtils.getStagingDeployCashDeployBlockers` applied to a body. -/
def getStagingDeployCashDeployBlockers (body : Str) : List DeployBlockerEntry :=
  match deployBlockerSectionOf body with
  | none => []
  | some block =>
    sortByKey DeployBlockerEntry.number
      (block.filterMap (fun l =>
        (scanFirst (wsEntryAt issueOrPullUrlAt) l).map (fun m =>
          { url := m.2.1, number := m.2.2, isResolved := m.1 })))

/-- `GithubUtils.getStagingDeployCashInternalQA` applied to a body.  Note
that the produced objects carry `url`, `number` and `isResolved` only:
the `@mention` tail of the line is cut off by `split('-')[0].trim()` and
no assignee field is produced. -/
def getStagingDeployCashInternalQA (body : Str) : List InternalQAEntry :=
  match internalQASectionOf body with
  | none => []
  | some block =>
    sortByKey InternalQAEntry.number
      (block.filterMap (fun l =>
        (scanFirst (wsEntryAt pullUrlAt) l).map (fun m =>
          { url := jsTrim (splitDashHead m.2.1), number := m.2.2,
            isResolved := m.1 })))

/-! ### The three verification checkboxes

The pattern `-\s\[x]\sI checked the \[App Timing Dashboard]` (and the two
analogous ones) is tested against the body: a `-`, one whitespace, the
literal `[x]`, one whitespace, then a fixed phrase, anywhere in the
body. -/

/-- Match `-\s\[x]\sPHRASE` at a position. -/
def checkMarkAt (phrase : Str) (t : Str) : Option Unit :=
  match t with
  | c1 :: w1 :: c2 :: c3 :: c4 :: w2 :: rest =>
    if c1 = '-' && isWsCh w1 && c2 = '[' && c3 = 'x' && c4 = ']' && isWsCh w2 then
      (dropLit phrase rest).map (fun _ => ())
    else none
  | _ => none

/-- `.test(body)` for the check patterns. -/
def testCheckMark (phrase : String) (body : Str) : Bool :=
  (scanFirst (checkMarkAt (lit phrase)) body).isSome

def timingPhrase : String := "I checked the [App Timing Dashboard]"
def firebasePhrase : String := "I checked [Firebase Crashlytics]"
def ghStatusPhrase : String := "I checked [GitHub Status]"

/-! ### `getStagingDeployCashData` and `getStagingDeployCash` -/

/-- A GitHub issue as consumed by the parser. -/
structure Issue where
  title : Str
  url : Str
  labels : List Str
  body : Str
deriving DecidableEq

/-- The object `getStagingDeployCashData` returns. -/
structure StagingDeployCashData where
  title : Str
  url : Str
  number : Nat
  labels : List Str
  PRList : List PREntry
  deployBlockers : List DeployBlockerEntry
  internalQAPRList : List InternalQAEntry
  isTimingDashboardChecked : Bool
  isFirebaseChecked : Bool
  isGHStatusChecked : Bool
  tag : Str
deriving DecidableEq

/-- `GithubUtils.getStagingDeployCashData`.  The body of the JS function
is a `try` block; the only two operations in it that can throw are the
tag extraction (`issue.body.match(versionRegex)[0]` throws a `TypeError`
when there is no match) and `getIssueOrPullRequestNumberFromURL(issue.url)`
(throws when the issue's own URL does not match).  Any such exception is
turned into the single malformed-ticket error, modelled as `none`.  The
`replace` removing backticks is applied to the matched token, which never
contains a backtick, but is embedded faithfully as a filter. -/
def getStagingDeployCashData (issue : Issue) : Option StagingDeployCashData :=
  match firstVersionMatch issue.body,
        getIssueOrPullRequestNumberFromURL issue.url with
  | some tagMatch, some num =>
    some
      { title := issue.title
        url := issue.url
        number := num
        labels := issue.labels
        PRList := getStagingDeployCashPRList issue.body
        deployBlockers := getStagingDeployCashDeployBlockers issue.body
        internalQAPRList := getStagingDeployCashInternalQA issue.body
        isTimingDashboardChecked := testCheckMark timingPhrase issue.body
        isFirebaseChecked := testCheckMark firebasePhrase issue.body
        isGHStatusChecked := testCheckMark ghStatusPhrase issue.body
        tag := tagMatch.filter (fun c => c ≠ '\x60') }
  | _, _ => none

/-- The error taxonomy of `getStagingDeployCash`:
`notFound` is the thrown error with `code = 404` (zero matching issues),
`ambiguousState` the one with `code = 500` (more than one matching
issue), `malformedTicket` the error thrown by
`getStagingDeployCashData`. -/
inductive TicketLookupError where
  | notFound
  | ambiguousState
  | malformedTicket
deriving DecidableEq

/-- `GithubUtils.getStagingDeployCash`, as a function of the issue list
the platform returns for the query (label = `StagingDeployCash`, state
open) — the listing itself is the external issue store. -/
def getStagingDeployCash (issues : List Issue) :
    Except TicketLookupError StagingDeployCashData :=
  match issues with
  | [] => .error .notFound
  | [issue] =>
    match getStagingDeployCashData issue with
    | some d => .ok d
    | none => .error .malformedTicket
  | _ :: _ :: _ => .error .ambiguousState

/-! ### Underscore collection helpers used by the serializer -/

/-- `_.contains` / `_.includes`. -/
def jsContains [DecidableEq α] (l : List α) (x : α) : Bool := l.any (fun y => y = x)

/-- `_.unique` / `_.uniq`: keep the first occurrence of each value. -/
def jsUniqAux [DecidableEq α] (seen : List α) : List α → List α
  | [] => []
  | a :: as =>
    if jsContains seen a then jsUniqAux seen as
    else a :: jsUniqAux (a :: seen) as

def jsUniq [DecidableEq α] (l : List α) : List α := jsUniqAux [] l

/-- `_.difference(l, remove)`: elements of `l` not present in `remove`
(order preserved, duplicates of `l` kept). -/
def jsDifference [DecidableEq α] (l remove : List α) : List α :=
  l.filter (fun x => !jsContains remove x)

/-- `_.union(a, b)` = unique values of the concatenation, in first-seen
order. -/
def jsUnion [DecidableEq α] (a b : List α) : List α := jsUniq (a ++ b)

/-! ### The JS object used as `internalQAPRMap`

A JS plain object with string (URL) keys: property assignment keeps the
position of an existing key and appends a new key; `_.each`, `_.keys`
and `_.values` all iterate keys in that insertion order. -/

/-- `map[k] = v` on an insertion-ordered string-keyed object. -/
def objInsert [DecidableEq κ] (m : List (κ × ν)) (k : κ) (v : ν) : List (κ × ν) :=
  if m.any (fun p => p.1 = k) then
    m.map (fun p => if p.1 = k then (k, v) else p)
  else m ++ [(k, v)]

/-! ### Fetched pull-request records -/

/-- A pull request as returned by the listing API, with the fields the
source reads: `number`, `title`, `html_url`, `merged_by.login`
(`merged_by` is `null` for an unmerged PR, modelled as `none`) and the
label name set. -/
structure PullRequest where
  number : Nat
  title : Str
  html_url : Str
  merged_by : Option Str
  labels : List Str
deriving DecidableEq

/-- `CONST.LABELS.INTERNAL_QA` (from `.github/libs/CONST.js`, outside
this excerpt; no claim depends on its concrete text). -/
def INTERNAL_QA_LABEL : Str := lit "InternalQA"

/-- The case-insensitive `\[No\s?QA]` test applied to a PR title:
a literal `[`, `no` case-insensitively, an optional whitespace, then
`qa]` case-insensitively, anywhere in the title.  The optional `\s?` is
greedy: the continuation is tried with the whitespace consumed first. -/
def dropLitCI : Str → Str → Option Str
  | [], cs => some cs
  | _ :: _, [] => none
  | p :: ps, c :: cs => if c.toLower = p.toLower then dropLitCI ps cs else none

def noQAAt (t : Str) : Option Unit := do
  let r1 ← dropLit ['['] t
  let r2 ← dropLitCI (lit "no") r1
  let tailMatch := fun (r : Str) => (dropLitCI (lit "qa]") r).map (fun _ => ())
  match r2 with
  | w :: rest =>
    if isWsCh w then
      match tailMatch rest with
      | some u => some u
      | none => tailMatch r2
    else tailMatch r2
  | [] => tailMatch r2

/-- `/\[No\s?QA]/i.test(title)`. -/
def testNoQA (title : Str) : Bool := (scanFirst noQAAt title).isSome

/-! ### `fetchAllPullRequests` and the pagination primitive

`octokit.paginate(endpoint, params, mapFn)` requests pages in order; the
`mapFn(response, done)` callback returns the page's items, which are
accumulated into one flat array, and calling `done()` stops the iteration
after the current page.  We model the remote listing as a list of page
results, each either a page of records or a transport failure; a page
entry is only ever inspected if that page is actually requested. -/

/-- A transport-level failure of a single page request (after the
rate-limited client's own retries). -/
structure TransportFailure where
  message : Str
deriving DecidableEq

/-- The pagination loop: returns the accumulated items together with the
number of page requests issued, or the transport failure that aborted
it. -/
def paginateRun (stop : List PullRequest → Bool) :
    List (Except TransportFailure (List PullRequest)) →
    Except TransportFailure (List PullRequest × Nat)
  | [] => .ok ([], 0)
  | .error e :: _ => .error e
  | .ok page :: rest =>
    if stop page then .ok (page, 1)
    else
      match paginateRun stop rest with
      | .error e => .error e
      | .ok (items, n) => .ok (page ++ items, n + 1)

/-- The literal request-parameter object of `fetchAllPullRequests`. -/
structure ListPullRequestsParams where
  state : Str
  sort : Str
  direction : Str
  per_page : Nat
deriving DecidableEq

def fetchAllPullRequestsParams : ListPullRequestsParams :=
  { state := lit "all", sort := lit "created", direction := lit "desc",
    per_page := 100 }

/-- `_.first(_.sortBy(pullRequestNumbers))`: the minimum of the requested
numbers (`undefined` for an empty list, which then compares unequal to
every `pr.number`). -/
def oldestPROf (pullRequestNumbers : List Nat) : Option Nat :=
  (sortByKey id pullRequestNumbers).head?

/-- The `done()` predicate of `fetchAllPullRequests`:
`_.find(data, (pr) => pr.number === oldestPR)`. -/
def pageHasOldest (oldestPR : Option Nat) (page : List PullRequest) : Bool :=
  page.any (fun pr => some pr.number = oldestPR)

/-- `GithubUtils.fetchAllPullRequests`, as a function of the remote page
listing.  The final `.catch((err) => console.error(...))` swallows a
transport failure: the promise then resolves with `undefined`, modelled
as `none`.  On success the accumulated list is filtered down to the
requested numbers.  The page-request count is paired with the result for
specification purposes (it is observable behaviour of the model, not a
field of the JS return value). -/
def fetchAllPullRequests
    (pages : List (Except TransportFailure (List PullRequest)))
    (pullRequestNumbers : List Nat) : Option (List PullRequest × Nat) :=
  match paginateRun (pageHasOldest (oldestPROf pullRequestNumbers)) pages with
  | .error _ => none
  | .ok (prList, n) =>
    some (prList.filter (fun pr => jsContains pullRequestNumbers pr.number), n)

/-! ### `generateStagingDeployCashBody` -/

/-- The object `{issueBody, issueAssignees}` the generator resolves
with. -/
structure GeneratedIssue where
  issueBody : Str
  issueAssignees : List Str
deriving DecidableEq

def crlf : Str := ['\r', '\n']

/-- Join line contents, terminating every line with `\r\n` (the body
produced by the generator is exactly such a join, see
`generateBodyLines`). -/
def joinLinesCRLF (ls : List Str) : Str := (ls.map (fun l => l ++ crlf)).flatten

/-- `'- [x]'` / `'- [ ]'`. -/
def checkbox (b : Bool) : Str := if b then lit "- [x]" else lit "- [ ]"

def compareLine : Str :=
  lit "**Compare Changes:** https://github.com/Expensify/App/compare/production...staging"

def prSectionHeaderLine : Str :=
  lit "**This release contains changes from the following pull requests:**"

def internalQAHeaderLine : Str := lit "**Internal QA:**"

def deployBlockersHeaderLine : Str := lit "**Deploy Blockers:**"

def deployerVerificationsLine : Str := lit "**Deployer verifications:**"

def timingLine (checked : Bool) : Str :=
  lit "- [" ++ [if checked then 'x' else ' '] ++
  lit "] I checked the [App Timing Dashboard](https://graphs.expensify.com/grafana/d/yj2EobAGz/app-timing?orgId=1) and verified this release does not cause a noticeable performance regression."

def firebaseLine (checked : Bool) : Str :=
  lit "- [" ++ [if checked then 'x' else ' '] ++
  lit "] I checked [Firebase Crashlytics](https://console.firebase.google.com/u/0/project/expensify-chat/crashlytics/app/android:com.expensify.chat/issues?state=open&time=last-seven-days&tag=all) and verified that this release does not introduce any new crashes. More detailed instructions on this verification can be found [here](https://stackoverflowteams.com/c/expensify/questions/15095/15096)."

def ghStatusLine (checked : Bool) : Str :=
  lit "- [" ++ [if checked then 'x' else ' '] ++
  lit "] I checked [GitHub Status](https://www.githubstatus.com/) and verified there is no reported incident with Actions."

def ccLine : Str := lit "cc @Expensify/applauseleads"

/-- The issue body as a list of `\r\n`-terminated lines.  This mirrors
the string appends of the source one for one: every appended piece either
ends a line with `\r\n` or opens the next one, and the body always ends
with `\r\n`, so the concatenation of the source is exactly
`joinLinesCRLF` of this list. -/
def generateBodyLines (tag : Str) (sortedPRList : List Str)
    (internalQAPRMap : List (Str × Str)) (deployBlockers : List Str)
    (sortedDeployBlockers : List Str) (verifiedOrNoQAPRs : List Str)
    (resolvedInternalQAPRs : List Str) (resolvedDeployBlockers : List Str)
    (isTimingDashboardChecked isFirebaseChecked isGHStatusChecked : Bool) :
    List Str :=
  [lit "**Release Version:** " ++ ['\x60'] ++ tag ++ ['\x60'], compareLine] ++
  (if sortedPRList.isEmpty then [] else
    [[], prSectionHeaderLine] ++
    sortedPRList.map (fun URL =>
      checkbox (jsContains verifiedOrNoQAPRs URL) ++ [' '] ++ URL) ++
    [[], []]) ++
  (if internalQAPRMap.isEmpty then [] else
    [internalQAHeaderLine] ++
    internalQAPRMap.map (fun p =>
      checkbox (jsContains resolvedInternalQAPRs p.1) ++ [' '] ++ p.1 ++
      lit " - @" ++ p.2) ++
    [[], []]) ++
  (if deployBlockers.isEmpty then [] else
    [deployBlockersHeaderLine] ++
    sortedDeployBlockers.map (fun URL =>
      checkbox (jsContains resolvedDeployBlockers URL) ++ [' '] ++ URL) ++
    [[], []]) ++
  [deployerVerificationsLine,
   timingLine isTimingDashboardChecked,
   firebaseLine isFirebaseChecked,
   ghStatusLine isGHStatusChecked,
   [],
   ccLine]

/-- An error thrown inside the generator's `.then` callback (reading
`merged_by.login` of an unmerged PR, or a sort iteratee failing on a
malformed URL).  Such an error rejects the promise chain and is then
swallowed by the final `.catch`. -/
inductive GenerateStepError where
  | mergedByNull
  | badUrl
deriving DecidableEq

/-- `_.sortBy(list, iteratee)` where the iteratee may throw: underscore
first computes every criterion (left to right, so the first failing
element throws), then sorts stably by it. -/
def sortByUrlNumber (key : Str → Option Nat) (l : List Str) :
    Except GenerateStepError (List Str) := do
  let keyed ← l.mapM (fun u =>
    match key u with
    | some n => Except.ok (n, u)
    | none => Except.error GenerateStepError.badUrl)
  pure ((sortByKey Prod.fst keyed).map Prod.snd)

/-- The body of the `.then((data) => ...)` callback of
`generateStagingDeployCashBody`.  `data` is `undefined` (`none`) when the
fetch failed and its rejection was swallowed; `_.filter`/`_.pluck` over
`undefined` yield `[]`, so the callback then behaves as if no PR metadata
existed.  A thrown error (`merged_by` of `null`, malformed blocker URL)
rejects the chain. -/
def classifyAndRender (data : Option (List PullRequest)) (tag : Str)
    (PRList : List Str)
    (verifiedPRList : List Str) (deployBlockers : List Str)
    (resolvedDeployBlockers : List Str) (resolvedInternalQAPRs : List Str)
    (isTimingDashboardChecked isFirebaseChecked isGHStatusChecked : Bool) :
    Except GenerateStepError GeneratedIssue := do
  let fetched := data.getD []
  let qaPRs := fetched.filter (fun pr => jsContains pr.labels INTERNAL_QA_LABEL)
  let internalQAPRMap ← qaPRs.foldlM (fun m pr =>
    match pr.merged_by with
    | some login => Except.ok (objInsert m pr.html_url login)
    | none => Except.error GenerateStepError.mergedByNull)
    ([] : List (Str × Str))
  let noQAPRs := (fetched.filter (fun pr => testNoQA pr.title)).map
    PullRequest.html_url
  let verifiedOrNoQAPRs := jsUnion verifiedPRList noQAPRs
  let sortedPRList ← sortByUrlNumber getPullRequestNumberFromURL
    (jsUniq (jsDifference PRList (internalQAPRMap.map Prod.fst)))
  let sortedDeployBlockers ← sortByUrlNumber getIssueOrPullRequestNumberFromURL
    (jsUniq deployBlockers)
  pure
    { issueBody :=
        joinLinesCRLF
          (generateBodyLines tag sortedPRList internalQAPRMap deployBlockers
            sortedDeployBlockers verifiedOrNoQAPRs resolvedInternalQAPRs
            resolvedDeployBlockers isTimingDashboardChecked isFirebaseChecked
            isGHStatusChecked)
      issueAssignees := internalQAPRMap.map Prod.snd }

/-- A synchronous exception escaping `generateStagingDeployCashBody`
itself: `_.map(PRList, this.getPullRequestNumberFromURL)` runs before the
promise chain is built, so a malformed URL in `PRList` throws out of the
function (it is not routed through the final `.catch`). -/
inductive GenerateThrown where
  | badPRListUrl
deriving DecidableEq

/-- `GithubUtils.generateStagingDeployCashBody` as a function of the
remote page listing and its arguments.  The result distinguishes the
three observable outcomes:
* `Except.error _` — a synchronous throw escaping the call;
* `Except.ok none` — the promise chain rejected and the final
  `.catch((err) => console.warn('Error generating ... Continuing...'))`
  swallowed the error, resolving with `undefined`;
* `Except.ok (some issue)` — the generated body and assignee list. -/
def generateStagingDeployCashBody
    (pages : List (Except TransportFailure (List PullRequest)))
    (tag : Str) (PRList : List Str) (verifiedPRList : List Str)
    (deployBlockers : List Str) (resolvedDeployBlockers : List Str)
    (resolvedInternalQAPRs : List Str)
    (isTimingDashboardChecked : Bool)
    (isFirebaseChecked : Bool) (isGHStatusChecked : Bool) :
    Except GenerateThrown (Option GeneratedIssue) :=
  match PRList.mapM getPullRequestNumberFromURL with
  | none => .error .badPRListUrl
  | some pullRequestNumbers =>
    let data := fetchAllPullRequests pages pullRequestNumbers
    .ok
      (match classifyAndRender (data.map Prod.fst) tag PRList verifiedPRList
          deployBlockers resolvedDeployBlockers resolvedInternalQAPRs
          isTimingDashboardChecked isFirebaseChecked isGHStatusChecked with
        | .ok issue => some issue
        | .error _ => none)

/-! ### The rate-limited client

The source installs `@octokit/plugin-throttling` with the `onRateLimit` /
`onAbuseLimit` callbacks of `initOctokit`.  The `onRateLimit` callback is
translated from the source:

```
onRateLimit: (retryAfter, options) => {
    console.warn(...);
    // Retry five times when hitting a rate limit error, then give up
    if (options.request.retryCount <= 5) { ... return true; }
}
```

(returning `undefined`, i.e. `false`, once the test fails).  The retry
loop itself lives in the external throttling plugin, not in this
repository; per the plugin's documented contract, on each rate-limit
response it invokes `onRateLimit` with `options.request.retryCount` equal
to the number of retries already performed for this request (`0` on the
first failure), retries the request once if the callback returns a truthy
value, and otherwise rethrows the rate-limit error to the caller.
`runThrottled` below models that driver over a script of remote
responses indexed by attempt; the `fuel` argument only serves
termination and does not influence any result reached within it. -/

def onRateLimit (retryCount : Nat) : Bool := retryCount ≤ 5

inductive RemoteResponse where
  | ok
  | rateLimited
deriving DecidableEq

inductive CallOutcome where
  | success
  | rateLimitExceeded
  | outOfFuel
deriving DecidableEq

/-- Run one logical request against the remote script `responses`
(attempt index → response), returning the outcome and the total number
of attempts (requests actually issued). -/
def runThrottledAux (responses : Nat → RemoteResponse) :
    Nat → Nat → Nat → CallOutcome × Nat
  | 0, _, attempts => (.outOfFuel, attempts)
  | fuel + 1, retryCount, attempts =>
    match responses attempts with
    | .ok => (.success, attempts + 1)
    | .rateLimited =>
      if onRateLimit retryCount then
        runThrottledAux responses fuel (retryCount + 1) (attempts + 1)
      else (.rateLimitExceeded, attempts + 1)

def runThrottled (responses : Nat → RemoteResponse) (fuel : Nat) :
    CallOutcome × Nat :=
  runThrottledAux responses fuel 0 0

/-- A remote that answers every attempt with a rate-limit signal. -/
def alwaysRateLimited : Nat → RemoteResponse := fun _ => RemoteResponse.rateLimited

/-! ### Well-formed entry URLs

The data-model invariant says every entry `number` is extracted from a URL
of the fixed platform shape `.../pull/<n>` or `.../issues/<n>`.  A
well-formed entry URL is embedded in its canonical decomposition
`https://github.com/<org>/<repo>/<key>/<digits>`, with the path segments
drawn from a character set free of separators and of the markup
characters that delimit checklist lines (whitespace, `*`, `[`, `]`,
line terminators). -/

/-- Characters allowed in the `org`/`repo` segments of a well-formed
entry URL. -/
def segChar (c : Char) : Bool :=
  !(c = '/' || c = '*' || c = '[' || c = ']' || isWsCh c ||
    c = ' ' || c = ' ')

/-- A well-formed URL path segment. -/
def segOk (s : Str) : Bool := !s.isEmpty && s.all segChar

/-- Characters allowed in a GitHub login (`@mention`). -/
def mentionChar (c : Char) : Bool :=
  ('a' ≤ c && c ≤ 'z') || ('A' ≤ c && c ≤ 'Z') || isDigitCh c || c = '-' || c = '_'

/-- A well-formed `@mention` login. -/
def mentionOk (s : Str) : Bool := !s.isEmpty && s.all mentionChar

/-- A nonempty digit string. -/
def allDigits (s : Str) : Bool := !s.isEmpty && s.all isDigitCh

/-- The canonical well-formed entry URL
`https://github.com/<org>/<repo>/<key>/<ds>`. -/
def keyUrl (key : Str) (org repo ds : Str) : Str :=
  lit "https://" ++ lit "github.com" ++ ['/'] ++ org ++ ['/'] ++ repo ++
    ['/'] ++ key ++ ['/'] ++ ds

/-- A canonical pull-request URL. -/
def pullUrl (org repo ds : Str) : Str := keyUrl (lit "pull") org repo ds

/-- A canonical issue URL. -/
def issueUrl (org repo ds : Str) : Str := keyUrl (lit "issues") org repo ds

/-- A well-formed release tag `d1.d2.d3` or `d1.d2.d3-d4`, given by its
digit groups. -/
def tagStr (d1 d2 d3 : Str) (opt4 : Option Str) : Str :=
  d1 ++ ['.'] ++ d2 ++ ['.'] ++ d3 ++
    (match opt4 with
      | none => []
      | some d4 => '-' :: d4)

/-- Well-formedness of the digit groups of a tag. -/
def tagOk (d1 d2 d3 : Str) (opt4 : Option Str) : Bool :=
  allDigits d1 && allDigits d2 && allDigits d3 &&
    (match opt4 with
      | none => true
      | some d4 => allDigits d4)

/-- Decidable check that no position of a line matches the checkbox-test
pattern (used to discharge, by computation, the per-line side conditions
of the body-level checkbox-test analysis on the fixed lines). -/
def noCheckMarkIn (phrase l : Str) : Bool :=
  (List.range (l.length + 1)).all (fun k => (checkMarkAt phrase (l.drop k)).isNone)

/-- No suffix of the line matches the checkbox-test pattern. -/
def NoCheck (phrase l : Str) : Prop :=
  ∀ a, a <:+ l → checkMarkAt phrase a = none

/-- A pull-request record carrying only a number (used by concrete
witness listings). -/
def barePR (n : Nat) : PullRequest :=
  { number := n, title := [], html_url := [], merged_by := none, labels := [] }

/-- The concrete page listing of the C5 witness. -/
def c5Pages : List (List PullRequest) :=
  [[barePR 10, barePR 9], [barePR 8], [barePR 6, barePR 5], [barePR 4], [barePR 2]]

/-! ### Decomposed checklist-document data

The round-trip and ordering claims quantify over checklist documents
whose entries are well formed.  An entry is given by its canonical URL
decomposition (org, repo, digit string) plus its checkbox state; an
internal-QA entry also carries the assignee login. -/

structure PRSpec where
  org : Str
  repo : Str
  ds : Str
  verified : Bool
deriving DecidableEq

structure IQASpec where
  org : Str
  repo : Str
  ds : Str
  resolved : Bool
  login : Str
deriving DecidableEq

structure DBSpec where
  isPull : Bool
  org : Str
  repo : Str
  ds : Str
  resolved : Bool
deriving DecidableEq

def PRSpec.url (e : PRSpec) : Str := pullUrl e.org e.repo e.ds

def PRSpec.num (e : PRSpec) : Nat := digitsToNat e.ds

def PRSpec.ok (e : PRSpec) : Bool :=
  segOk e.org && segOk e.repo && allDigits e.ds

def IQASpec.url (e : IQASpec) : Str := pullUrl e.org e.repo e.ds

def IQASpec.num (e : IQASpec) : Nat := digitsToNat e.ds

def IQASpec.ok (e : IQASpec) : Bool :=
  segOk e.org && segOk e.repo && allDigits e.ds && mentionOk e.login &&
    !(e.org.any (fun c => c = '-')) && !(e.repo.any (fun c => c = '-'))

def DBSpec.url (e : DBSpec) : Str :=
  if e.isPull then pullUrl e.org e.repo e.ds else issueUrl e.org e.repo e.ds

def DBSpec.num (e : DBSpec) : Nat := digitsToNat e.ds

def DBSpec.ok (e : DBSpec) : Bool :=
  segOk e.org && segOk e.repo && allDigits e.ds

/-- The fetched pull-request record backing an internal-QA entry: carries
the internal-QA label and a merge actor. -/
def iqaRecord (e : IQASpec) : PullRequest :=
  { number := digitsToNat e.ds, title := [], html_url := IQASpec.url e,
    merged_by := some e.login, labels := [INTERNAL_QA_LABEL] }

/-- URLs of the fetched records whose title carries a no-QA marker. -/
def noQAUrls (extras : List PullRequest) : List Str :=
  (extras.filter (fun pr => testNoQA pr.title)).map PullRequest.html_url

/-- The full PR list handed to the generator (main PRs and internal-QA
PRs together, as the deploy workflow does). -/
def specPRList (mains : List PRSpec) (iqas : List IQASpec) : List Str :=
  mains.map PRSpec.url ++ iqas.map IQASpec.url

def specVerified (mains : List PRSpec) : List Str :=
  (mains.filter PRSpec.verified).map PRSpec.url

def specResolvedIQA (iqas : List IQASpec) : List Str :=
  (iqas.filter IQASpec.resolved).map IQASpec.url

def specDB (dbs : List DBSpec) : List Str := dbs.map DBSpec.url

def specResolvedDB (dbs : List DBSpec) : List Str :=
  (dbs.filter DBSpec.resolved).map DBSpec.url

/-- A main-list line as the generator emits it, with the effective
verified set `V`. -/
def mainLineB (V : List Str) (e : PRSpec) : Str :=
  checkbox (jsContains V (PRSpec.url e)) ++ [' '] ++ PRSpec.url e

/-- An internal-QA line as the generator emits it, with the resolved set
`R`. -/
def iqaLineB (R : List Str) (e : IQASpec) : Str :=
  checkbox (jsContains R (IQASpec.url e)) ++ [' '] ++ IQASpec.url e ++
    lit " - @" ++ e.login

/-- A deploy-blocker line as the generator emits it, with the resolved
set `RD`. -/
def dbLineB (RD : List Str) (e : DBSpec) : Str :=
  checkbox (jsContains RD (DBSpec.url e)) ++ [' '] ++ DBSpec.url e

/-- The full line list of a generated body with all three sections
nonempty, spelled out (the render-evaluation theorem shows the generator
produces exactly this list). -/
def specLines (d1 d2 d3 : Str) (opt4 : Option Str) (V R RD : List Str)
    (mains : List PRSpec) (iqas : List IQASpec) (dbs : List DBSpec)
    (bT bF bG : Bool) : List Str :=
  [lit "**Release Version:** " ++ ['\x60'] ++ tagStr d1 d2 d3 opt4 ++ ['\x60'],
   compareLine, [], prSectionHeaderLine] ++
  (sortByKey PRSpec.num mains).map (mainLineB V) ++
  [[], [], internalQAHeaderLine] ++
  iqas.map (iqaLineB R) ++
  [[], [], deployBlockersHeaderLine] ++
  (sortByKey DBSpec.num dbs).map (dbLineB RD) ++
  [[], [], deployerVerificationsLine, timingLine bT, firebaseLine bF,
   ghStatusLine bG, [], ccLine]

/-- The full line list of a generated body in general: each of the three
sections is omitted when its list is empty, exactly as the generator
omits it (the all-nonempty `specLines` above is the fully-expanded
special case). -/
def specLinesG (d1 d2 d3 : Str) (opt4 : Option Str) (V R RD : List Str)
    (mains : List PRSpec) (iqas : List IQASpec) (dbs : List DBSpec)
    (bT bF bG : Bool) : List Str :=
  [lit "**Release Version:** " ++ ['\x60'] ++ tagStr d1 d2 d3 opt4 ++ ['\x60'],
   compareLine] ++
  (if mains.isEmpty then [] else
    [[], prSectionHeaderLine] ++
    (sortByKey PRSpec.num mains).map (mainLineB V) ++ [[], []]) ++
  (if iqas.isEmpty then [] else
    [internalQAHeaderLine] ++ iqas.map (iqaLineB R) ++ [[], []]) ++
  (if dbs.isEmpty then [] else
    [deployBlockersHeaderLine] ++
    (sortByKey DBSpec.num dbs).map (dbLineB RD) ++ [[], []]) ++
  [deployerVerificationsLine, timingLine bT, firebaseLine bF, ghStatusLine bG,
   [], ccLine]

/-- The parsed entry a round-tripped main-list line yields. -/
def PRSpec.entry (e : PRSpec) : PREntry :=
  { url := PRSpec.url e, number := PRSpec.num e, isVerified := e.verified }

/-- The parsed entry a round-tripped internal-QA line yields (no assignee
field exists on the parsed object). -/
def IQASpec.entry (e : IQASpec) : InternalQAEntry :=
  { url := IQASpec.url e, number := IQASpec.num e, isResolved := e.resolved }

/-- The parsed entry a round-tripped deploy-blocker line yields. -/
def DBSpec.entry (e : DBSpec) : DeployBlockerEntry :=
  { url := DBSpec.url e, number := DBSpec.num e, isResolved := e.resolved }

/-- Document-order numbers of the main-PR section of a body (the parser
without its final sort). -/
def prLineNumbers (body : Str) : List Nat :=
  match prSectionOf body with
  | none => []
  | some block =>
    block.filterMap (fun l => (scanFirst prEntryAt l).map (fun m => m.2.2))

/-- Document-order numbers of the deploy-blocker section of a body. -/
def deployBlockerLineNumbers (body : Str) : List Nat :=
  match deployBlockerSectionOf body with
  | none => []
  | some block =>
    block.filterMap (fun l =>
      (scanFirst (wsEntryAt issueOrPullUrlAt) l).map (fun m => m.2.2))

/-- Document-order numbers of the internal-QA section of a body. -/
def internalQALineNumbers (body : Str) : List Nat :=
  match internalQASectionOf body with
  | none => []
  | some block =>
    block.filterMap (fun l =>
      (scanFirst (wsEntryAt pullUrlAt) l).map (fun m => m.2.2))

/-! ## Supporting lemmas

### Literal matching and scanning -/

theorem dropLit_append (p r : Str) : dropLit p (p ++ r) = some r := by
  induction p with
  | nil => rfl
  | cons c p ih => simp [dropLit, ih]

theorem dropLit_eq_some {p cs r : Str} (h : dropLit p cs = some r) :
    cs = p ++ r := by
  induction p generalizing cs with
  | nil => simpa [dropLit] using h
  | cons c p ih =>
    match cs with
    | [] => exact absurd h (by simp [dropLit])
    | c2 :: cs2 =>
      by_cases hc : c2 = c
      · subst hc
        simp only [dropLit, if_pos rfl] at h
        simpa using ih h
      · simp [dropLit, hc] at h

theorem startsWithLit_iff {p t : Str} :
    startsWithLit p t = true ↔ ∃ r, t = p ++ r := by
  constructor
  · intro h
    match he : dropLit p t with
    | some r => exact ⟨r, dropLit_eq_some he⟩
    | none => simp [startsWithLit, he] at h
  · rintro ⟨r, rfl⟩
    simp [startsWithLit, dropLit_append]

theorem startsWithLit_false_of_mem {p t : Str} {c : Char} (hc : c ∈ p)
    (hnot : c ∉ t) : startsWithLit p t = false := by
  rw [Bool.eq_false_iff]
  intro h
  obtain ⟨r, rfl⟩ := startsWithLit_iff.1 h
  exact hnot (List.mem_append_left r hc)

theorem suffix_mem {t l : Str} {c : Char} (h : t <:+ l) (hc : c ∈ t) : c ∈ l :=
  h.subset hc

theorem scanFirst_eq_none_iff {f : Str → Option α} {l : Str} :
    scanFirst f l = none ↔ ∀ t, t <:+ l → f t = none := by
  induction l with
  | nil =>
    simp only [scanFirst]
    constructor
    · intro h t ht
      rw [List.suffix_nil.1 ht]
      exact h
    · intro h
      exact h [] List.nil_suffix
  | cons c cs ih =>
    simp only [scanFirst]
    constructor
    · intro h t ht
      match hf : f (c :: cs) with
      | some a => rw [hf] at h; exact absurd h (by simp)
      | none =>
        rw [hf] at h
        rcases List.suffix_cons_iff.1 ht with h1 | h2
        · rw [h1]; exact hf
        · exact ih.1 h t h2
    · intro h
      rw [h (c :: cs) (List.suffix_refl _)]
      exact ih.2 (fun t ht => h t (ht.trans (List.suffix_cons c cs)))

theorem scanFirst_append_skip {f : Str → Option α} (A B : Str)
    (h : ∀ a, a <:+ A → a ≠ [] → f (a ++ B) = none) :
    scanFirst f (A ++ B) = scanFirst f B := by
  induction A with
  | nil => rfl
  | cons c cs ih =>
    have h0 : f (c :: (cs ++ B)) = none :=
      h (c :: cs) (List.suffix_refl _) (by simp)
    rw [List.cons_append, scanFirst, h0]
    exact ih (fun a ha hne => h a (ha.trans (List.suffix_cons c cs)) hne)

theorem scanFirst_isSome_of {f : Str → Option α} {t l : Str}
    (h : t <:+ l) (hf : (f t).isSome) : (scanFirst f l).isSome := by
  obtain ⟨pre, rfl⟩ := h
  induction pre with
  | nil =>
    simp only [List.nil_append]
    cases t with
    | nil => simpa [scanFirst] using hf
    | cons c cs =>
      simp only [scanFirst]
      cases hv : f (c :: cs) with
      | some a => simp
      | none => rw [hv] at hf; exact absurd hf (by simp)
  | cons c cs ih =>
    simp only [List.cons_append, scanFirst]
    cases hv : f (c :: (cs ++ t)) with
    | some a => simp
    | none => exact ih

/-! ### Greedy runs -/

theorem takeRun_nil (p : Char → Bool) : takeRun p [] = ([], []) := rfl

theorem takeRun_stop {p : Char → Bool} {c : Char} (hc : p c = false) (r : Str) :
    takeRun p (c :: r) = ([], c :: r) := by
  simp [takeRun, hc]

theorem takeRun_all_append {p : Char → Bool} {d : Str} (hd : ∀ c ∈ d, p c = true)
    (r : Str) : takeRun p (d ++ r) = (d ++ (takeRun p r).1, (takeRun p r).2) := by
  induction d with
  | nil => simp
  | cons c cs ih =>
    have hc : p c = true := hd c (List.mem_cons_self c cs)
    simp [takeRun, hc, ih (fun x hx => hd x (List.mem_cons_of_mem c hx))]

/-- A nonempty all-digit run followed by a non-digit (or nothing) is taken
exactly. -/
theorem takeDigits1_exact {d r : Str} (hne : d ≠ [])
    (hd : ∀ c ∈ d, isDigitCh c = true)
    (hr : ∀ c, r.head? = some c → isDigitCh c = false) :
    takeDigits1 (d ++ r) = some (d, r) := by
  have hrun : takeRun isDigitCh r = ([], r) := by
    cases r with
    | nil => rfl
    | cons c cs => exact takeRun_stop (hr c rfl) cs
  unfold takeDigits1
  rw [takeRun_all_append hd, hrun]
  simp [hne]

/-! ### The stable sort -/

theorem insertByKey_perm (key : α → Nat) (a : α) (l : List α) :
    List.Perm (insertByKey key a l) (a :: l) := by
  induction l with
  | nil => rfl
  | cons b bs ih =>
    by_cases h : key a ≤ key b
    · simp [insertByKey, h]
    · simp only [insertByKey, if_neg h]
      exact (ih.cons b).trans (List.Perm.swap a b bs)

theorem sortByKey_perm (key : α → Nat) (l : List α) :
    List.Perm (sortByKey key l) l := by
  induction l with
  | nil => rfl
  | cons a as ih =>
    exact (insertByKey_perm key a (sortByKey key as)).trans (ih.cons a)

theorem insertByKey_sorted (key : α → Nat) (a : α) {l : List α}
    (h : l.Pairwise (fun x y => key x ≤ key y)) :
    (insertByKey key a l).Pairwise (fun x y => key x ≤ key y) := by
  induction l with
  | nil => simp [insertByKey]
  | cons b bs ih =>
    by_cases hab : key a ≤ key b
    · rw [insertByKey, if_pos hab]
      refine List.Pairwise.cons ?_ h
      intro x hx
      rcases List.mem_cons.1 hx with rfl | hx2
      · exact hab
      · exact Nat.le_trans hab (List.rel_of_pairwise_cons h hx2)
    · rw [insertByKey, if_neg hab]
      have hbs := List.pairwise_cons.1 h
      refine List.Pairwise.cons ?_ (ih hbs.2)
      intro x hx
      have := (insertByKey_perm key a bs).mem_iff.1 hx
      rcases List.mem_cons.1 this with rfl | hx2
      · omega
      · exact hbs.1 x hx2

theorem sortByKey_sorted (key : α → Nat) (l : List α) :
    (sortByKey key l).Pairwise (fun x y => key x ≤ key y) := by
  induction l with
  | nil => simp [sortByKey]
  | cons a as ih => exact insertByKey_sorted key a ih

/-- Two sorted lists that are permutations of each other and whose keys
are distinct are equal. -/
theorem eq_of_sorted_perm_nodup_keys (key : α → Nat) {l1 l2 : List α}
    (hperm : List.Perm l1 l2)
    (h1 : l1.Pairwise (fun x y => key x ≤ key y))
    (h2 : l2.Pairwise (fun x y => key x ≤ key y))
    (hnd : (l1.map key).Nodup) : l1 = l2 := by
  induction l1 generalizing l2 with
  | nil => exact (hperm.nil_eq).symm ▸ rfl
  | cons a as ih =>
    cases l2 with
    | nil => exact absurd hperm.symm (by simp)
    | cons b bs =>
      have hab : a = b := by
        have hamem : a ∈ b :: bs := hperm.subset (List.mem_cons_self a as)
        have hbmem : b ∈ a :: as := hperm.symm.subset (List.mem_cons_self b bs)
        rcases List.mem_cons.1 hamem with h | hamem2
        · exact h
        rcases List.mem_cons.1 hbmem with h | hbmem2
        · exact h.symm
        have hk1 : key a ≤ key b := List.rel_of_pairwise_cons h1 hbmem2
        have hk2 : key b ≤ key a := List.rel_of_pairwise_cons h2 hamem2
        have hkeq : key b = key a := Nat.le_antisymm hk2 hk1
        have : key b ∈ as.map key := List.mem_map_of_mem key hbmem2
        rw [hkeq] at this
        exact absurd this ((List.nodup_cons.1 hnd).1 ∘ fun h => h)
      subst hab
      have hperm2 : List.Perm as bs := hperm.cons_inv
      exact congrArg (a :: ·)
        (ih hperm2 (List.pairwise_cons.1 h1).2 (List.pairwise_cons.1 h2).2
          (List.nodup_cons.1 hnd).2)

/-- Sorting two permuted lists with distinct keys gives the same list. -/
theorem sortByKey_congr_perm (key : α → Nat) {l1 l2 : List α}
    (h : List.Perm l1 l2)
    (hnd : (l1.map key).Nodup) : sortByKey key l1 = sortByKey key l2 := by
  refine eq_of_sorted_perm_nodup_keys key
    (((sortByKey_perm key l1).trans h).trans (sortByKey_perm key l2).symm)
    (sortByKey_sorted key l1) (sortByKey_sorted key l2) ?_
  exact ((sortByKey_perm key l1).map key).nodup_iff.2 hnd

/-! ### Lines -/

theorem splitNl_ne_nil (s : Str) : splitNl s ≠ [] := by
  cases s with
  | nil => simp [splitNl]
  | cons c cs =>
    simp only [splitNl]
    match splitNl cs with
    | [] => simp
    | l :: ls =>
      by_cases h : c = '\n' <;> simp [h]

theorem splitNl_newline_append {a : Str} (ha : '\n' ∉ a) (b : Str) :
    splitNl (a ++ '\n' :: b) = a :: splitNl b := by
  induction a with
  | nil =>
    cases hsb : splitNl b with
    | nil => exact absurd hsb (splitNl_ne_nil b)
    | cons l ls => simp [splitNl, hsb]
  | cons c cs ih =>
    have hc : c ≠ '\n' := fun h => ha (h ▸ List.mem_cons_self c cs)
    have hcs : '\n' ∉ cs := fun h => ha (List.mem_cons_of_mem c h)
    have ih2 := ih hcs
    cases hsb : splitNl b with
    | nil => exact absurd hsb (splitNl_ne_nil b)
    | cons l ls =>
      rw [hsb] at ih2
      simp [splitNl, ih2, hc, hsb]

theorem completeLines_joinLinesCRLF {ls : List Str}
    (h : ∀ l ∈ ls, '\n' ∉ l) :
    completeLines (joinLinesCRLF ls) = ls.map (fun l => l ++ ['\r']) := by
  induction ls with
  | nil => rfl
  | cons l ls ih =>
    have hl : '\n' ∉ l ++ ['\r'] := by
      intro hmem
      rcases List.mem_append.1 hmem with h1 | h1
      · exact h l (List.mem_cons_self l ls) h1
      · simp at h1
    have : joinLinesCRLF (l :: ls) = (l ++ ['\r']) ++ '\n' :: joinLinesCRLF ls := by
      simp [joinLinesCRLF, crlf]
    rw [completeLines, this, splitNl_newline_append hl]
    have hrest := ih (fun x hx => h x (List.mem_cons_of_mem l hx))
    rw [List.dropLast_cons_of_ne_nil (splitNl_ne_nil _)]
    rw [completeLines] at hrest
    rw [hrest, List.map_cons]

theorem stripCR_concat (l : Str) : stripCR (l ++ ['\r']) = l := by
  rw [stripCR, List.getLast?_concat]
  simp

theorem stripCR_no_cr {l : Str} (h : '\r' ∉ l) : stripCR l = l := by
  rw [stripCR]
  match hl : l.getLast? with
  | none => simp
  | some c =>
    have hc : c ∈ l := List.mem_of_mem_getLast? hl
    by_cases hcr : c = '\r'
    · exact absurd (hcr ▸ hc) h
    · simp [hl, hcr]

/-! ### Suffix tests -/

theorem endsWithLit_iff {p l : Str} : endsWithLit p l = true ↔ p <:+ l := by
  rw [endsWithLit, startsWithLit_iff]
  constructor
  · rintro ⟨r, hr⟩
    refine ⟨r.reverse, ?_⟩
    have h2 := congrArg List.reverse hr
    simp only [List.reverse_reverse, List.reverse_append] at h2
    exact h2.symm
  · rintro ⟨pre, rfl⟩
    exact ⟨pre.reverse, by simp⟩

theorem endsWithLit_false_of_mem {p l : Str} {c : Char} (hc : c ∈ p)
    (hnot : c ∉ l) : endsWithLit p l = false := by
  rw [Bool.eq_false_iff]
  intro h
  exact hnot ((endsWithLit_iff.1 h).subset hc)

theorem endsWithLit_append (p a : Str) : endsWithLit p (a ++ p) = true :=
  endsWithLit_iff.2 ⟨a, rfl⟩

/-! ### `takeWhile`, `drop` and `jsUniq` -/

theorem takeWhile_all_stop {α : Type _} {p : α → Bool} {xs : List α} {y : α}
    (hxs : ∀ x ∈ xs, p x = true) (hy : p y = false) (rest : List α) :
    (xs ++ y :: rest).takeWhile p = xs := by
  induction xs with
  | nil =>
    simpa using @List.takeWhile_cons_of_neg α p y rest (by simp [hy])
  | cons x xs ih =>
    have hx : p x = true := hxs x (List.mem_cons_self x xs)
    rw [List.cons_append, List.takeWhile_cons_of_pos hx,
      ih (fun z hz => hxs z (List.mem_cons_of_mem x hz))]

theorem jsUniqAux_eq_self [DecidableEq α] {l : List α} (hnd : l.Nodup) :
    ∀ seen : List α, (∀ a ∈ l, a ∉ seen) → jsUniqAux seen l = l := by
  induction l with
  | nil => intro seen _; rfl
  | cons a as ih =>
    intro seen hsub
    have ha : ¬ jsContains seen a = true := by
      intro hc
      rcases List.any_eq_true.1 hc with ⟨b, hb, hba⟩
      exact hsub a (List.mem_cons_self a as) (by rwa [of_decide_eq_true hba] at hb)
    rw [jsUniqAux, if_neg ha]
    have hnd2 := List.nodup_cons.1 hnd
    refine congrArg (a :: ·) (ih hnd2.2 (a :: seen) ?_)
    intro b hb hbmem
    rcases List.mem_cons.1 hbmem with rfl | hbm
    · exact hnd2.1 hb
    · exact hsub b (List.mem_cons_of_mem a hb) hbm

theorem jsUniq_eq_self [DecidableEq α] {l : List α} (hnd : l.Nodup) :
    jsUniq l = l :=
  jsUniqAux_eq_self hnd [] (by simp)

/-! ### Suffix decomposition and `firstM` -/

theorem suffix_append_cases {α : Type _} {a x y : List α} (h : a <:+ x ++ y) :
    a <:+ y ∨ ∃ b, b <:+ x ∧ b ≠ [] ∧ a = b ++ y := by
  induction x with
  | nil => exact Or.inl (by simpa using h)
  | cons c cs ih =>
    rw [List.cons_append] at h
    rcases List.suffix_cons_iff.1 h with h1 | h2
    · exact Or.inr ⟨c :: cs, List.suffix_refl _, by simp, by simpa using h1⟩
    · rcases ih h2 with h3 | ⟨b, hb, hbne, rfl⟩
      · exact Or.inl h3
      · exact Or.inr ⟨b, hb.trans (List.suffix_cons c cs), hbne, rfl⟩

theorem firstM_none {β : Type _} {f : Str → Option β} {l : List Str}
    (h : ∀ k ∈ l, f k = none) : l.firstM f = none := by
  induction l with
  | nil => rfl
  | cons a as ih =>
    have ha := h a (List.mem_cons_self a as)
    simp only [List.firstM, ha]
    exact ih (fun k hk => h k (List.mem_cons_of_mem a hk))

theorem firstM_cons_some {β : Type _} {f : Str → Option β} {a : Str}
    (as : List Str) {b : β} (h : f a = some b) :
    (a :: as).firstM f = some b := by
  simp [List.firstM, h]

theorem firstM_cons_none {β : Type _} {f : Str → Option β} {a : Str}
    (as : List Str) (h : f a = none) :
    (a :: as).firstM f = as.firstM f := by
  simp [List.firstM, h]

/-! ### The URL tail scan -/

theorem keyOccurrenceAt_none_of_head {keys : List Str} {t : Str}
    (h : ∀ c, t.head? = some c → c ≠ '/') : keyOccurrenceAt keys t = none := by
  refine firstM_none (fun k _ => ?_)
  cases t with
  | nil => simp [keyOccurrenceAt, dropLit]
  | cons c cs =>
    have hc : c ≠ '/' := h c rfl
    simp [keyOccurrenceAt, dropLit, hc]

theorem tailScan_none {keys : List Str} {l : Str}
    (h : ∀ a, a <:+ l → keyOccurrenceAt keys a = none) :
    ∀ b, tailScan keys b l = none := by
  induction l with
  | nil => intro b; rfl
  | cons c cs ih =>
    intro b
    have hrec := ih (fun a ha => h a (ha.trans (List.suffix_cons c cs)))
      (b || decide (c = '/'))
    have hhere := h (c :: cs) (List.suffix_refl _)
    simp only [tailScan, hrec, hhere]
    cases b <;> simp

theorem tailScan_skip {keys : List Str} {xs rest : Str}
    (h : ∀ a, a <:+ xs → a ≠ [] → keyOccurrenceAt keys (a ++ rest) = none) :
    ∀ b, tailScan keys b (xs ++ rest) =
      tailScan keys (b || xs.any (fun c => c = '/')) rest := by
  induction xs with
  | nil => intro b; simp
  | cons c cs ih =>
    intro b
    have hrec := ih (fun a ha hne => h a (ha.trans (List.suffix_cons c cs)) hne)
      (b || decide (c = '/'))
    have hhere := h (c :: cs) (List.suffix_refl _) (by simp)
    rw [List.cons_append, tailScan, hrec]
    have hassoc : ((b || decide (c = '/')) || cs.any (fun x => decide (x = '/'))) =
        (b || (c :: cs).any (fun x => decide (x = '/'))) := by
      simp [Bool.or_assoc]
    rw [hassoc]
    cases htail : tailScan keys (b || (c :: cs).any (fun x => decide (x = '/'))) rest with
    | some ds => rfl
    | none =>
      rw [List.cons_append] at hhere
      simp [hhere]

/-- The canonical occurrence: `keyOccurrenceAt` at
`['/'] ++ key ++ ['/'] ++ ds ++ after` captures exactly `ds`, provided the
single-key branch matches there. -/
theorem keyOccurrenceAt_canonical_branch {k ds after : Str}
    (hds : allDigits ds = true)
    (hafter : ∀ c, after.head? = some c → isDigitCh c = false) :
    (do
      let r ← dropLit ('/' :: k ++ ['/']) (['/'] ++ k ++ ['/'] ++ ds ++ after)
      let p ← takeDigits1 r
      pure p.1 : Option Str) = some ds := by
  have hshape : (['/'] ++ k ++ ['/'] ++ ds ++ after) =
      ('/' :: k ++ ['/']) ++ (ds ++ after) := by simp
  rw [hshape, dropLit_append]
  have hd : ((!ds.isEmpty) = true) ∧ ds.all isDigitCh = true := by
    simpa [allDigits] using hds
  have : takeDigits1 (ds ++ after) = some (ds, after) := by
    refine takeDigits1_exact ?_ ?_ hafter
    · intro he
      rw [he] at hd
      simpa using hd.1
    · intro c hc
      exact (List.all_eq_true.1 hd.2) c hc
  simp [this]

theorem scanFirst_head_some {f : Str → Option α} {l : Str} {a : α}
    (h : f l = some a) : scanFirst f l = some a := by
  cases l <;> simp [scanFirst, h]

theorem dropLit_none_head {p0 c0 : Char} {ps cs : Str} (h : c0 ≠ p0) :
    dropLit (p0 :: ps) (c0 :: cs) = none := by
  simp [dropLit, h]

theorem dropScheme_https (X : Str) : dropScheme (lit "https://" ++ X) = some X := by
  unfold dropScheme dropLitS
  rw [dropLit_append]

theorem dropHost_github (Y : Str) : dropHost (lit "github.com" ++ Y) = [Y] := by
  have h1 : dropLitS "github.com" (lit "github.com" ++ Y) = some Y := by
    unfold dropLitS
    exact dropLit_append _ _
  have h2 : dropLitS "api.github.com" (lit "github.com" ++ Y) = none := rfl
  unfold dropHost
  rw [h1, h2]

/-- Heads of nonempty suffixes are members. -/
theorem head_mem_of_suffix {a l : Str} {c : Char} (ha : a <:+ l)
    (hc : a.head? = some c) : c ∈ l :=
  ha.subset (List.mem_of_mem_head? hc)

/-- The main URL-matcher evaluation: one of the two URL regexes applied
at the start of `<canonical url> ++ after` (the rest of a checklist line)
matches the whole remainder of the line and captures exactly the
canonical digits, provided the path segments and the suffix are free of
`/` and the suffix does not begin with a digit. -/
theorem urlMatchAt_canonical (keys : List Str) (key org repo ds after : Str)
    (horgne : org ≠ []) (horg : '/' ∉ org)
    (hrepone : repo ≠ []) (hrepo : '/' ∉ repo)
    (hds : allDigits ds = true)
    (hkeysl : '/' ∉ key)
    (hkeys : ∀ k ∈ keys, k ≠ [] ∧ (∀ c, k.head? = some c → isDigitCh c = false))
    (hafter : '/' ∉ after)
    (hocc : keyOccurrenceAt keys (['/'] ++ key ++ ['/'] ++ ds ++ after) = some ds) :
    urlMatchAt keys (keyUrl key org repo ds ++ after) = some (digitsToNat ds) := by
  have hdsne : ds ≠ [] := by
    intro he
    rw [allDigits, he] at hds
    simpa using hds
  have hdsall : ∀ c ∈ ds, isDigitCh c = true := by
    intro c hc
    have h2 : ((!ds.isEmpty) = true) ∧ ds.all isDigitCh = true := by
      simpa [allDigits] using hds
    exact List.all_eq_true.1 h2.2 c hc
  have hkocc_head : ∀ (t : Str), (∀ c, t.head? = some c → c ≠ '/') →
      keyOccurrenceAt keys t = none := fun t h => keyOccurrenceAt_none_of_head h
  have head_of_chunk : ∀ (b : Str) (Z : Str) (c : Char), b ≠ [] →
      (b ++ Z).head? = some c → c ∈ b := by
    intro b Z c hbne hc
    match b, hbne with
    | b0 :: bt, _ =>
      simp only [List.cons_append, List.head?] at hc
      injection hc with hc
      exact hc ▸ List.mem_cons_self b0 bt
  -- no occurrence inside key ++ '/' ++ ds ++ after
  have hinner : tailScan keys true (key ++ (['/'] ++ ds ++ after)) = none := by
    refine tailScan_none (fun a ha => ?_) true
    rcases suffix_append_cases ha with hy | ⟨b, hb, hbne, rfl⟩
    · have hy2 : a <:+ '/' :: (ds ++ after) := by simpa using hy
      rcases List.suffix_cons_iff.1 hy2 with rfl | hds2
      · -- the slash before the digits: every key branch mismatches a digit
        refine firstM_none (fun k hk => ?_)
        obtain ⟨hkne, hkhd⟩ := hkeys k hk
        match k, hkne, ds, hdsne with
        | k0 :: kt, _, d0 :: dt, _ =>
          have hk0 : isDigitCh k0 = false := hkhd k0 rfl
          have hd0 : isDigitCh d0 = true := hdsall d0 (List.mem_cons_self d0 dt)
          have hne : d0 ≠ k0 := by
            intro he
            rw [he, hk0] at hd0
            exact absurd hd0 (by simp)
          have hdrop : dropLit ('/' :: k0 :: (kt ++ ['/']))
              ('/' :: d0 :: (dt ++ after)) = none := by
            show (if ('/' : Char) = '/' then
              dropLit (k0 :: (kt ++ ['/'])) (d0 :: (dt ++ after)) else none) = none
            rw [if_pos rfl]
            exact dropLit_none_head hne
          simp [hdrop]
      · rcases suffix_append_cases hds2 with haft | ⟨b, hb, hbne, rfl⟩
        · refine hkocc_head a (fun c hc => ?_)
          intro hce
          rw [hce] at hc
          exact hafter (head_mem_of_suffix haft hc)
        · refine hkocc_head _ (fun c hc => ?_)
          intro hce
          rw [hce] at hc
          have : ('/' : Char) ∈ ds := hb.subset (head_of_chunk b after '/' hbne hc)
          have := hdsall '/' this
          simpa [isDigitCh] using this
    · refine hkocc_head _ (fun c hc => ?_)
      intro hce
      rw [hce] at hc
      exact hkeysl (hb.subset (head_of_chunk b _ '/' hbne hc))
  -- no occurrence starting inside org or repo
  have hskip_org : ∀ a, a <:+ org → a ≠ [] →
      keyOccurrenceAt keys
        (a ++ (['/'] ++ (repo ++ (['/'] ++ key ++ ['/'] ++ ds ++ after)))) = none := by
    intro a ha hane
    refine hkocc_head _ (fun c hc => ?_)
    intro hce
    rw [hce] at hc
    exact horg (ha.subset (head_of_chunk a _ '/' hane hc))
  have hskip_repo : ∀ a, a <:+ repo → a ≠ [] →
      keyOccurrenceAt keys (a ++ (['/'] ++ key ++ ['/'] ++ ds ++ after)) = none := by
    intro a ha hane
    refine hkocc_head _ (fun c hc => ?_)
    intro hce
    rw [hce] at hc
    exact hrepo (ha.subset (head_of_chunk a _ '/' hane hc))
  have horgany : org.any (fun c => decide (c = '/')) = false := by
    rw [Bool.eq_false_iff]
    intro h
    obtain ⟨c, hc, hcd⟩ := List.any_eq_true.1 h
    exact horg (of_decide_eq_true hcd ▸ hc)
  have hrepoany : repo.any (fun c => decide (c = '/')) = false := by
    rw [Bool.eq_false_iff]
    intro h
    obtain ⟨c, hc, hcd⟩ := List.any_eq_true.1 h
    exact hrepo (of_decide_eq_true hcd ▸ hc)
  -- the canonical occurrence fires at the slash before `key`
  have hocc2 : keyOccurrenceAt keys ('/' :: (key ++ (['/'] ++ ds ++ after))) = some ds := by
    have he : ('/' :: (key ++ (['/'] ++ ds ++ after)) : Str) =
        ['/'] ++ key ++ ['/'] ++ ds ++ after := by simp
    rw [he]
    exact hocc
  have hstep4 : tailScan keys true ('/' :: (key ++ (['/'] ++ ds ++ after))) = some ds := by
    have h0 : tailScan keys true ('/' :: (key ++ (['/'] ++ ds ++ after))) =
        match tailScan keys true (key ++ (['/'] ++ ds ++ after)) with
        | some ds2 => some ds2
        | none => keyOccurrenceAt keys ('/' :: (key ++ (['/'] ++ ds ++ after))) := rfl
    rw [h0, hinner]
    exact hocc2
  have hstep3 : tailScan keys true
      (repo ++ (['/'] ++ key ++ ['/'] ++ ds ++ after)) = some ds := by
    rw [tailScan_skip hskip_repo true, hrepoany]
    have he : (['/'] ++ key ++ ['/'] ++ ds ++ after : Str) =
        '/' :: (key ++ (['/'] ++ ds ++ after)) := by simp
    rw [Bool.or_false, he]
    exact hstep4
  have hstep1 : tailScan keys false
      (org ++ (['/'] ++ (repo ++ (['/'] ++ key ++ ['/'] ++ ds ++ after)))) = some ds := by
    rw [tailScan_skip hskip_org false, horgany, Bool.or_false]
    have h0 : tailScan keys false
        (['/'] ++ (repo ++ (['/'] ++ key ++ ['/'] ++ ds ++ after))) =
        match tailScan keys true (repo ++ (['/'] ++ key ++ ['/'] ++ ds ++ after)) with
        | some ds2 => some ds2
        | none => none := rfl
    rw [h0, hstep3]
  -- assemble `urlMatchAt`
  have hshape : keyUrl key org repo ds ++ after =
      lit "https://" ++ (lit "github.com" ++ (['/'] ++
        (org ++ (['/'] ++ (repo ++ (['/'] ++ key ++ ['/'] ++ ds ++ after)))))) := by
    simp [keyUrl]
  rw [hshape]
  show (do
    let r1 ← dropScheme (lit "https://" ++ (lit "github.com" ++ (['/'] ++
        (org ++ (['/'] ++ (repo ++ (['/'] ++ key ++ ['/'] ++ ds ++ after)))))))
    (dropHost r1).firstM (fun r2 =>
      match r2 with
      | '/' :: r3 => tailKeyCapture keys r3
      | _ => none) : Option Nat) = some (digitsToNat ds)
  rw [dropScheme_https]
  show (dropHost (lit "github.com" ++ (['/'] ++
      (org ++ (['/'] ++ (repo ++ (['/'] ++ key ++ ['/'] ++ ds ++ after))))))).firstM
    (fun r2 =>
      match r2 with
      | '/' :: r3 => tailKeyCapture keys r3
      | _ => none) = some (digitsToNat ds)
  rw [dropHost_github]
  refine firstM_cons_some [] ?_
  show tailKeyCapture keys
      (org ++ (['/'] ++ (repo ++ (['/'] ++ key ++ ['/'] ++ ds ++ after)))) =
    some (digitsToNat ds)
  rw [tailKeyCapture, hstep1]
  rfl

/-! ### Instantiations for the two URL regexes -/

theorem keyOcc_pull_single {ds after : Str} (hds : allDigits ds = true)
    (hafterhd : ∀ c, after.head? = some c → isDigitCh c = false) :
    keyOccurrenceAt [lit "pull"]
      (['/'] ++ lit "pull" ++ ['/'] ++ ds ++ after) = some ds := by
  exact firstM_cons_some [] (keyOccurrenceAt_canonical_branch hds hafterhd)

theorem keyOcc_pull_both {ds after : Str} (hds : allDigits ds = true)
    (hafterhd : ∀ c, after.head? = some c → isDigitCh c = false) :
    keyOccurrenceAt [lit "pull", lit "issues"]
      (['/'] ++ lit "pull" ++ ['/'] ++ ds ++ after) = some ds := by
  exact firstM_cons_some [lit "issues"] (keyOccurrenceAt_canonical_branch hds hafterhd)

theorem keyOcc_issues_both {ds after : Str} (hds : allDigits ds = true)
    (hafterhd : ∀ c, after.head? = some c → isDigitCh c = false) :
    keyOccurrenceAt [lit "pull", lit "issues"]
      (['/'] ++ lit "issues" ++ ['/'] ++ ds ++ after) = some ds := by
  have h1 : (do
      let r ← dropLit ('/' :: lit "pull" ++ ['/'])
        (['/'] ++ lit "issues" ++ ['/'] ++ ds ++ after)
      let p ← takeDigits1 r
      pure p.1 : Option Str) = none := rfl
  rw [show keyOccurrenceAt [lit "pull", lit "issues"]
      (['/'] ++ lit "issues" ++ ['/'] ++ ds ++ after) =
    List.firstM _ [lit "pull", lit "issues"] from rfl]
  rw [firstM_cons_none [lit "issues"] h1]
  exact firstM_cons_some [] (keyOccurrenceAt_canonical_branch hds hafterhd)

/-- Side conditions on the key lists of the two URL regexes. -/
theorem keys_cond_pull :
    ∀ k ∈ [lit "pull"], k ≠ [] ∧ (∀ c, k.head? = some c → isDigitCh c = false) := by
  intro k hk
  rcases List.mem_singleton.1 hk with rfl
  refine ⟨by decide, ?_⟩
  intro c hc
  have hcp : 'p' = c := by simpa [lit] using hc
  rw [← hcp]
  decide

theorem keys_cond_both :
    ∀ k ∈ [lit "pull", lit "issues"],
      k ≠ [] ∧ (∀ c, k.head? = some c → isDigitCh c = false) := by
  intro k hk
  rcases List.mem_cons.1 hk with rfl | hk2
  · refine ⟨by decide, ?_⟩
    intro c hc
    have hcp : 'p' = c := by simpa [lit] using hc
    rw [← hcp]; decide
  · rcases List.mem_singleton.1 hk2 with rfl
    refine ⟨by decide, ?_⟩
    intro c hc
    have hcp : 'i' = c := by simpa [lit] using hc
    rw [← hcp]; decide

/-- `segOk` gives the pieces `urlMatchAt_canonical` needs. -/
theorem segOk_props {s : Str} (h : segOk s = true) : s ≠ [] ∧ '/' ∉ s := by
  have h2 : ((!s.isEmpty) = true) ∧ s.all segChar = true := by
    simpa [segOk] using h
  constructor
  · intro he
    rw [he] at h2
    simpa using h2.1
  · intro hmem
    have := List.all_eq_true.1 h2.2 '/' hmem
    simp [segChar] at this

theorem mentionOk_no_slash {s : Str} (h : mentionOk s = true) : '/' ∉ s := by
  have h2 : ((!s.isEmpty) = true) ∧ s.all mentionChar = true := by
    simpa [mentionOk] using h
  intro hmem
  have := List.all_eq_true.1 h2.2 '/' hmem
  simp [mentionChar, isDigitCh] at this

theorem pullUrlAt_canonical {org repo ds after : Str}
    (horg : segOk org = true) (hrepo : segOk repo = true)
    (hds : allDigits ds = true) (hafter : '/' ∉ after)
    (hafterhd : ∀ c, after.head? = some c → isDigitCh c = false) :
    pullUrlAt (pullUrl org repo ds ++ after) = some (digitsToNat ds) := by
  obtain ⟨h1, h2⟩ := segOk_props horg
  obtain ⟨h3, h4⟩ := segOk_props hrepo
  exact urlMatchAt_canonical [lit "pull"] (lit "pull") org repo ds after h1 h2 h3 h4
    hds (by decide) keys_cond_pull hafter (keyOcc_pull_single hds hafterhd)

theorem issueOrPullUrlAt_pull {org repo ds after : Str}
    (horg : segOk org = true) (hrepo : segOk repo = true)
    (hds : allDigits ds = true) (hafter : '/' ∉ after)
    (hafterhd : ∀ c, after.head? = some c → isDigitCh c = false) :
    issueOrPullUrlAt (pullUrl org repo ds ++ after) = some (digitsToNat ds) := by
  obtain ⟨h1, h2⟩ := segOk_props horg
  obtain ⟨h3, h4⟩ := segOk_props hrepo
  exact urlMatchAt_canonical [lit "pull", lit "issues"] (lit "pull") org repo ds after
    h1 h2 h3 h4 hds (by decide) keys_cond_both hafter (keyOcc_pull_both hds hafterhd)

theorem issueOrPullUrlAt_issue {org repo ds after : Str}
    (horg : segOk org = true) (hrepo : segOk repo = true)
    (hds : allDigits ds = true) (hafter : '/' ∉ after)
    (hafterhd : ∀ c, after.head? = some c → isDigitCh c = false) :
    issueOrPullUrlAt (issueUrl org repo ds ++ after) = some (digitsToNat ds) := by
  obtain ⟨h1, h2⟩ := segOk_props horg
  obtain ⟨h3, h4⟩ := segOk_props hrepo
  exact urlMatchAt_canonical [lit "pull", lit "issues"] (lit "issues") org repo ds after
    h1 h2 h3 h4 hds (by decide) keys_cond_both hafter (keyOcc_issues_both hds hafterhd)

theorem getPullRequestNumberFromURL_canonical {org repo ds : Str}
    (horg : segOk org = true) (hrepo : segOk repo = true)
    (hds : allDigits ds = true) :
    getPullRequestNumberFromURL (pullUrl org repo ds) = some (digitsToNat ds) := by
  have h := pullUrlAt_canonical horg hrepo hds (List.not_mem_nil '/')
    (by intro c hc; simp at hc)
  rw [List.append_nil] at h
  exact scanFirst_head_some h

theorem getIssueOrPullRequestNumberFromURL_pull {org repo ds : Str}
    (horg : segOk org = true) (hrepo : segOk repo = true)
    (hds : allDigits ds = true) :
    getIssueOrPullRequestNumberFromURL (pullUrl org repo ds) = some (digitsToNat ds) := by
  have h := issueOrPullUrlAt_pull horg hrepo hds (List.not_mem_nil '/')
    (by intro c hc; simp at hc)
  rw [List.append_nil] at h
  exact scanFirst_head_some h

theorem getIssueOrPullRequestNumberFromURL_issue {org repo ds : Str}
    (horg : segOk org = true) (hrepo : segOk repo = true)
    (hds : allDigits ds = true) :
    getIssueOrPullRequestNumberFromURL (issueUrl org repo ds) = some (digitsToNat ds) := by
  have h := issueOrPullUrlAt_issue horg hrepo hds (List.not_mem_nil '/')
    (by intro c hc; simp at hc)
  rw [List.append_nil] at h
  exact scanFirst_head_some h

/-! ### Entry-line evaluation -/

theorem prEntryAt_line (b : Bool) (rest : Str) :
    prEntryAt (checkbox b ++ [' '] ++ rest) =
      (pullUrlAt rest).map (fun n => (b, rest, n)) := by
  cases b <;> rfl

theorem wsEntryAt_line (urlAt : Str → Option Nat) (b : Bool) (rest : Str) :
    wsEntryAt urlAt (checkbox b ++ [' '] ++ rest) =
      (urlAt rest).map (fun n => (b, rest, n)) := by
  cases b <;> rfl

theorem scanFirst_prEntry_line {b : Bool} {rest : Str} {n : Nat}
    (h : pullUrlAt rest = some n) :
    scanFirst prEntryAt (checkbox b ++ [' '] ++ rest) = some (b, rest, n) := by
  apply scanFirst_head_some
  rw [prEntryAt_line, h]
  rfl

theorem scanFirst_wsEntry_line {urlAt : Str → Option Nat} {b : Bool} {rest : Str}
    {n : Nat} (h : urlAt rest = some n) :
    scanFirst (wsEntryAt urlAt) (checkbox b ++ [' '] ++ rest) = some (b, rest, n) := by
  apply scanFirst_head_some
  rw [wsEntryAt_line, h]
  rfl

/-! ### Restoring the internal-QA URL from the annotated line text -/

theorem dropWhile_cons_of_head {p : Char → Bool} {c : Char} {cs : Str}
    (h : p c = false) : (c :: cs).dropWhile p = c :: cs := by
  simp [List.dropWhile, h]

/-- `jsTrim (u ++ [' ']) = u` when `u` starts and ends with
non-whitespace. -/
theorem jsTrim_append_space {u : Str}
    (hhd : ∀ c, u.head? = some c → isWsCh c = false)
    (hlast : ∀ c, u.getLast? = some c → isWsCh c = false) :
    jsTrim (u ++ [' ']) = u := by
  match u with
  | [] => rfl
  | u0 :: ut =>
    have h0 : isWsCh u0 = false := hhd u0 rfl
    rw [jsTrim, List.cons_append, dropWhile_cons_of_head h0]
    have hrev : (u0 :: (ut ++ [' '])).reverse = ' ' :: (u0 :: ut).reverse := by
      simp
    rw [hrev, List.dropWhile_cons_of_pos (by simp [isWsCh])]
    match hrev2 : (u0 :: ut).reverse with
    | [] => exact absurd hrev2 (by simp)
    | r0 :: rt =>
      have hr0 : isWsCh r0 = false := by
        refine hlast r0 ?_
        rw [← List.head?_reverse, hrev2]
        rfl
      rw [dropWhile_cons_of_head hr0, ← hrev2, List.reverse_reverse]

/-- `splitDashHead` on `u ++ " - @" ++ m` with `u` dash-free gives
`u ++ [' ']`. -/
theorem splitDashHead_annotated {u : Str} (hu : '-' ∉ u) (m : Str) :
    splitDashHead (u ++ lit " - @" ++ m) = u ++ [' '] := by
  have hshape : u ++ lit " - @" ++ m =
      (u ++ [' ']) ++ '-' :: (lit " @" ++ m) := by
    simp [lit]
  rw [hshape, splitDashHead]
  refine takeWhile_all_stop ?_ (by simp) _
  intro x hx
  rcases List.mem_append.1 hx with h1 | h1
  · simp only [decide_eq_true_eq]
    exact fun he => hu (he ▸ h1)
  · simp only [List.mem_singleton] at h1
    subst h1
    decide

/-! ### The version token -/

theorem versionAt_none_of_head {t : Str}
    (h : ∀ c, t.head? = some c → isDigitCh c = false) : versionAt t = none := by
  cases t with
  | nil => rfl
  | cons c cs =>
    have hc := h c rfl
    have : takeDigits1 (c :: cs) = none := by
      rw [takeDigits1, takeRun_stop hc]
      simp
    rw [versionAt, this]

theorem dropLit_dot (X : Str) : dropLit ['.'] ('.' :: X) = some X := by
  simp [dropLit]

theorem allDigits_parts {d : Str} (h : allDigits d = true) :
    d ≠ [] ∧ ∀ c ∈ d, isDigitCh c = true := by
  have h2 : ((!d.isEmpty) = true) ∧ d.all isDigitCh = true := by
    simpa [allDigits] using h
  constructor
  · intro he
    rw [he] at h2
    simpa using h2.1
  · exact fun c hc => List.all_eq_true.1 h2.2 c hc

/-- `versionAt` at the start of a well-formed tag followed by a
non-digit, non-dash character matches exactly the tag. -/
theorem versionAt_tagStr (d1 d2 d3 : Str) (opt4 : Option Str) (rest : Str)
    (hok : tagOk d1 d2 d3 opt4 = true)
    (hrest : ∀ c, rest.head? = some c → isDigitCh c = false ∧ c ≠ '-') :
    versionAt (tagStr d1 d2 d3 opt4 ++ rest) = some (tagStr d1 d2 d3 opt4) := by
  have hdot : ∀ (X : Str) (c : Char), ('.' :: X).head? = some c → isDigitCh c = false := by
    intro X c hc
    simp at hc
    rw [← hc]
    decide
  have hdash : ∀ (X : Str) (c : Char), ('-' :: X).head? = some c → isDigitCh c = false := by
    intro X c hc
    simp at hc
    rw [← hc]
    decide
  cases opt4 with
  | none =>
    simp only [tagOk, Bool.and_eq_true] at hok
    obtain ⟨⟨⟨ha1, ha2⟩, ha3⟩, _⟩ := hok
    obtain ⟨h1ne, h1d⟩ := allDigits_parts ha1
    obtain ⟨h2ne, h2d⟩ := allDigits_parts ha2
    obtain ⟨h3ne, h3d⟩ := allDigits_parts ha3
    have hshape : tagStr d1 d2 d3 none ++ rest =
        d1 ++ ('.' :: (d2 ++ ('.' :: (d3 ++ rest)))) := by
      simp [tagStr]
    have e1 := takeDigits1_exact h1ne h1d (hdot (d2 ++ ('.' :: (d3 ++ rest))))
    have e2 := takeDigits1_exact h2ne h2d (hdot (d3 ++ rest))
    have e3 := takeDigits1_exact h3ne h3d (fun c hc => (hrest c hc).1)
    rw [hshape, versionAt]
    simp only [e1, dropLit_dot, e2, e3]
    cases rest with
    | nil => simp [tagStr]
    | cons c r6 =>
      have hc := (hrest c rfl).2
      simp [hc, tagStr]
  | some d4 =>
    simp only [tagOk, Bool.and_eq_true] at hok
    obtain ⟨⟨⟨ha1, ha2⟩, ha3⟩, ha4⟩ := hok
    obtain ⟨h1ne, h1d⟩ := allDigits_parts ha1
    obtain ⟨h2ne, h2d⟩ := allDigits_parts ha2
    obtain ⟨h3ne, h3d⟩ := allDigits_parts ha3
    obtain ⟨h4ne, h4d⟩ := allDigits_parts ha4
    have hshape : tagStr d1 d2 d3 (some d4) ++ rest =
        d1 ++ ('.' :: (d2 ++ ('.' :: (d3 ++ ('-' :: (d4 ++ rest)))))) := by
      simp [tagStr]
    have e1 := takeDigits1_exact h1ne h1d (hdot (d2 ++ ('.' :: (d3 ++ ('-' :: (d4 ++ rest))))))
    have e2 := takeDigits1_exact h2ne h2d (hdot (d3 ++ ('-' :: (d4 ++ rest))))
    have e3 := takeDigits1_exact h3ne h3d (hdash (d4 ++ rest))
    have e4 := takeDigits1_exact h4ne h4d (fun c hc => (hrest c hc).1)
    rw [hshape, versionAt]
    simp only [e1, dropLit_dot, e2, e3, e4]
    simp [tagStr]

/-! ### The leftmost version token of a rendered body -/

theorem head_mem_append {b Z : Str} {c : Char} (hbne : b ≠ [])
    (hc : (b ++ Z).head? = some c) : c ∈ b := by
  match b, hbne with
  | b0 :: bt, _ =>
    simp only [List.cons_append, List.head?] at hc
    injection hc with hc
    exact hc ▸ List.mem_cons_self b0 bt

/-- The first line of every generated body opens with a digit-free
literal prefix followed by the backquoted tag, so the leftmost version
token of the whole body is exactly the tag. -/
theorem firstVersionMatch_render (d1 d2 d3 : Str) (opt4 : Option Str)
    (hok : tagOk d1 d2 d3 opt4 = true) (restAll : Str) :
    firstVersionMatch
      ((lit "**Release Version:** " ++ ['\x60']) ++
        (tagStr d1 d2 d3 opt4 ++ ('\x60' :: restAll))) =
      some (tagStr d1 d2 d3 opt4) := by
  have hnd : ∀ c ∈ (lit "**Release Version:** " ++ ['\x60'] : Str),
      isDigitCh c = false := by decide
  rw [firstVersionMatch,
    scanFirst_append_skip (lit "**Release Version:** " ++ ['\x60'])
      (tagStr d1 d2 d3 opt4 ++ ('\x60' :: restAll))
      (fun a ha hane => versionAt_none_of_head (fun c hc =>
        hnd c (ha.subset (head_mem_append hane hc))))]
  exact scanFirst_head_some
    (versionAt_tagStr d1 d2 d3 opt4 ('\x60' :: restAll) hok
      (fun c hc => by
        simp at hc
        rw [← hc]
        exact ⟨by decide, by decide⟩))

/-! ### The checkbox tests on a rendered body

A `-\s\[x]\sPHRASE` match needs six characters of fixed shape before the
phrase; the lemmas below record that a mismatch at any of the six
positions, or of the phrase itself, kills the match, and that a match
cannot straddle a `\r\n` line boundary (no phrase contains `\r`). -/

theorem checkMarkAt_short {phrase t : Str} (h : t.length ≤ 5) :
    checkMarkAt phrase t = none := by
  match t with
  | [] => rfl
  | [_] => rfl
  | [_, _] => rfl
  | [_, _, _] => rfl
  | [_, _, _, _] => rfl
  | [_, _, _, _, _] => rfl
  | _ :: _ :: _ :: _ :: _ :: _ :: r =>
    simp only [List.length_cons] at h
    omega

theorem checkMarkAt_pos1 {phrase : Str} {c1 : Char} (h : c1 ≠ '-') (ts : Str) :
    checkMarkAt phrase (c1 :: ts) = none := by
  match ts with
  | [] => rfl
  | [_] => rfl
  | [_, _] => rfl
  | [_, _, _] => rfl
  | [_, _, _, _] => rfl
  | w1 :: c2 :: c3 :: c4 :: w2 :: r => simp [checkMarkAt, h]

theorem checkMarkAt_pos2 {phrase : Str} {c2 : Char} (h : c2 ≠ '[') (c1 w1 : Char)
    (ts : Str) : checkMarkAt phrase (c1 :: w1 :: c2 :: ts) = none := by
  match ts with
  | [] => rfl
  | [_] => rfl
  | [_, _] => rfl
  | c3 :: c4 :: w2 :: r => simp [checkMarkAt, h]

theorem checkMarkAt_pos3 {phrase : Str} {c3 : Char} (h : c3 ≠ 'x')
    (c1 w1 c2 : Char) (ts : Str) :
    checkMarkAt phrase (c1 :: w1 :: c2 :: c3 :: ts) = none := by
  match ts with
  | [] => rfl
  | [_] => rfl
  | c4 :: w2 :: r => simp [checkMarkAt, h]

theorem checkMarkAt_pos4 {phrase : Str} {c4 : Char} (h : c4 ≠ ']')
    (c1 w1 c2 c3 : Char) (ts : Str) :
    checkMarkAt phrase (c1 :: w1 :: c2 :: c3 :: c4 :: ts) = none := by
  match ts with
  | [] => rfl
  | w2 :: r => simp [checkMarkAt, h]

theorem checkMarkAt_ws2 {phrase : Str} {w2 : Char} (h : isWsCh w2 = false)
    (c1 w1 c2 c3 c4 : Char) (r : Str) :
    checkMarkAt phrase (c1 :: w1 :: c2 :: c3 :: c4 :: w2 :: r) = none := by
  simp [checkMarkAt, h]

theorem checkMarkAt_dropNone {phrase : Str} (c1 w1 c2 c3 c4 w2 : Char) {r : Str}
    (h : dropLit phrase r = none) :
    checkMarkAt phrase (c1 :: w1 :: c2 :: c3 :: c4 :: w2 :: r) = none := by
  show (if c1 = '-' && isWsCh w1 && c2 = '[' && c3 = 'x' && c4 = ']' && isWsCh w2
    then (dropLit phrase r).map (fun _ => ()) else none) = none
  rw [h]
  simp

theorem dropLit_none_append {p r : Str} {c : Char} (hp : c ∉ p)
    (h : dropLit p r = none) (X : Str) :
    dropLit p (r ++ c :: X) = none := by
  induction p generalizing r with
  | nil => simp [dropLit] at h
  | cons p0 ps ih =>
    cases r with
    | nil =>
      have hne : c ≠ p0 := fun he => hp (he ▸ List.mem_cons_self p0 ps)
      simp only [List.nil_append]
      exact dropLit_none_head hne
    | cons r0 rt =>
      by_cases he : r0 = p0
      · have h2 : dropLit ps rt = none := by simpa [dropLit, he] using h
        have h3 := ih (fun hm => hp (List.mem_cons_of_mem p0 hm)) h2
        simpa [dropLit, he] using h3
      · simp only [List.cons_append]
        exact dropLit_none_head he

/-- A check-pattern match cannot straddle the `\r\n` ending a line: if no
match starts at a suffix of the line content, none starts there once the
following lines are appended. -/
theorem checkMarkAt_crossing {phrase : Str} (hph : phrase.head? = some 'I')
    (hpcr : '\r' ∉ phrase) {a : Str} (hnone : checkMarkAt phrase a = none)
    (rest : Str) : checkMarkAt phrase (a ++ '\r' :: '\n' :: rest) = none := by
  obtain ⟨pt, rfl⟩ : ∃ pt, phrase = 'I' :: pt := by
    cases phrase with
    | nil => exact absurd hph (by simp)
    | cons p0 pt =>
      have h0 : p0 = 'I' := by simpa using hph
      exact ⟨pt, by rw [h0]⟩
  match a, hnone with
  | [], _ => exact checkMarkAt_pos1 (by decide) _
  | [c1], _ => exact checkMarkAt_pos2 (by decide) _ _ _
  | [c1, c2], _ => exact checkMarkAt_pos2 (by decide) _ _ _
  | [c1, c2, c3], _ => exact checkMarkAt_pos3 (by decide) _ _ _ _
  | [c1, c2, c3, c4], _ => exact checkMarkAt_pos4 (by decide) _ _ _ _ _
  | [c1, c2, c3, c4, c5], _ =>
    exact checkMarkAt_dropNone c1 c2 c3 c4 c5 '\r' (dropLit_none_head (by decide))
  | c1 :: c2 :: c3 :: c4 :: c5 :: c6 :: ar, hnone =>
    by_cases hcond :
        (c1 = '-' && isWsCh c2 && c3 = '[' && c4 = 'x' && c5 = ']' && isWsCh c6) = true
    · cases hdl : dropLit ('I' :: pt) ar with
      | none =>
        exact checkMarkAt_dropNone c1 c2 c3 c4 c5 c6
          (dropLit_none_append hpcr hdl ('\n' :: rest))
      | some r2 =>
        exfalso
        have heval : checkMarkAt ('I' :: pt) (c1 :: c2 :: c3 :: c4 :: c5 :: c6 :: ar) =
            some () := by
          show (if c1 = '-' && isWsCh c2 && c3 = '[' && c4 = 'x' && c5 = ']' && isWsCh c6
            then (dropLit ('I' :: pt) ar).map (fun _ => ()) else none) = some ()
          rw [if_pos hcond, hdl]
          rfl
        rw [heval] at hnone
        exact Option.noConfusion hnone
    · show (if c1 = '-' && isWsCh c2 && c3 = '[' && c4 = 'x' && c5 = ']' && isWsCh c6
        then (dropLit ('I' :: pt) (ar ++ '\r' :: '\n' :: rest)).map (fun _ => ())
        else none) = none
      rw [if_neg hcond]

theorem noCheck_of_decide {phrase l : Str} (h : noCheckMarkIn phrase l = true) :
    NoCheck phrase l := by
  intro a ha
  obtain ⟨pre, rfl⟩ := ha
  have hk : pre.length ∈ List.range ((pre ++ a).length + 1) := by
    rw [List.mem_range, List.length_append]
    omega
  have h2 := List.all_eq_true.1 h _ hk
  rw [List.drop_left] at h2
  simpa [Option.isNone_iff_eq_none] using h2

/-- Scanning the check pattern over a body skips a whole line on which it
never matches. -/
theorem scanFirst_checkMark_skipLine {phrase l : Str} (hph : phrase.head? = some 'I')
    (hpcr : '\r' ∉ phrase) (hnc : NoCheck phrase l) (ls : List Str) :
    scanFirst (checkMarkAt phrase) (joinLinesCRLF (l :: ls)) =
      scanFirst (checkMarkAt phrase) (joinLinesCRLF ls) := by
  have hshape : joinLinesCRLF (l :: ls) = (l ++ ['\r', '\n']) ++ joinLinesCRLF ls := by
    simp [joinLinesCRLF, crlf]
  rw [hshape]
  refine scanFirst_append_skip _ _ ?_
  intro a ha hane
  rcases suffix_append_cases ha with h1 | ⟨b, hb, hbne, rfl⟩
  · rcases List.suffix_cons_iff.1 h1 with h2 | h2
    · subst h2
      exact checkMarkAt_pos1 (by decide) _
    · rcases List.suffix_cons_iff.1 h2 with h3 | h3
      · subst h3
        exact checkMarkAt_pos1 (by decide) _
      · rw [List.suffix_nil.1 h3] at hane
        exact absurd rfl hane
  · have h4 := checkMarkAt_crossing hph hpcr (hnc b hb) (joinLinesCRLF ls)
    simpa [List.append_assoc] using h4

/-- The check test is false on a body whose every line is match-free. -/
theorem scanFirst_checkMark_none {phrase : Str} (hph : phrase.head? = some 'I')
    (hpcr : '\r' ∉ phrase) {ls : List Str} (h : ∀ l ∈ ls, NoCheck phrase l) :
    scanFirst (checkMarkAt phrase) (joinLinesCRLF ls) = none := by
  induction ls with
  | nil => rfl
  | cons l ls ih =>
    rw [scanFirst_checkMark_skipLine hph hpcr (h l (List.mem_cons_self l ls)) ls]
    exact ih (fun x hx => h x (List.mem_cons_of_mem l hx))

theorem joinLinesCRLF_append (xs ys : List Str) :
    joinLinesCRLF (xs ++ ys) = joinLinesCRLF xs ++ joinLinesCRLF ys := by
  simp [joinLinesCRLF]

/-- The check test is true as soon as one line yields a match at its
start (with the rest of the body appended). -/
theorem scanFirst_checkMark_isSome {phrase : Str} (pre : List Str) {l : Str}
    (post : List Str)
    (hpos : (checkMarkAt phrase (l ++ '\r' :: '\n' :: joinLinesCRLF post)).isSome) :
    (scanFirst (checkMarkAt phrase) (joinLinesCRLF (pre ++ l :: post))).isSome := by
  refine scanFirst_isSome_of ?_ hpos
  have h1 : l ++ '\r' :: '\n' :: joinLinesCRLF post = joinLinesCRLF (l :: post) := by
    simp [joinLinesCRLF, crlf]
  rw [h1, joinLinesCRLF_append]
  exact List.suffix_append _ _

/-! ### Per-line match-freeness of the generated lines -/

theorem noCheck_of_no_bracket {phrase u : Str} (hu : '[' ∉ u) :
    NoCheck phrase u := by
  intro a ha
  match a, ha with
  | [], _ => rfl
  | [c1], _ => rfl
  | [c1, c2], _ => rfl
  | c1 :: c2 :: c3 :: ts, ha =>
    refine checkMarkAt_pos2 (fun he => ?_) _ _ _
    refine hu (ha.subset ?_)
    exact he ▸ List.mem_cons_of_mem c1 (List.mem_cons_of_mem c2 (List.mem_cons_self c3 ts))

theorem segOk_not_mem {s : Str} (h : segOk s = true) {c : Char}
    (hc : segChar c = false) : c ∉ s := by
  intro hm
  have h2 : ((!s.isEmpty) = true) ∧ s.all segChar = true := by
    simpa [segOk] using h
  have h3 := List.all_eq_true.1 h2.2 c hm
  rw [hc] at h3
  exact Bool.noConfusion h3

theorem mentionOk_not_mem {s : Str} (h : mentionOk s = true) {c : Char}
    (hc : mentionChar c = false) : c ∉ s := by
  intro hm
  have h2 : ((!s.isEmpty) = true) ∧ s.all mentionChar = true := by
    simpa [mentionOk] using h
  have h3 := List.all_eq_true.1 h2.2 c hm
  rw [hc] at h3
  exact Bool.noConfusion h3

theorem allDigits_not_mem {s : Str} (h : allDigits s = true) {c : Char}
    (hc : isDigitCh c = false) : c ∉ s := by
  intro hm
  have h2 := (allDigits_parts h).2 c hm
  rw [hc] at h2
  exact Bool.noConfusion h2

theorem keyUrl_mem {key org repo ds : Str} {c : Char}
    (hc : c ∈ keyUrl key org repo ds) :
    c ∈ (lit "https://" : Str) ∨ c ∈ (lit "github.com" : Str) ∨ c = '/' ∨
      c ∈ org ∨ c ∈ repo ∨ c ∈ key ∨ c ∈ ds := by
  simp only [keyUrl, List.mem_append, List.mem_singleton] at hc
  tauto

/-- A character absent from the key, the host literal, the segments and
the digits is absent from a canonical entry URL. -/
theorem keyUrl_not_mem {key org repo ds : Str} (horg : segOk org = true)
    (hrepo : segOk repo = true) (hds : allDigits ds = true) {c : Char}
    (hh1 : c ∉ (lit "https://" : Str)) (hh2 : c ∉ (lit "github.com" : Str))
    (hslash : c ≠ '/') (hseg : segChar c = false) (hdig : isDigitCh c = false)
    (hkey : c ∉ key) : c ∉ keyUrl key org repo ds := by
  intro hm
  rcases keyUrl_mem hm with h | h | h | h | h | h | h
  · exact hh1 h
  · exact hh2 h
  · exact hslash h
  · exact segOk_not_mem horg hseg h
  · exact segOk_not_mem hrepo hseg h
  · exact hkey h
  · exact allDigits_not_mem hds hdig h

theorem tagStr_chars {d1 d2 d3 : Str} {opt4 : Option Str}
    (hok : tagOk d1 d2 d3 opt4 = true) :
    ∀ c ∈ tagStr d1 d2 d3 opt4, isDigitCh c = true ∨ c = '.' ∨ c = '-' := by
  intro c hc
  have hdig : ∀ {d : Str}, allDigits d = true → c ∈ d → isDigitCh c = true :=
    fun hd hm => (allDigits_parts hd).2 c hm
  cases opt4 with
  | none =>
    simp only [tagOk, Bool.and_eq_true] at hok
    obtain ⟨⟨⟨ha1, ha2⟩, ha3⟩, _⟩ := hok
    simp only [tagStr, List.append_nil, List.mem_append, List.mem_singleton] at hc
    rcases hc with (((h | h) | h) | h) | h
    · exact Or.inl (hdig ha1 h)
    · exact Or.inr (Or.inl h)
    · exact Or.inl (hdig ha2 h)
    · exact Or.inr (Or.inl h)
    · exact Or.inl (hdig ha3 h)
  | some d4 =>
    simp only [tagOk, Bool.and_eq_true] at hok
    obtain ⟨⟨⟨ha1, ha2⟩, ha3⟩, ha4⟩ := hok
    simp only [tagStr, List.mem_append, List.mem_singleton, List.mem_cons] at hc
    rcases hc with ((((h | h | h) | h) | h | h) | h) | h | h
    · exact Or.inl (hdig ha1 h)
    · exact Or.inr (Or.inl h)
    · exact absurd h (List.not_mem_nil c)
    · exact Or.inl (hdig ha2 h)
    · exact Or.inr (Or.inl h)
    · exact absurd h (List.not_mem_nil c)
    · exact Or.inl (hdig ha3 h)
    · exact Or.inr (Or.inr h)
    · exact Or.inl (hdig ha4 h)

/-- No check-pattern match starts anywhere in the release-version
line. -/
theorem noCheck_tagLine {phrase d1 d2 d3 : Str} {opt4 : Option Str}
    (hok : tagOk d1 d2 d3 opt4 = true) :
    NoCheck phrase
      (lit "**Release Version:** " ++ ['\x60'] ++ tagStr d1 d2 d3 opt4 ++ ['\x60']) := by
  have htagbr : '[' ∉ tagStr d1 d2 d3 opt4 := by
    intro hm
    rcases tagStr_chars hok '[' hm with h | h | h
    · exact absurd h (by decide)
    · exact absurd h (by decide)
    · exact absurd h (by decide)
  intro a ha
  have hshape :
      lit "**Release Version:** " ++ ['\x60'] ++ tagStr d1 d2 d3 opt4 ++ ['\x60'] =
        (lit "**Release Version:** " ++ ['\x60']) ++
          (tagStr d1 d2 d3 opt4 ++ ['\x60']) := by
    simp [List.append_assoc]
  rw [hshape] at ha
  rcases suffix_append_cases ha with h1 | ⟨b, hb, hbne, rfl⟩
  · rcases suffix_append_cases h1 with h2 | ⟨b, hb, hbne, rfl⟩
    · have hlen : a.length ≤ 5 := by
        have h3 := h2.length_le
        simp only [List.length_cons, List.length_nil] at h3
        omega
      exact checkMarkAt_short hlen
    · match b, hbne with
      | [b0], _ => exact checkMarkAt_short (by simp)
      | [b0, b1], _ => exact checkMarkAt_short (by simp)
      | b0 :: b1 :: b2 :: bt, _ =>
        refine checkMarkAt_pos2 (fun he => ?_) _ _ _
        refine htagbr (hb.subset ?_)
        exact he ▸ List.mem_cons_of_mem b0
          (List.mem_cons_of_mem b1 (List.mem_cons_self b2 bt))
  · have hnd : '-' ∉ (lit "**Release Version:** " ++ ['\x60'] : Str) := by decide
    match b, hbne with
    | b0 :: bt, _ =>
      refine checkMarkAt_pos1 (fun he => ?_) _
      exact hnd (hb.subset (he ▸ List.mem_cons_self b0 bt))

/-- No check-pattern match starts anywhere in a generated checklist entry
line: a checkbox, a space, then text opening with `h` (the URL scheme)
and free of `[`. -/
theorem noCheck_entryLine {phrase : Str} (hph : phrase.head? = some 'I')
    (b : Bool) {T : Str} (hT : '[' ∉ T) (hTh : T.head? = some 'h') :
    NoCheck phrase (checkbox b ++ ([' '] ++ T)) := by
  obtain ⟨pt, rfl⟩ : ∃ pt, phrase = 'I' :: pt := by
    cases phrase with
    | nil => exact absurd hph (by simp)
    | cons p0 pt =>
      have h0 : p0 = 'I' := by simpa using hph
      exact ⟨pt, by rw [h0]⟩
  obtain ⟨tt, rfl⟩ : ∃ tt, T = 'h' :: tt := by
    cases T with
    | nil => exact absurd hTh (by simp)
    | cons t0 tt =>
      have h0 : t0 = 'h' := by simpa using hTh
      exact ⟨tt, by rw [h0]⟩
  intro a ha
  rcases suffix_append_cases ha with h1 | ⟨b', hb', hbne, rfl⟩
  · rcases List.suffix_cons_iff.1 h1 with h2 | h2
    · subst h2
      exact checkMarkAt_pos1 (by decide) _
    · exact noCheck_of_no_bracket hT a h2
  · cases b with
    | true =>
      have hcb : (checkbox true : Str) = ['-', ' ', '[', 'x', ']'] := by rfl
      rw [hcb] at hb'
      rcases List.suffix_cons_iff.1 hb' with h2 | h2
      · subst h2
        exact checkMarkAt_dropNone '-' ' ' '[' 'x' ']' ' '
          (dropLit_none_head (by decide))
      · rcases List.suffix_cons_iff.1 h2 with h3 | h3
        · subst h3
          exact checkMarkAt_pos1 (by decide) _
        · rcases List.suffix_cons_iff.1 h3 with h4 | h4
          · subst h4
            exact checkMarkAt_pos1 (by decide) _
          · rcases List.suffix_cons_iff.1 h4 with h5 | h5
            · subst h5
              exact checkMarkAt_pos1 (by decide) _
            · rcases List.suffix_cons_iff.1 h5 with h6 | h6
              · subst h6
                exact checkMarkAt_pos1 (by decide) _
              · rw [List.suffix_nil.1 h6] at hbne
                exact absurd rfl hbne
    | false =>
      have hcb : (checkbox false : Str) = ['-', ' ', '[', ' ', ']'] := by rfl
      rw [hcb] at hb'
      rcases List.suffix_cons_iff.1 hb' with h2 | h2
      · subst h2
        exact checkMarkAt_pos3 (by decide) _ _ _ _
      · rcases List.suffix_cons_iff.1 h2 with h3 | h3
        · subst h3
          exact checkMarkAt_pos1 (by decide) _
        · rcases List.suffix_cons_iff.1 h3 with h4 | h4
          · subst h4
            exact checkMarkAt_pos1 (by decide) _
          · rcases List.suffix_cons_iff.1 h4 with h5 | h5
            · subst h5
              exact checkMarkAt_pos1 (by decide) _
            · rcases List.suffix_cons_iff.1 h5 with h6 | h6
              · subst h6
                exact checkMarkAt_pos1 (by decide) _
              · rw [List.suffix_nil.1 h6] at hbne
                exact absurd rfl hbne

/-! ### Sorting and mapping -/

theorem insertByKey_map {α β : Type _} (key : β → Nat) (f : α → β) (a : α)
    (l : List α) :
    insertByKey key (f a) (l.map f) = (insertByKey (fun x => key (f x)) a l).map f := by
  induction l with
  | nil => rfl
  | cons b bs ih =>
    simp only [List.map_cons, insertByKey]
    by_cases h : key (f a) ≤ key (f b) <;> simp [h, ih]

theorem sortByKey_map {α β : Type _} (key : β → Nat) (f : α → β) (l : List α) :
    sortByKey key (l.map f) = (sortByKey (fun x => key (f x)) l).map f := by
  induction l with
  | nil => rfl
  | cons a as ih =>
    simp only [List.map_cons, sortByKey, List.foldr_cons]
    rw [show (List.map f as).foldr (insertByKey key) [] = sortByKey key (List.map f as)
        from rfl, ih]
    exact insertByKey_map key f a _

theorem sortByKey_idem {α : Type _} (key : α → Nat) (l : List α)
    (hnd : (l.map key).Nodup) :
    sortByKey key (sortByKey key l) = sortByKey key l := by
  refine eq_of_sorted_perm_nodup_keys key (sortByKey_perm key _)
    (sortByKey_sorted key _) (sortByKey_sorted key l) ?_
  have h1 : (List.map key (sortByKey key l)).Nodup :=
    ((sortByKey_perm key l).map key).nodup_iff.2 hnd
  exact ((sortByKey_perm key (sortByKey key l)).map key).nodup_iff.2 h1

theorem filterMap_congr_some {α β : Type _} {g : α → Option β} {k : α → β}
    {l : List α} (h : ∀ e ∈ l, g e = some (k e)) : l.filterMap g = l.map k := by
  induction l with
  | nil => rfl
  | cons a as ih =>
    rw [List.filterMap_cons, h a (List.mem_cons_self a as), List.map_cons,
      ih (fun e he => h e (List.mem_cons_of_mem a he))]

theorem nodup_map_of_nodup_proj {α β γ : Type _} {f : α → β} {g : β → γ}
    {num : α → γ} {l : List α} (hpt : ∀ a ∈ l, g (f a) = num a)
    (hnd : (l.map num).Nodup) : (l.map f).Nodup := by
  have h1 : (l.map f).map g = l.map num := by
    rw [List.map_map]
    exact List.map_congr_left hpt
  exact List.Nodup.of_map g (h1 ▸ hnd)

/-! ### Membership in the underscore helpers -/

theorem jsContains_iff {α : Type _} [DecidableEq α] {l : List α} {x : α} :
    jsContains l x = true ↔ x ∈ l := by
  simp only [jsContains, List.any_eq_true, decide_eq_true_eq]
  constructor
  · rintro ⟨y, hy, rfl⟩
    exact hy
  · intro h
    exact ⟨x, h, rfl⟩

theorem jsUniqAux_mem {α : Type _} [DecidableEq α] (seen : List α) (l : List α)
    (x : α) : x ∈ jsUniqAux seen l ↔ x ∈ l ∧ x ∉ seen := by
  induction l generalizing seen with
  | nil => simp [jsUniqAux]
  | cons a as ih =>
    rw [jsUniqAux]
    by_cases h : jsContains seen a = true
    · rw [if_pos h, ih]
      have ha : a ∈ seen := jsContains_iff.1 h
      constructor
      · rintro ⟨h1, h2⟩
        exact ⟨List.mem_cons_of_mem a h1, h2⟩
      · rintro ⟨h1, h2⟩
        rcases List.mem_cons.1 h1 with rfl | h3
        · exact absurd ha h2
        · exact ⟨h3, h2⟩
    · rw [if_neg h]
      have ha : a ∉ seen := fun hm => h (jsContains_iff.2 hm)
      constructor
      · intro hm
        rcases List.mem_cons.1 hm with rfl | h3
        · exact ⟨List.mem_cons_self _ _, ha⟩
        · obtain ⟨h1, h2⟩ := (ih (a :: seen)).1 h3
          exact ⟨List.mem_cons_of_mem a h1,
            fun hs => h2 (List.mem_cons_of_mem a hs)⟩
      · rintro ⟨h1, h2⟩
        rcases List.mem_cons.1 h1 with rfl | h3
        · exact List.mem_cons_self _ _
        · by_cases hxa : x = a
          · exact hxa ▸ List.mem_cons_self _ _
          · refine List.mem_cons_of_mem a ((ih (a :: seen)).2 ⟨h3, ?_⟩)
            intro hs
            rcases List.mem_cons.1 hs with h4 | h4
            · exact hxa h4
            · exact h2 h4

theorem jsUnion_mem {α : Type _} [DecidableEq α] (a b : List α) (x : α) :
    x ∈ jsUnion a b ↔ x ∈ a ∨ x ∈ b := by
  rw [jsUnion, jsUniq, jsUniqAux_mem]
  simp

/-- The rendered checkbox state of a spec entry: membership of its URL in
the URL list built from the entries with the flag set, given that the
projection is injective on the list. -/
theorem jsContains_map_filter {α β : Type _} [DecidableEq β] (f : α → β)
    (p : α → Bool) (l : List α)
    (hinj : ∀ a ∈ l, ∀ b ∈ l, f a = f b → a = b) {e : α} (he : e ∈ l) :
    jsContains ((l.filter p).map f) (f e) = p e := by
  cases hp : p e with
  | true =>
    refine jsContains_iff.2 (List.mem_map_of_mem f ?_)
    exact List.mem_filter.2 ⟨he, hp⟩
  | false =>
    rw [Bool.eq_false_iff]
    intro hc
    obtain ⟨b, hb, hfb⟩ := List.mem_map.1 (jsContains_iff.1 hc)
    obtain ⟨hbl, hpb⟩ := List.mem_filter.1 hb
    have hbe : b = e := hinj b hbl e he hfb
    rw [hbe, hp] at hpb
    exact Bool.noConfusion hpb

/-! ### Character-class bridges -/

theorem char_ne_of_true_false {p : Char → Bool} {c d : Char} (hc : p c = true)
    (hd : p d = false) : c ≠ d := by
  intro he
  rw [he, hd] at hc
  exact Bool.noConfusion hc

theorem segChar_isDotCh {c : Char} (h : segChar c = true) : isDotCh c = true := by
  simp only [isDotCh, Bool.and_eq_true, decide_eq_true_eq]
  exact ⟨⟨⟨char_ne_of_true_false h (by decide), char_ne_of_true_false h (by decide)⟩,
    char_ne_of_true_false h (by decide)⟩, char_ne_of_true_false h (by decide)⟩

theorem mentionChar_isDotCh {c : Char} (h : mentionChar c = true) :
    isDotCh c = true := by
  simp only [isDotCh, Bool.and_eq_true, decide_eq_true_eq]
  exact ⟨⟨⟨char_ne_of_true_false h (by decide), char_ne_of_true_false h (by decide)⟩,
    char_ne_of_true_false h (by decide)⟩, char_ne_of_true_false h (by decide)⟩

theorem isDigitCh_isDotCh {c : Char} (h : isDigitCh c = true) :
    isDotCh c = true := by
  simp only [isDotCh, Bool.and_eq_true, decide_eq_true_eq]
  exact ⟨⟨⟨char_ne_of_true_false h (by decide), char_ne_of_true_false h (by decide)⟩,
    char_ne_of_true_false h (by decide)⟩, char_ne_of_true_false h (by decide)⟩

/-! ### Section-finder evaluation -/

theorem head?_append_left {X Y : Str} (h : X ≠ []) : (X ++ Y).head? = X.head? := by
  match X, h with
  | x :: xs, _ => rfl

theorem getLast?_append_right {A B : Str} (h : B ≠ []) :
    (A ++ B).getLast? = B.getLast? := by
  rw [← List.head?_reverse, ← List.head?_reverse, List.reverse_append]
  exact head?_append_left (by simpa using h)

theorem endsWithLit_false_of_last {p l : Str} {c c2 : Char}
    (hp : p.getLast? = some c) (hl : l.getLast? = some c2) (hne : c ≠ c2) :
    endsWithLit p l = false := by
  rw [Bool.eq_false_iff]
  intro h
  obtain ⟨pre, rfl⟩ := endsWithLit_iff.1 h
  have hpne : p ≠ [] := by
    intro he
    rw [he] at hp
    exact Option.noConfusion hp
  rw [getLast?_append_right hpne, hp] at hl
  exact hne (Option.some.inj hl)

theorem endsWithLit_nil_false {p : Str} (hp : p ≠ []) : endsWithLit p [] = false := by
  rw [Bool.eq_false_iff]
  intro h
  exact hp (List.suffix_nil.1 (endsWithLit_iff.1 h))

theorem endsWith_false_of_digit {p A ds : Str} (hds : allDigits ds = true)
    (hp : p.getLast? = some '*') : endsWithLit p (A ++ ds) = false := by
  obtain ⟨hne, hall⟩ := allDigits_parts hds
  cases hgl : ds.getLast? with
  | none =>
    rw [← List.head?_reverse] at hgl
    match hrev : ds.reverse, hgl with
    | [], _ =>
      exact absurd (by simpa using congrArg List.reverse hrev) hne
    | r :: rs, hgl => exact Option.noConfusion hgl
  | some c =>
    have hc : isDigitCh c = true := hall c (List.mem_of_mem_getLast? hgl)
    refine endsWithLit_false_of_last hp ?_
      (char_ne_of_true_false hc (by decide : isDigitCh '*' = false)).symm
    rw [getLast?_append_right hne]
    exact hgl

theorem endsWith_star_false_keyUrl {p A key org repo ds : Str}
    (hds : allDigits ds = true) (hp : p.getLast? = some '*') :
    endsWithLit p (A ++ keyUrl key org repo ds) = false := by
  have hshape : A ++ keyUrl key org repo ds =
      (A ++ (lit "https://" ++ lit "github.com" ++ ['/'] ++ org ++ ['/'] ++ repo ++
        ['/'] ++ key ++ ['/'])) ++ ds := by
    simp [keyUrl, List.append_assoc]
  rw [hshape]
  exact endsWith_false_of_digit hds hp

theorem endsWith_star_false_mention {p A m : Str} (hm : mentionOk m = true)
    (hp : p.getLast? = some '*') : endsWithLit p (A ++ m) = false := by
  have h2 : ((!m.isEmpty) = true) ∧ m.all mentionChar = true := by
    simpa [mentionOk] using hm
  have hne : m ≠ [] := by
    intro he
    rw [he] at h2
    simpa using h2.1
  cases hgl : m.getLast? with
  | none =>
    rw [← List.head?_reverse] at hgl
    match hrev : m.reverse, hgl with
    | [], _ =>
      exact absurd (by simpa using congrArg List.reverse hrev) hne
    | r :: rs, hgl => exact Option.noConfusion hgl
  | some c =>
    have hc : mentionChar c = true :=
      List.all_eq_true.1 h2.2 c (List.mem_of_mem_getLast? hgl)
    refine endsWithLit_false_of_last hp ?_
      (char_ne_of_true_false hc (by decide : mentionChar '*' = false)).symm
    rw [getLast?_append_right hne]
    exact hgl

theorem endsWith_star_false_backtick {p A : Str} (hp : p.getLast? = some '*') :
    endsWithLit p (A ++ ['\x60']) = false := by
  have hl : (A ++ ['\x60']).getLast? = some '\x60' := by
    rw [getLast?_append_right (by simp)]
    rfl
  exact endsWithLit_false_of_last hp hl (by decide)

theorem findSectionFrom_skip {header l : Str} {needBlank : Bool}
    {dashPred : Str → Bool} (h : endsWithLit header (stripCR l) = false)
    (ls : List Str) :
    findSectionFrom header needBlank dashPred (l :: ls) =
      findSectionFrom header needBlank dashPred ls := by
  simp [findSectionFrom, h]

theorem findSectionFrom_skip_all {header : Str} {needBlank : Bool}
    {dashPred : Str → Bool} {pre : List Str}
    (h : ∀ l ∈ pre, endsWithLit header (stripCR l) = false) (ls : List Str) :
    findSectionFrom header needBlank dashPred (pre ++ ls) =
      findSectionFrom header needBlank dashPred ls := by
  induction pre with
  | nil => rfl
  | cons l pre ih =>
    rw [List.cons_append, findSectionFrom_skip (h l (List.mem_cons_self l pre))]
    exact ih (fun x hx => h x (List.mem_cons_of_mem l hx))

theorem findSectionFrom_hit {header l : Str} {needBlank : Bool}
    {dashPred : Str → Bool} (h : endsWithLit header (stripCR l) = true)
    {ls block : List Str} (hblock : ls.takeWhile dashPred = block)
    (hne : block.isEmpty = false)
    (hblank : (!needBlank || blankAfter block ls) = true) :
    findSectionFrom header needBlank dashPred (l :: ls) =
      some (block.map stripCR) := by
  simp only [findSectionFrom, h, if_true, hblock]
  rw [if_pos (by rw [hne, hblank]; rfl)]

theorem blankAfter_append_self (block rest : List Str) {l2 : Str}
    (h : stripCR l2 = []) : blankAfter block (block ++ l2 :: rest) = true := by
  rw [blankAfter, List.drop_left]
  simp [h]

/-! ### The deployer-verification lines under the three check tests -/

theorem checkMarkAt_hit {phrase r : Str} (h : (dropLit phrase r).isSome = true) :
    (checkMarkAt phrase ('-' :: ' ' :: '[' :: 'x' :: ']' :: ' ' :: r)).isSome = true := by
  show ((if ('-' : Char) = '-' && isWsCh ' ' && ('[' : Char) = '[' &&
      ('x' : Char) = 'x' && (']' : Char) = ']' && isWsCh ' ' then
      (dropLit phrase r).map (fun _ => ()) else none)).isSome = true
  rw [if_pos (by decide)]
  cases hd : dropLit phrase r with
  | none => rw [hd] at h; exact Bool.noConfusion h
  | some r2 => rfl

theorem checkMark_timing_hit (tail : Str) :
    (checkMarkAt (lit timingPhrase) (timingLine true ++ tail)).isSome = true := by
  have h0 : (timingLine true : Str) =
      '-' :: ' ' :: '[' :: 'x' :: ']' :: ' ' :: (lit timingPhrase ++
        lit "(https://graphs.expensify.com/grafana/d/yj2EobAGz/app-timing?orgId=1) and verified this release does not cause a noticeable performance regression.") := by
    rfl
  have hshape : timingLine true ++ tail =
      '-' :: ' ' :: '[' :: 'x' :: ']' :: ' ' :: (lit timingPhrase ++
        (lit "(https://graphs.expensify.com/grafana/d/yj2EobAGz/app-timing?orgId=1) and verified this release does not cause a noticeable performance regression." ++ tail)) := by
    rw [h0]
    simp [List.append_assoc]
  rw [hshape]
  refine checkMarkAt_hit ?_
  rw [dropLit_append]
  rfl

theorem checkMark_firebase_hit (tail : Str) :
    (checkMarkAt (lit firebasePhrase) (firebaseLine true ++ tail)).isSome = true := by
  have h0 : (firebaseLine true : Str) =
      '-' :: ' ' :: '[' :: 'x' :: ']' :: ' ' :: (lit firebasePhrase ++
        lit "(https://console.firebase.google.com/u/0/project/expensify-chat/crashlytics/app/android:com.expensify.chat/issues?state=open&time=last-seven-days&tag=all) and verified that this release does not introduce any new crashes. More detailed instructions on this verification can be found [here](https://stackoverflowteams.com/c/expensify/questions/15095/15096).") := by
    rfl
  have hshape : firebaseLine true ++ tail =
      '-' :: ' ' :: '[' :: 'x' :: ']' :: ' ' :: (lit firebasePhrase ++
        (lit "(https://console.firebase.google.com/u/0/project/expensify-chat/crashlytics/app/android:com.expensify.chat/issues?state=open&time=last-seven-days&tag=all) and verified that this release does not introduce any new crashes. More detailed instructions on this verification can be found [here](https://stackoverflowteams.com/c/expensify/questions/15095/15096)." ++ tail)) := by
    rw [h0]
    simp [List.append_assoc]
  rw [hshape]
  refine checkMarkAt_hit ?_
  rw [dropLit_append]
  rfl

theorem checkMark_ghStatus_hit (tail : Str) :
    (checkMarkAt (lit ghStatusPhrase) (ghStatusLine true ++ tail)).isSome = true := by
  have h0 : (ghStatusLine true : Str) =
      '-' :: ' ' :: '[' :: 'x' :: ']' :: ' ' :: (lit ghStatusPhrase ++
        lit "(https://www.githubstatus.com/) and verified there is no reported incident with Actions.") := by
    rfl
  have hshape : ghStatusLine true ++ tail =
      '-' :: ' ' :: '[' :: 'x' :: ']' :: ' ' :: (lit ghStatusPhrase ++
        (lit "(https://www.githubstatus.com/) and verified there is no reported incident with Actions." ++ tail)) := by
    rw [h0]
    simp [List.append_assoc]
  rw [hshape]
  refine checkMarkAt_hit ?_
  rw [dropLit_append]
  rfl

theorem noCheck_verifLines_timing (bF bG : Bool) :
    NoCheck (lit timingPhrase) (timingLine false) ∧
    NoCheck (lit timingPhrase) (firebaseLine bF) ∧
    NoCheck (lit timingPhrase) (ghStatusLine bG) := by
  refine ⟨noCheck_of_decide (by decide), ?_, ?_⟩
  · cases bF with
    | false => exact noCheck_of_decide (by decide)
    | true => exact noCheck_of_decide (by decide)
  · cases bG with
    | false => exact noCheck_of_decide (by decide)
    | true => exact noCheck_of_decide (by decide)

theorem noCheck_verifLines_firebase (bT bG : Bool) :
    NoCheck (lit firebasePhrase) (firebaseLine false) ∧
    NoCheck (lit firebasePhrase) (timingLine bT) ∧
    NoCheck (lit firebasePhrase) (ghStatusLine bG) := by
  refine ⟨noCheck_of_decide (by decide), ?_, ?_⟩
  · cases bT with
    | false => exact noCheck_of_decide (by decide)
    | true => exact noCheck_of_decide (by decide)
  · cases bG with
    | false => exact noCheck_of_decide (by decide)
    | true => exact noCheck_of_decide (by decide)

theorem noCheck_verifLines_ghStatus (bT bF : Bool) :
    NoCheck (lit ghStatusPhrase) (ghStatusLine false) ∧
    NoCheck (lit ghStatusPhrase) (timingLine bT) ∧
    NoCheck (lit ghStatusPhrase) (firebaseLine bF) := by
  refine ⟨noCheck_of_decide (by decide), ?_, ?_⟩
  · cases bT with
    | false => exact noCheck_of_decide (by decide)
    | true => exact noCheck_of_decide (by decide)
  · cases bF with
    | false => exact noCheck_of_decide (by decide)
    | true => exact noCheck_of_decide (by decide)

/-! ### Evaluating the generator on decomposed document data -/

theorem mapM_keyed_eval {α : Type _} (keyf : Str → Option Nat) (f : α → Str)
    (num : α → Nat) (l : List α) (h : ∀ e ∈ l, keyf (f e) = some (num e)) :
    (l.map f).mapM (fun u =>
      match keyf u with
      | some n => Except.ok (n, u)
      | none => Except.error GenerateStepError.badUrl) =
    Except.ok (l.map (fun e => (num e, f e))) := by
  induction l with
  | nil => rfl
  | cons a as ih =>
    rw [List.map_cons, List.mapM_cons, h a (List.mem_cons_self a as),
      ih (fun e he => h e (List.mem_cons_of_mem a he))]
    rfl

theorem sortByUrlNumber_eval {α : Type _} (keyf : Str → Option Nat) (f : α → Str)
    (num : α → Nat) (l : List α) (h : ∀ e ∈ l, keyf (f e) = some (num e)) :
    sortByUrlNumber keyf (l.map f) = Except.ok ((sortByKey num l).map f) := by
  have hm := mapM_keyed_eval keyf f num l h
  show (do
    let keyed ← (l.map f).mapM (fun u =>
      match keyf u with
      | some n => Except.ok (n, u)
      | none => Except.error GenerateStepError.badUrl)
    pure ((sortByKey Prod.fst keyed).map Prod.snd) :
      Except GenerateStepError (List Str)) = _
  rw [hm]
  show Except.ok ((sortByKey Prod.fst (l.map (fun e => (num e, f e)))).map Prod.snd) = _
  rw [sortByKey_map Prod.fst (fun e => (num e, f e)) l]
  simp [List.map_map]

theorem iqaMap_fold_eval (iqas : List IQASpec) (acc : List (Str × Str))
    (hnd : ((acc.map Prod.fst) ++ iqas.map IQASpec.url).Nodup) :
    (iqas.map iqaRecord).foldlM (fun m pr =>
      match pr.merged_by with
      | some login => Except.ok (objInsert m pr.html_url login)
      | none => Except.error GenerateStepError.mergedByNull) acc =
    Except.ok (acc ++ iqas.map (fun e => (IQASpec.url e, e.login))) := by
  induction iqas generalizing acc with
  | nil =>
    show pure acc = Except.ok (acc ++ List.map _ [])
    rw [List.map_nil, List.append_nil]
    rfl
  | cons e es ih =>
    have hfr : acc.any (fun p => p.1 = IQASpec.url e) = false := by
      rw [Bool.eq_false_iff]
      intro hc
      obtain ⟨p, hp, hpe⟩ := List.any_eq_true.1 hc
      have hmem : IQASpec.url e ∈ acc.map Prod.fst :=
        List.mem_map.2 ⟨p, hp, of_decide_eq_true hpe⟩
      have hdisj := (List.nodup_append.1 hnd).2.2
      refine hdisj hmem ?_
      rw [List.map_cons]
      exact List.mem_cons_self _ _
    have hobj : objInsert acc (IQASpec.url e) e.login =
        acc ++ [(IQASpec.url e, e.login)] := by
      rw [objInsert, if_neg (by simp [hfr])]
    have hnd2 : (((acc ++ [(IQASpec.url e, e.login)]).map Prod.fst) ++
        es.map IQASpec.url).Nodup := by
      simp only [List.map_cons] at hnd
      simpa [List.map_append, List.append_assoc] using hnd
    show (es.map iqaRecord).foldlM _ (objInsert acc (IQASpec.url e) e.login) = _
    rw [hobj, ih (acc ++ [(IQASpec.url e, e.login)]) hnd2]
    simp

theorem qaFilter_eval (iqas : List IQASpec) (extras : List PullRequest)
    (hex : ∀ pr ∈ extras, jsContains pr.labels INTERNAL_QA_LABEL = false) :
    (iqas.map iqaRecord ++ extras).filter
      (fun pr => jsContains pr.labels INTERNAL_QA_LABEL) = iqas.map iqaRecord := by
  rw [List.filter_append]
  have h1 : (iqas.map iqaRecord).filter
      (fun pr => jsContains pr.labels INTERNAL_QA_LABEL) = iqas.map iqaRecord := by
    rw [List.filter_eq_self]
    intro pr hpr
    obtain ⟨e, he, rfl⟩ := List.mem_map.1 hpr
    exact (by decide :
      jsContains [INTERNAL_QA_LABEL] INTERNAL_QA_LABEL = true)
  have h2 : extras.filter (fun pr => jsContains pr.labels INTERNAL_QA_LABEL) = [] := by
    refine List.filter_eq_nil.2 (fun pr hpr => ?_)
    simp [hex pr hpr]
  rw [h1, h2, List.append_nil]

theorem noQA_eval (iqas : List IQASpec) (extras : List PullRequest) :
    ((iqas.map iqaRecord ++ extras).filter (fun pr => testNoQA pr.title)).map
      PullRequest.html_url = noQAUrls extras := by
  rw [List.filter_append]
  have h1 : (iqas.map iqaRecord).filter (fun pr => testNoQA pr.title) = [] := by
    refine List.filter_eq_nil.2 (fun pr hpr => ?_)
    obtain ⟨e, he, rfl⟩ := List.mem_map.1 hpr
    exact (by decide : ¬ testNoQA ([] : Str) = true)
  rw [h1, List.nil_append, noQAUrls]

theorem jsDifference_append_self {α : Type _} [DecidableEq α] (A B : List α)
    (hdisj : ∀ a ∈ A, a ∉ B) : jsDifference (A ++ B) B = A := by
  rw [jsDifference, List.filter_append]
  have h1 : A.filter (fun x => !jsContains B x) = A := by
    rw [List.filter_eq_self]
    intro a ha
    have h3 : jsContains B a = false := by
      rw [Bool.eq_false_iff]
      intro hc
      exact hdisj a ha (jsContains_iff.1 hc)
    rw [h3]
    rfl
  have h2 : B.filter (fun x => !jsContains B x) = [] := by
    refine List.filter_eq_nil.2 (fun b hb => ?_)
    have h3 : jsContains B b = true := jsContains_iff.2 hb
    simp [h3]
  rw [h1, h2, List.append_nil]

theorem sortByKey_ne_nil {α : Type _} (key : α → Nat) {l : List α} (h : l ≠ []) :
    sortByKey key l ≠ [] := by
  intro he
  have hp := sortByKey_perm key l
  rw [he] at hp
  exact h hp.nil_eq.symm

theorem map_isEmpty_false {α β : Type _} (f : α → β) {l : List α} (h : l ≠ []) :
    (l.map f).isEmpty = false := by
  match l, h with
  | a :: as, _ => rfl

theorem prSpec_ok_parts {e : PRSpec} (h : PRSpec.ok e = true) :
    segOk e.org = true ∧ segOk e.repo = true ∧ allDigits e.ds = true := by
  have h2 : (segOk e.org && segOk e.repo && allDigits e.ds) = true := h
  simp only [Bool.and_eq_true] at h2
  exact ⟨h2.1.1, h2.1.2, h2.2⟩

theorem iqaSpec_ok_parts {e : IQASpec} (h : IQASpec.ok e = true) :
    segOk e.org = true ∧ segOk e.repo = true ∧ allDigits e.ds = true ∧
      mentionOk e.login = true ∧ '-' ∉ e.org ∧ '-' ∉ e.repo := by
  have h2 : (segOk e.org && segOk e.repo && allDigits e.ds && mentionOk e.login &&
      !(e.org.any (fun c => c = '-')) && !(e.repo.any (fun c => c = '-'))) = true := h
  simp only [Bool.and_eq_true] at h2
  obtain ⟨⟨⟨⟨⟨h3, h4⟩, h5⟩, h6⟩, h7⟩, h8⟩ := h2
  refine ⟨h3, h4, h5, h6, ?_, ?_⟩
  · intro hm
    have h9 : (e.org.any (fun c => c = '-')) = true :=
      List.any_eq_true.2 ⟨'-', hm, by decide⟩
    rw [h9] at h7
    exact Bool.noConfusion h7
  · intro hm
    have h9 : (e.repo.any (fun c => c = '-')) = true :=
      List.any_eq_true.2 ⟨'-', hm, by decide⟩
    rw [h9] at h8
    exact Bool.noConfusion h8

theorem dbSpec_ok_parts {e : DBSpec} (h : DBSpec.ok e = true) :
    segOk e.org = true ∧ segOk e.repo = true ∧ allDigits e.ds = true := by
  have h2 : (segOk e.org && segOk e.repo && allDigits e.ds) = true := h
  simp only [Bool.and_eq_true] at h2
  exact ⟨h2.1.1, h2.1.2, h2.2⟩

theorem prSpec_url_key {e : PRSpec} (h : PRSpec.ok e = true) :
    getPullRequestNumberFromURL (PRSpec.url e) = some (PRSpec.num e) := by
  obtain ⟨h1, h2, h3⟩ := prSpec_ok_parts h
  exact getPullRequestNumberFromURL_canonical h1 h2 h3

theorem iqaSpec_url_key {e : IQASpec} (h : IQASpec.ok e = true) :
    getPullRequestNumberFromURL (IQASpec.url e) = some (IQASpec.num e) := by
  obtain ⟨h1, h2, h3, _, _, _⟩ := iqaSpec_ok_parts h
  exact getPullRequestNumberFromURL_canonical h1 h2 h3

theorem dbSpec_url_key {e : DBSpec} (h : DBSpec.ok e = true) :
    getIssueOrPullRequestNumberFromURL (DBSpec.url e) = some (DBSpec.num e) := by
  obtain ⟨h1, h2, h3⟩ := dbSpec_ok_parts h
  rw [DBSpec.url]
  cases hp : e.isPull with
  | true =>
    rw [if_pos rfl]
    exact getIssueOrPullRequestNumberFromURL_pull h1 h2 h3
  | false =>
    rw [if_neg (by simp)]
    exact getIssueOrPullRequestNumberFromURL_issue h1 h2 h3

theorem specPRList_nodup {mains : List PRSpec} {iqas : List IQASpec}
    (hm : mains.all PRSpec.ok = true) (hq : iqas.all IQASpec.ok = true)
    (hnd : ((mains.map PRSpec.num) ++ (iqas.map IQASpec.num)).Nodup) :
    (specPRList mains iqas).Nodup := by
  have h1 : (specPRList mains iqas).map getPullRequestNumberFromURL =
      ((mains.map PRSpec.num) ++ (iqas.map IQASpec.num)).map some := by
    rw [specPRList, List.map_append, List.map_append, List.map_map, List.map_map,
      List.map_map, List.map_map]
    congr 1
    · exact List.map_congr_left
        (fun e he => prSpec_url_key (List.all_eq_true.1 hm e he))
    · exact List.map_congr_left
        (fun e he => iqaSpec_url_key (List.all_eq_true.1 hq e he))
  have h2 := hnd.map (Option.some_injective Nat)
  exact List.Nodup.of_map getPullRequestNumberFromURL (h1 ▸ h2)

theorem dbs_urls_nodup {dbs : List DBSpec} (hd : dbs.all DBSpec.ok = true)
    (hnd : (dbs.map DBSpec.num).Nodup) : (dbs.map DBSpec.url).Nodup := by
  have h1 : (dbs.map DBSpec.url).map getIssueOrPullRequestNumberFromURL =
      (dbs.map DBSpec.num).map some := by
    rw [List.map_map, List.map_map]
    exact List.map_congr_left
      (fun e he => dbSpec_url_key (List.all_eq_true.1 hd e he))
  have h2 := hnd.map (Option.some_injective Nat)
  exact List.Nodup.of_map getIssueOrPullRequestNumberFromURL (h1 ▸ h2)

theorem except_bind_ok {ε α β : Type _} (a : α) (k : α → Except ε β) :
    (Except.ok a : Except ε α) >>= k = k a := rfl

/-- Evaluation of the generator callback on decomposed document data with
all three sections nonempty: it succeeds and produces exactly the
spelled-out line list. -/
theorem classifyAndRender_eval (d1 d2 d3 : Str) (opt4 : Option Str)
    (mains : List PRSpec) (iqas : List IQASpec) (dbs : List DBSpec)
    (extras : List PullRequest) (bT bF bG : Bool)
    (hm : mains.all PRSpec.ok = true) (hq : iqas.all IQASpec.ok = true)
    (hd : dbs.all DBSpec.ok = true)
    (hnd : ((mains.map PRSpec.num) ++ (iqas.map IQASpec.num)).Nodup)
    (hnddb : (dbs.map DBSpec.num).Nodup)
    (hex : ∀ pr ∈ extras, jsContains pr.labels INTERNAL_QA_LABEL = false)
    (hmne : mains ≠ []) (hqne : iqas ≠ []) (hdne : dbs ≠ []) :
    classifyAndRender (some (iqas.map iqaRecord ++ extras)) (tagStr d1 d2 d3 opt4)
      (specPRList mains iqas) (specVerified mains) (specDB dbs)
      (specResolvedDB dbs) (specResolvedIQA iqas) bT bF bG =
    Except.ok
      { issueBody := joinLinesCRLF (specLines d1 d2 d3 opt4
          (jsUnion (specVerified mains) (noQAUrls extras)) (specResolvedIQA iqas)
          (specResolvedDB dbs) mains iqas dbs bT bF bG),
        issueAssignees := iqas.map IQASpec.login } := by
  have hqnodup : ((([] : List (Str × Str)).map Prod.fst) ++
      iqas.map IQASpec.url).Nodup := by
    rw [List.map_nil, List.nil_append]
    have hnd2 : (iqas.map IQASpec.num).Nodup := (List.nodup_append.1 hnd).2.1
    have h1 : (iqas.map IQASpec.url).map getPullRequestNumberFromURL =
        (iqas.map IQASpec.num).map some := by
      rw [List.map_map, List.map_map]
      exact List.map_congr_left
        (fun e he => iqaSpec_url_key (List.all_eq_true.1 hq e he))
    exact List.Nodup.of_map getPullRequestNumberFromURL
      (h1 ▸ hnd2.map (Option.some_injective Nat))
  have hfold := iqaMap_fold_eval iqas [] hqnodup
  rw [List.nil_append] at hfold
  have hfilter := qaFilter_eval iqas extras hex
  have hnoqa := noQA_eval iqas extras
  have hplnd := specPRList_nodup hm hq hnd
  have hparts := List.nodup_append.1 (by rwa [specPRList] at hplnd)
  have hdisj : ∀ u ∈ mains.map PRSpec.url, u ∉ iqas.map IQASpec.url :=
    fun u hu hv => hparts.2.2 hu hv
  have hfst : (iqas.map (fun e => (IQASpec.url e, e.login))).map Prod.fst =
      iqas.map IQASpec.url := by
    rw [List.map_map]
    rfl
  have hsnd : (iqas.map (fun e => (IQASpec.url e, e.login))).map Prod.snd =
      iqas.map IQASpec.login := by
    rw [List.map_map]
    rfl
  have hdiff : jsDifference (specPRList mains iqas) (iqas.map IQASpec.url) =
      mains.map PRSpec.url := by
    rw [specPRList]
    exact jsDifference_append_self _ _ hdisj
  have huniq : jsUniq (mains.map PRSpec.url) = mains.map PRSpec.url :=
    jsUniq_eq_self hparts.1
  have hsortmain := sortByUrlNumber_eval getPullRequestNumberFromURL PRSpec.url
    PRSpec.num mains (fun e he => prSpec_url_key (List.all_eq_true.1 hm e he))
  have huniqdb : jsUniq (specDB dbs) = specDB dbs :=
    jsUniq_eq_self (dbs_urls_nodup hd hnddb)
  have hsortdb : sortByUrlNumber getIssueOrPullRequestNumberFromURL (specDB dbs) =
      Except.ok ((sortByKey DBSpec.num dbs).map DBSpec.url) :=
    sortByUrlNumber_eval getIssueOrPullRequestNumberFromURL DBSpec.url
      DBSpec.num dbs (fun e he => dbSpec_url_key (List.all_eq_true.1 hd e he))
  have hlines : generateBodyLines (tagStr d1 d2 d3 opt4)
      ((sortByKey PRSpec.num mains).map PRSpec.url)
      (iqas.map (fun e => (IQASpec.url e, e.login))) (specDB dbs)
      ((sortByKey DBSpec.num dbs).map DBSpec.url)
      (jsUnion (specVerified mains) (noQAUrls extras)) (specResolvedIQA iqas)
      (specResolvedDB dbs) bT bF bG =
    specLines d1 d2 d3 opt4 (jsUnion (specVerified mains) (noQAUrls extras))
      (specResolvedIQA iqas) (specResolvedDB dbs) mains iqas dbs bT bF bG := by
    have e1 : ((sortByKey PRSpec.num mains).map PRSpec.url).isEmpty = false :=
      map_isEmpty_false _ (sortByKey_ne_nil _ hmne)
    have e2 : (iqas.map (fun e => (IQASpec.url e, e.login))).isEmpty = false :=
      map_isEmpty_false _ hqne
    have e3 : (specDB dbs).isEmpty = false := map_isEmpty_false _ hdne
    have hmap1 : ((sortByKey PRSpec.num mains).map PRSpec.url).map
        (fun URL => checkbox (jsContains
          (jsUnion (specVerified mains) (noQAUrls extras)) URL) ++ [' '] ++ URL) =
        (sortByKey PRSpec.num mains).map
          (mainLineB (jsUnion (specVerified mains) (noQAUrls extras))) := by
      rw [List.map_map]
      rfl
    have hmap2 : (iqas.map (fun e => (IQASpec.url e, e.login))).map
        (fun p => checkbox (jsContains (specResolvedIQA iqas) p.1) ++ [' '] ++
          p.1 ++ lit " - @" ++ p.2) =
        iqas.map (iqaLineB (specResolvedIQA iqas)) := by
      rw [List.map_map]
      rfl
    have hmap3 : ((sortByKey DBSpec.num dbs).map DBSpec.url).map
        (fun URL => checkbox (jsContains (specResolvedDB dbs) URL) ++ [' '] ++ URL) =
        (sortByKey DBSpec.num dbs).map (dbLineB (specResolvedDB dbs)) := by
      rw [List.map_map]
      rfl
    simp only [generateBodyLines, specLines, e1, e2, e3, Bool.false_eq_true,
      if_false]
    rw [hmap1, hmap2, hmap3]
    simp [List.append_assoc]
  simp only [classifyAndRender, Option.getD_some, hfilter, hfold, except_bind_ok,
    hfst, hnoqa, hdiff, huniq, hsortmain, huniqdb, hsortdb]
  rw [hlines, hsnd]
  rfl

/-! ### Character facts about generated lines -/

theorem segOk_all {s : Str} (h : segOk s = true) : ∀ c ∈ s, segChar c = true := by
  have h2 : ((!s.isEmpty) = true) ∧ s.all segChar = true := by simpa [segOk] using h
  exact fun c hc => List.all_eq_true.1 h2.2 c hc

theorem mentionOk_all {s : Str} (h : mentionOk s = true) :
    ∀ c ∈ s, mentionChar c = true := by
  have h2 : ((!s.isEmpty) = true) ∧ s.all mentionChar = true := by
    simpa [mentionOk] using h
  exact fun c hc => List.all_eq_true.1 h2.2 c hc

theorem mentionOk_ne_nil {s : Str} (h : mentionOk s = true) : s ≠ [] := by
  have h2 : ((!s.isEmpty) = true) ∧ s.all mentionChar = true := by
    simpa [mentionOk] using h
  intro he
  rw [he] at h2
  simpa using h2.1

theorem keyUrl_all_isDotCh {key org repo ds : Str} (horg : segOk org = true)
    (hrepo : segOk repo = true) (hds : allDigits ds = true)
    (hkey : ∀ c ∈ key, isDotCh c = true) :
    ∀ c ∈ keyUrl key org repo ds, isDotCh c = true := by
  intro c hc
  rcases keyUrl_mem hc with h | h | h | h | h | h | h
  · exact (by decide : ∀ x ∈ (lit "https://" : Str), isDotCh x = true) c h
  · exact (by decide : ∀ x ∈ (lit "github.com" : Str), isDotCh x = true) c h
  · rw [h]; decide
  · exact segChar_isDotCh (segOk_all horg c h)
  · exact segChar_isDotCh (segOk_all hrepo c h)
  · exact hkey c h
  · exact isDigitCh_isDotCh ((allDigits_parts hds).2 c h)

theorem pullUrl_all_isDotCh {org repo ds : Str} (horg : segOk org = true)
    (hrepo : segOk repo = true) (hds : allDigits ds = true) :
    ∀ c ∈ pullUrl org repo ds, isDotCh c = true :=
  keyUrl_all_isDotCh horg hrepo hds (by decide)

theorem issueUrl_all_isDotCh {org repo ds : Str} (horg : segOk org = true)
    (hrepo : segOk repo = true) (hds : allDigits ds = true) :
    ∀ c ∈ issueUrl org repo ds, isDotCh c = true :=
  keyUrl_all_isDotCh horg hrepo hds (by decide)

theorem not_newline_of_isDotCh {l : Str} (h : ∀ c ∈ l, isDotCh c = true) :
    '\n' ∉ l := by
  intro hm
  have := h _ hm
  exact absurd this (by decide)

theorem mention_all_isDotCh {m : Str} (hm : mentionOk m = true) :
    ∀ c ∈ m, isDotCh c = true :=
  fun c hc => mentionChar_isDotCh (mentionOk_all hm c hc)

/-! ### Entry-line predicate evaluation -/

theorem isDashLine_entry (b : Bool) {T : Str} (hT : T.all isDotCh = true) :
    isDashLine ((checkbox b ++ ([' '] ++ T)) ++ ['\r']) = true := by
  simp only [isDashLine, stripCR_concat]
  cases b with
  | true =>
    show (' ' :: '[' :: 'x' :: ']' :: ' ' :: T).all isDotCh = true
    simp only [List.all_cons, Bool.and_eq_true]
    exact ⟨by decide, by decide, by decide, by decide, by decide, hT⟩
  | false =>
    show (' ' :: '[' :: ' ' :: ']' :: ' ' :: T).all isDotCh = true
    simp only [List.all_cons, Bool.and_eq_true]
    exact ⟨by decide, by decide, by decide, by decide, by decide, hT⟩

theorem isInternalQALine_entry (b : Bool) {T : Str} (hT : T.all isDotCh = true) :
    isInternalQALine ((checkbox b ++ ([' '] ++ T)) ++ ['\r']) = true := by
  simp only [isInternalQALine, stripCR_concat]
  cases b with
  | true =>
    show ((('x' : Char) = ' ' || ('x' : Char) = 'x') && (' ' :: T).all isDotCh) = true
    simp only [List.all_cons, Bool.and_eq_true, Bool.or_eq_true]
    exact ⟨Or.inr (by decide), by decide, hT⟩
  | false =>
    show (((' ' : Char) = ' ' || (' ' : Char) = 'x') && (' ' :: T).all isDotCh) = true
    simp only [List.all_cons, Bool.and_eq_true, Bool.or_eq_true]
    exact ⟨Or.inl (by decide), by decide, hT⟩

theorem map_stripCR_concat (ls : List Str) :
    (ls.map (fun l => l ++ ['\r'])).map stripCR = ls := by
  rw [List.map_map]
  have h : ∀ l ∈ ls, (stripCR ∘ fun x => x ++ ['\r']) l = id l :=
    fun l _ => stripCR_concat l
  rw [List.map_congr_left h, List.map_id]

theorem filterMap_map_comp {α β γ : Type _} (f : α → β) (g : β → Option γ)
    (l : List α) :
    (l.map f).filterMap g = l.filterMap (fun a => g (f a)) := by
  induction l with
  | nil => rfl
  | cons a as ih => rw [List.map_cons, List.filterMap_cons, List.filterMap_cons, ih]

theorem pullUrlAt_spec {e : PRSpec} (h : PRSpec.ok e = true) :
    pullUrlAt (PRSpec.url e) = some (PRSpec.num e) := by
  obtain ⟨h1, h2, h3⟩ := prSpec_ok_parts h
  have h4 := pullUrlAt_canonical h1 h2 h3 (List.not_mem_nil '/')
    (by intro c hc; simp at hc)
  rwa [List.append_nil] at h4

theorem issueOrPullUrlAt_spec {e : DBSpec} (h : DBSpec.ok e = true) :
    issueOrPullUrlAt (DBSpec.url e) = some (DBSpec.num e) := by
  obtain ⟨h1, h2, h3⟩ := dbSpec_ok_parts h
  rw [DBSpec.url]
  cases hp : e.isPull with
  | true =>
    rw [if_pos rfl]
    have h4 := issueOrPullUrlAt_pull h1 h2 h3 (List.not_mem_nil '/')
      (by intro c hc; simp at hc)
    rwa [List.append_nil] at h4
  | false =>
    rw [if_neg (by simp)]
    have h4 := issueOrPullUrlAt_issue h1 h2 h3 (List.not_mem_nil '/')
      (by intro c hc; simp at hc)
    rwa [List.append_nil] at h4

theorem pullUrlAt_iqa_annotated {e : IQASpec} (h : IQASpec.ok e = true) :
    pullUrlAt (IQASpec.url e ++ (lit " - @" ++ e.login)) = some (IQASpec.num e) := by
  obtain ⟨h1, h2, h3, h4, _, _⟩ := iqaSpec_ok_parts h
  refine pullUrlAt_canonical h1 h2 h3 ?_ ?_
  · intro hm
    rcases List.mem_append.1 hm with h5 | h5
    · exact absurd h5 (by decide)
    · exact mentionOk_no_slash h4 h5
  · intro c hc
    have : c = ' ' := by
      have h6 : (lit " - @" ++ e.login : Str).head? = some ' ' := rfl
      rw [h6] at hc
      exact (Option.some.inj hc).symm
    rw [this]
    decide

theorem map_ne_nil {α β : Type _} (f : α → β) {l : List α} (h : l ≠ []) :
    l.map f ≠ [] := by
  match l, h with
  | a :: as, _ => simp

theorem dbUrl_all_isDotCh {e : DBSpec} (h : DBSpec.ok e = true) :
    ∀ c ∈ DBSpec.url e, isDotCh c = true := by
  obtain ⟨h1, h2, h3⟩ := dbSpec_ok_parts h
  rw [DBSpec.url]
  by_cases hp : e.isPull = true
  · rw [if_pos hp]
    exact pullUrl_all_isDotCh h1 h2 h3
  · rw [if_neg hp]
    exact issueUrl_all_isDotCh h1 h2 h3

theorem iqaTail_all_isDotCh {e : IQASpec} (h : IQASpec.ok e = true) :
    (IQASpec.url e ++ (lit " - @" ++ e.login)).all isDotCh = true := by
  obtain ⟨h1, h2, h3, h4, _, _⟩ := iqaSpec_ok_parts h
  refine List.all_eq_true.2 (fun c hc => ?_)
  rcases List.mem_append.1 hc with h5 | h5
  · exact pullUrl_all_isDotCh h1 h2 h3 c h5
  · rcases List.mem_append.1 h5 with h6 | h6
    · exact (by decide : ∀ x ∈ (lit " - @" : Str), isDotCh x = true) c h6
    · exact mention_all_isDotCh h4 c h6

/-- Case analysis on the lines of the rendered body. -/
theorem specLines_cases {P : Str → Prop} {d1 d2 d3 : Str} {opt4 : Option Str}
    {V R RD : List Str} {mains : List PRSpec} {iqas : List IQASpec}
    {dbs : List DBSpec} {bT bF bG : Bool}
    (htag : P (lit "**Release Version:** " ++ ['\x60'] ++ tagStr d1 d2 d3 opt4 ++
      ['\x60']))
    (hcmp : P compareLine) (hblank : P []) (hprh : P prSectionHeaderLine)
    (hmain : ∀ e ∈ mains, P (mainLineB V e))
    (hiqah : P internalQAHeaderLine) (hiqa : ∀ e ∈ iqas, P (iqaLineB R e))
    (hdbh : P deployBlockersHeaderLine) (hdb : ∀ e ∈ dbs, P (dbLineB RD e))
    (hdep : P deployerVerificationsLine) (ht : P (timingLine bT))
    (hf : P (firebaseLine bF)) (hg : P (ghStatusLine bG)) (hcc : P ccLine) :
    ∀ l ∈ specLines d1 d2 d3 opt4 V R RD mains iqas dbs bT bF bG, P l := by
  intro l hl
  rw [specLines] at hl
  rcases List.mem_append.1 hl with h1 | h1
  · rcases List.mem_append.1 h1 with h2 | h2
    · rcases List.mem_append.1 h2 with h3 | h3
      · rcases List.mem_append.1 h3 with h4 | h4
        · rcases List.mem_append.1 h4 with h5 | h5
          · rcases List.mem_append.1 h5 with h6 | h6
            · rcases List.mem_cons.1 h6 with rfl | h7
              · exact htag
              · rcases List.mem_cons.1 h7 with rfl | h8
                · exact hcmp
                · rcases List.mem_cons.1 h8 with rfl | h9
                  · exact hblank
                  · rcases List.mem_cons.1 h9 with rfl | h10
                    · exact hprh
                    · exact absurd h10 (List.not_mem_nil l)
            · obtain ⟨e, he, rfl⟩ := List.mem_map.1 h6
              exact hmain e ((sortByKey_perm PRSpec.num mains).mem_iff.1 he)
          · rcases List.mem_cons.1 h5 with rfl | h7
            · exact hblank
            · rcases List.mem_cons.1 h7 with rfl | h8
              · exact hblank
              · rcases List.mem_cons.1 h8 with rfl | h9
                · exact hiqah
                · exact absurd h9 (List.not_mem_nil l)
        · obtain ⟨e, he, rfl⟩ := List.mem_map.1 h4
          exact hiqa e he
      · rcases List.mem_cons.1 h3 with rfl | h7
        · exact hblank
        · rcases List.mem_cons.1 h7 with rfl | h8
          · exact hblank
          · rcases List.mem_cons.1 h8 with rfl | h9
            · exact hdbh
            · exact absurd h9 (List.not_mem_nil l)
    · obtain ⟨e, he, rfl⟩ := List.mem_map.1 h2
      exact hdb e ((sortByKey_perm DBSpec.num dbs).mem_iff.1 he)
  · rcases List.mem_cons.1 h1 with rfl | h2
    · exact hblank
    · rcases List.mem_cons.1 h2 with rfl | h3
      · exact hblank
      · rcases List.mem_cons.1 h3 with rfl | h4
        · exact hdep
        · rcases List.mem_cons.1 h4 with rfl | h5
          · exact ht
          · rcases List.mem_cons.1 h5 with rfl | h6
            · exact hf
            · rcases List.mem_cons.1 h6 with rfl | h7
              · exact hg
              · rcases List.mem_cons.1 h7 with rfl | h8
                · exact hblank
                · rcases List.mem_cons.1 h8 with rfl | h9
                  · exact hcc
                  · exact absurd h9 (List.not_mem_nil l)

theorem specLines_no_newline {d1 d2 d3 : Str} {opt4 : Option Str}
    {V R RD : List Str} {mains : List PRSpec} {iqas : List IQASpec}
    {dbs : List DBSpec} {bT bF bG : Bool} (hok : tagOk d1 d2 d3 opt4 = true)
    (hm : mains.all PRSpec.ok = true) (hq : iqas.all IQASpec.ok = true)
    (hd : dbs.all DBSpec.ok = true) :
    ∀ l ∈ specLines d1 d2 d3 opt4 V R RD mains iqas dbs bT bF bG, '\n' ∉ l := by
  have hcb : ∀ b, '\n' ∉ checkbox b := by decide
  refine specLines_cases ?_ ?_ ?_ ?_ ?_ ?_ ?_ ?_ ?_ ?_ ?_ ?_ ?_ ?_
  · intro hmem
    rcases List.mem_append.1 hmem with h1 | h1
    · rcases List.mem_append.1 h1 with h2 | h2
      · rcases List.mem_append.1 h2 with h3 | h3
        · exact absurd h3 (by decide)
        · exact absurd h3 (by decide)
      · rcases tagStr_chars hok _ h2 with h | h | h
        · exact absurd h (by decide)
        · exact absurd h (by decide)
        · exact absurd h (by decide)
    · exact absurd h1 (by decide)
  · exact (by decide : '\n' ∉ compareLine)
  · exact List.not_mem_nil _
  · exact (by decide : '\n' ∉ prSectionHeaderLine)
  · intro e he hmem
    obtain ⟨ho1, ho2, ho3⟩ := prSpec_ok_parts (List.all_eq_true.1 hm e he)
    rcases List.mem_append.1 hmem with h1 | h1
    · rcases List.mem_append.1 h1 with h2 | h2
      · exact absurd h2 (hcb _)
      · exact absurd h2 (by decide)
    · exact not_newline_of_isDotCh (pullUrl_all_isDotCh ho1 ho2 ho3) h1
  · exact (by decide : '\n' ∉ internalQAHeaderLine)
  · intro e he hmem
    obtain ⟨ho1, ho2, ho3, ho4, _, _⟩ := iqaSpec_ok_parts (List.all_eq_true.1 hq e he)
    rcases List.mem_append.1 hmem with h1 | h1
    · rcases List.mem_append.1 h1 with h2 | h2
      · rcases List.mem_append.1 h2 with h3 | h3
        · rcases List.mem_append.1 h3 with h4 | h4
          · exact absurd h4 (hcb _)
          · exact absurd h4 (by decide)
        · exact not_newline_of_isDotCh (pullUrl_all_isDotCh ho1 ho2 ho3) h3
      · exact absurd h2 (by decide)
    · exact not_newline_of_isDotCh (mention_all_isDotCh ho4) h1
  · exact (by decide : '\n' ∉ deployBlockersHeaderLine)
  · intro e he hmem
    rcases List.mem_append.1 hmem with h1 | h1
    · rcases List.mem_append.1 h1 with h2 | h2
      · exact absurd h2 (hcb _)
      · exact absurd h2 (by decide)
    · exact not_newline_of_isDotCh
        (dbUrl_all_isDotCh (List.all_eq_true.1 hd e he)) h1
  · exact (by decide : '\n' ∉ deployerVerificationsLine)
  · cases bT with
    | false => decide
    | true => decide
  · cases bF with
    | false => decide
    | true => decide
  · cases bG with
    | false => decide
    | true => decide
  · exact (by decide : '\n' ∉ ccLine)

/-- The complete lines of a rendered body, in the cons/append shape the
section searches walk over. -/
theorem specLines_mapped (d1 d2 d3 : Str) (opt4 : Option Str) (V R RD : List Str)
    (mains : List PRSpec) (iqas : List IQASpec) (dbs : List DBSpec)
    (bT bF bG : Bool) :
    (specLines d1 d2 d3 opt4 V R RD mains iqas dbs bT bF bG).map
      (fun l => l ++ ['\r']) =
    (lit "**Release Version:** " ++ ['\x60'] ++ tagStr d1 d2 d3 opt4 ++ ['\x60'] ++
      ['\r']) ::
    (compareLine ++ ['\r']) :: ['\r'] :: (prSectionHeaderLine ++ ['\r']) ::
    (((sortByKey PRSpec.num mains).map (mainLineB V)).map (fun l => l ++ ['\r']) ++
      (['\r'] :: ['\r'] :: (internalQAHeaderLine ++ ['\r']) ::
        ((iqas.map (iqaLineB R)).map (fun l => l ++ ['\r']) ++
          (['\r'] :: ['\r'] :: (deployBlockersHeaderLine ++ ['\r']) ::
            (((sortByKey DBSpec.num dbs).map (dbLineB RD)).map
                (fun l => l ++ ['\r']) ++
              (['\r'] :: ['\r'] :: (deployerVerificationsLine ++ ['\r']) ::
                (timingLine bT ++ ['\r']) :: (firebaseLine bF ++ ['\r']) ::
                (ghStatusLine bG ++ ['\r']) :: ['\r'] ::
                (ccLine ++ ['\r']) :: [])))))) := by
  simp [specLines, List.map_append, List.append_assoc]

theorem stripCR_cr : stripCR ['\r'] = [] := stripCR_concat []

theorem findSectionFrom_hit_block {header hl : Str} {needBlank : Bool}
    {dashPred : Str → Bool} (h : endsWithLit header (stripCR hl) = true)
    {blk : List Str} (hdash : ∀ x ∈ blk, dashPred x = true)
    (hbne : blk.isEmpty = false) {y : Str} (hy : dashPred y = false)
    (hyblank : stripCR y = []) (rest : List Str) :
    findSectionFrom header needBlank dashPred (hl :: (blk ++ y :: rest)) =
      some (blk.map stripCR) := by
  refine findSectionFrom_hit h (takeWhile_all_stop hdash hy rest) hbne ?_
  cases needBlank with
  | false => rfl
  | true =>
    show (!true || blankAfter blk (blk ++ y :: rest)) = true
    rw [blankAfter_append_self _ _ hyblank]
    rfl

theorem main_line_endsWith_false {p : Str} {V : List Str} {e : PRSpec}
    (hoke : PRSpec.ok e = true) (hp : p.getLast? = some '*') :
    endsWithLit p (mainLineB V e) = false := by
  obtain ⟨h1, h2, h3⟩ := prSpec_ok_parts hoke
  show endsWithLit p ((checkbox (jsContains V (PRSpec.url e)) ++ [' ']) ++
    keyUrl (lit "pull") e.org e.repo e.ds) = false
  exact endsWith_star_false_keyUrl h3 hp

theorem iqa_line_endsWith_false {p : Str} {R : List Str} {e : IQASpec}
    (hoke : IQASpec.ok e = true) (hp : p.getLast? = some '*') :
    endsWithLit p (iqaLineB R e) = false := by
  obtain ⟨_, _, _, h4, _, _⟩ := iqaSpec_ok_parts hoke
  show endsWithLit p ((checkbox (jsContains R (IQASpec.url e)) ++ [' '] ++
    IQASpec.url e ++ lit " - @") ++ e.login) = false
  exact endsWith_star_false_mention h4 hp

theorem db_line_endsWith_false {p : Str} {RD : List Str} {e : DBSpec}
    (hoke : DBSpec.ok e = true) (hp : p.getLast? = some '*') :
    endsWithLit p (dbLineB RD e) = false := by
  obtain ⟨h1, h2, h3⟩ := dbSpec_ok_parts hoke
  by_cases hpu : e.isPull = true
  · have hurl : DBSpec.url e = pullUrl e.org e.repo e.ds := by
      rw [DBSpec.url, if_pos hpu]
    show endsWithLit p ((checkbox (jsContains RD (DBSpec.url e)) ++ [' ']) ++
      DBSpec.url e) = false
    rw [hurl]
    exact endsWith_star_false_keyUrl h3 hp
  · have hurl : DBSpec.url e = issueUrl e.org e.repo e.ds := by
      rw [DBSpec.url, if_neg hpu]
    show endsWithLit p ((checkbox (jsContains RD (DBSpec.url e)) ++ [' ']) ++
      DBSpec.url e) = false
    rw [hurl]
    exact endsWith_star_false_keyUrl h3 hp

/-- Evaluation of the main-PR section search on a rendered body. -/
theorem prSectionOf_specBody {d1 d2 d3 : Str} {opt4 : Option Str}
    {V R RD : List Str} {mains : List PRSpec} {iqas : List IQASpec}
    {dbs : List DBSpec} {bT bF bG : Bool} (hok : tagOk d1 d2 d3 opt4 = true)
    (hm : mains.all PRSpec.ok = true) (hq : iqas.all IQASpec.ok = true)
    (hd : dbs.all DBSpec.ok = true) (hmne : mains ≠ []) :
    prSectionOf (joinLinesCRLF
        (specLines d1 d2 d3 opt4 V R RD mains iqas dbs bT bF bG)) =
      some ((sortByKey PRSpec.num mains).map (mainLineB V)) := by
  have hstar : (lit "pull requests:**").getLast? = some '*' := rfl
  rw [prSectionOf, completeLines_joinLinesCRLF (specLines_no_newline hok hm hq hd),
    specLines_mapped]
  have h1 : endsWithLit (lit "pull requests:**")
      (stripCR (lit "**Release Version:** " ++ ['\x60'] ++ tagStr d1 d2 d3 opt4 ++
        ['\x60'] ++ ['\r'])) = false := by
    rw [stripCR_concat]
    exact endsWith_star_false_backtick hstar
  have h2 : endsWithLit (lit "pull requests:**")
      (stripCR (compareLine ++ ['\r'])) = false := by
    rw [stripCR_concat]
    decide
  have h3 : endsWithLit (lit "pull requests:**") (stripCR ['\r']) = false := by
    exact endsWithLit_nil_false (by decide)
  rw [findSectionFrom_skip h1, findSectionFrom_skip h2, findSectionFrom_skip h3]
  have hhit : endsWithLit (lit "pull requests:**")
      (stripCR (prSectionHeaderLine ++ ['\r'])) = true := by
    rw [stripCR_concat]
    decide
  have hdash : ∀ x ∈ ((sortByKey PRSpec.num mains).map (mainLineB V)).map
      (fun l => l ++ ['\r']), isDashLine x = true := by
    intro x hx
    obtain ⟨lx, hlx, rfl⟩ := List.mem_map.1 hx
    obtain ⟨e, he, rfl⟩ := List.mem_map.1 hlx
    obtain ⟨ho1, ho2, ho3⟩ := prSpec_ok_parts
      (List.all_eq_true.1 hm e ((sortByKey_perm PRSpec.num mains).mem_iff.1 he))
    have hsh : mainLineB V e = checkbox (jsContains V (PRSpec.url e)) ++
        ([' '] ++ PRSpec.url e) := by
      simp [mainLineB, List.append_assoc]
    rw [hsh]
    exact isDashLine_entry _ (List.all_eq_true.2 (pullUrl_all_isDotCh ho1 ho2 ho3))
  rw [findSectionFrom_hit_block hhit hdash
    (map_isEmpty_false _ (map_ne_nil _ (sortByKey_ne_nil _ hmne)))
    (by decide) stripCR_cr _, map_stripCR_concat]

/-- Evaluation of the internal-QA section search on a rendered body. -/
theorem internalQASectionOf_specBody {d1 d2 d3 : Str} {opt4 : Option Str}
    {V R RD : List Str} {mains : List PRSpec} {iqas : List IQASpec}
    {dbs : List DBSpec} {bT bF bG : Bool} (hok : tagOk d1 d2 d3 opt4 = true)
    (hm : mains.all PRSpec.ok = true) (hq : iqas.all IQASpec.ok = true)
    (hd : dbs.all DBSpec.ok = true) (hqne : iqas ≠ []) :
    internalQASectionOf (joinLinesCRLF
        (specLines d1 d2 d3 opt4 V R RD mains iqas dbs bT bF bG)) =
      some (iqas.map (iqaLineB R)) := by
  have hstar : (lit "Internal QA:**").getLast? = some '*' := rfl
  rw [internalQASectionOf,
    completeLines_joinLinesCRLF (specLines_no_newline hok hm hq hd),
    specLines_mapped]
  have h1 : endsWithLit (lit "Internal QA:**")
      (stripCR (lit "**Release Version:** " ++ ['\x60'] ++ tagStr d1 d2 d3 opt4 ++
        ['\x60'] ++ ['\r'])) = false := by
    rw [stripCR_concat]
    exact endsWith_star_false_backtick hstar
  have h2 : endsWithLit (lit "Internal QA:**")
      (stripCR (compareLine ++ ['\r'])) = false := by
    rw [stripCR_concat]
    decide
  have h3 : endsWithLit (lit "Internal QA:**") (stripCR ['\r']) = false := by
    exact endsWithLit_nil_false (by decide)
  have h4 : endsWithLit (lit "Internal QA:**")
      (stripCR (prSectionHeaderLine ++ ['\r'])) = false := by
    rw [stripCR_concat]
    decide
  have hpre : ∀ l ∈ ((sortByKey PRSpec.num mains).map (mainLineB V)).map
      (fun l => l ++ ['\r']),
      endsWithLit (lit "Internal QA:**") (stripCR l) = false := by
    intro l hl
    obtain ⟨lx, hlx, rfl⟩ := List.mem_map.1 hl
    obtain ⟨e, he, rfl⟩ := List.mem_map.1 hlx
    rw [stripCR_concat]
    exact main_line_endsWith_false
      (List.all_eq_true.1 hm e ((sortByKey_perm PRSpec.num mains).mem_iff.1 he))
      hstar
  rw [findSectionFrom_skip h1, findSectionFrom_skip h2, findSectionFrom_skip h3,
    findSectionFrom_skip h4, findSectionFrom_skip_all hpre,
    findSectionFrom_skip h3, findSectionFrom_skip h3]
  have hhit : endsWithLit (lit "Internal QA:**")
      (stripCR (internalQAHeaderLine ++ ['\r'])) = true := by
    rw [stripCR_concat]
    decide
  have hdash : ∀ x ∈ (iqas.map (iqaLineB R)).map (fun l => l ++ ['\r']),
      isInternalQALine x = true := by
    intro x hx
    obtain ⟨lx, hlx, rfl⟩ := List.mem_map.1 hx
    obtain ⟨e, he, rfl⟩ := List.mem_map.1 hlx
    have hoke := List.all_eq_true.1 hq e he
    have hsh : iqaLineB R e = checkbox (jsContains R (IQASpec.url e)) ++
        ([' '] ++ (IQASpec.url e ++ (lit " - @" ++ e.login))) := by
      simp [iqaLineB, List.append_assoc]
    rw [hsh]
    exact isInternalQALine_entry _ (iqaTail_all_isDotCh hoke)
  rw [findSectionFrom_hit_block hhit hdash (map_isEmpty_false _ (map_ne_nil _ hqne))
    (by decide) stripCR_cr _, map_stripCR_concat]

/-- Evaluation of the deploy-blocker section search on a rendered body. -/
theorem deployBlockerSectionOf_specBody {d1 d2 d3 : Str} {opt4 : Option Str}
    {V R RD : List Str} {mains : List PRSpec} {iqas : List IQASpec}
    {dbs : List DBSpec} {bT bF bG : Bool} (hok : tagOk d1 d2 d3 opt4 = true)
    (hm : mains.all PRSpec.ok = true) (hq : iqas.all IQASpec.ok = true)
    (hd : dbs.all DBSpec.ok = true) (hdne : dbs ≠ []) :
    deployBlockerSectionOf (joinLinesCRLF
        (specLines d1 d2 d3 opt4 V R RD mains iqas dbs bT bF bG)) =
      some ((sortByKey DBSpec.num dbs).map (dbLineB RD)) := by
  have hstar : (lit "Deploy Blockers:**").getLast? = some '*' := rfl
  rw [deployBlockerSectionOf,
    completeLines_joinLinesCRLF (specLines_no_newline hok hm hq hd),
    specLines_mapped]
  have h1 : endsWithLit (lit "Deploy Blockers:**")
      (stripCR (lit "**Release Version:** " ++ ['\x60'] ++ tagStr d1 d2 d3 opt4 ++
        ['\x60'] ++ ['\r'])) = false := by
    rw [stripCR_concat]
    exact endsWith_star_false_backtick hstar
  have h2 : endsWithLit (lit "Deploy Blockers:**")
      (stripCR (compareLine ++ ['\r'])) = false := by
    rw [stripCR_concat]
    decide
  have h3 : endsWithLit (lit "Deploy Blockers:**") (stripCR ['\r']) = false := by
    exact endsWithLit_nil_false (by decide)
  have h4 : endsWithLit (lit "Deploy Blockers:**")
      (stripCR (prSectionHeaderLine ++ ['\r'])) = false := by
    rw [stripCR_concat]
    decide
  have h5 : endsWithLit (lit "Deploy Blockers:**")
      (stripCR (internalQAHeaderLine ++ ['\r'])) = false := by
    rw [stripCR_concat]
    decide
  have hpre1 : ∀ l ∈ ((sortByKey PRSpec.num mains).map (mainLineB V)).map
      (fun l => l ++ ['\r']),
      endsWithLit (lit "Deploy Blockers:**") (stripCR l) = false := by
    intro l hl
    obtain ⟨lx, hlx, rfl⟩ := List.mem_map.1 hl
    obtain ⟨e, he, rfl⟩ := List.mem_map.1 hlx
    rw [stripCR_concat]
    exact main_line_endsWith_false
      (List.all_eq_true.1 hm e ((sortByKey_perm PRSpec.num mains).mem_iff.1 he))
      hstar
  have hpre2 : ∀ l ∈ (iqas.map (iqaLineB R)).map (fun l => l ++ ['\r']),
      endsWithLit (lit "Deploy Blockers:**") (stripCR l) = false := by
    intro l hl
    obtain ⟨lx, hlx, rfl⟩ := List.mem_map.1 hl
    obtain ⟨e, he, rfl⟩ := List.mem_map.1 hlx
    rw [stripCR_concat]
    exact iqa_line_endsWith_false (List.all_eq_true.1 hq e he) hstar
  rw [findSectionFrom_skip h1, findSectionFrom_skip h2, findSectionFrom_skip h3,
    findSectionFrom_skip h4, findSectionFrom_skip_all hpre1,
    findSectionFrom_skip h3, findSectionFrom_skip h3, findSectionFrom_skip h5,
    findSectionFrom_skip_all hpre2, findSectionFrom_skip h3,
    findSectionFrom_skip h3]
  have hhit : endsWithLit (lit "Deploy Blockers:**")
      (stripCR (deployBlockersHeaderLine ++ ['\r'])) = true := by
    rw [stripCR_concat]
    decide
  have hdash : ∀ x ∈ ((sortByKey DBSpec.num dbs).map (dbLineB RD)).map
      (fun l => l ++ ['\r']), isDashLine x = true := by
    intro x hx
    obtain ⟨lx, hlx, rfl⟩ := List.mem_map.1 hx
    obtain ⟨e, he, rfl⟩ := List.mem_map.1 hlx
    have hoke := List.all_eq_true.1 hd e
      ((sortByKey_perm DBSpec.num dbs).mem_iff.1 he)
    have hsh : dbLineB RD e = checkbox (jsContains RD (DBSpec.url e)) ++
        ([' '] ++ DBSpec.url e) := by
      simp [dbLineB, List.append_assoc]
    rw [hsh]
    exact isDashLine_entry _ (List.all_eq_true.2 (dbUrl_all_isDotCh hoke))
  rw [findSectionFrom_hit_block hhit hdash
    (map_isEmpty_false _ (map_ne_nil _ (sortByKey_ne_nil _ hdne)))
    (by decide) stripCR_cr _, map_stripCR_concat]

theorem keyUrl_not_mem2 {key org repo ds : Str} (hds : allDigits ds = true)
    {c : Char} (hh1 : c ∉ (lit "https://" : Str))
    (hh2 : c ∉ (lit "github.com" : Str)) (hslash : c ≠ '/') (horg : c ∉ org)
    (hrepo : c ∉ repo) (hdig : isDigitCh c = false) (hkey : c ∉ key) :
    c ∉ keyUrl key org repo ds := by
  intro hm
  rcases keyUrl_mem hm with h | h | h | h | h | h | h
  · exact hh1 h
  · exact hh2 h
  · exact hslash h
  · exact horg h
  · exact hrepo h
  · exact hkey h
  · exact allDigits_not_mem hds hdig h

theorem pullUrl_no_bracket {org repo ds : Str} (horg : segOk org = true)
    (hrepo : segOk repo = true) (hds : allDigits ds = true) :
    '[' ∉ pullUrl org repo ds :=
  keyUrl_not_mem horg hrepo hds (by decide) (by decide) (by decide) (by decide)
    (by decide) (by decide)

theorem issueUrl_no_bracket {org repo ds : Str} (horg : segOk org = true)
    (hrepo : segOk repo = true) (hds : allDigits ds = true) :
    '[' ∉ issueUrl org repo ds :=
  keyUrl_not_mem horg hrepo hds (by decide) (by decide) (by decide) (by decide)
    (by decide) (by decide)

theorem dbUrl_no_bracket {e : DBSpec} (h : DBSpec.ok e = true) :
    '[' ∉ DBSpec.url e := by
  obtain ⟨h1, h2, h3⟩ := dbSpec_ok_parts h
  rw [DBSpec.url]
  by_cases hp : e.isPull = true
  · rw [if_pos hp]
    exact pullUrl_no_bracket h1 h2 h3
  · rw [if_neg hp]
    exact issueUrl_no_bracket h1 h2 h3

theorem iqaUrl_no_dash {e : IQASpec} (h : IQASpec.ok e = true) :
    '-' ∉ IQASpec.url e := by
  obtain ⟨_, _, h3, _, h5, h6⟩ := iqaSpec_ok_parts h
  exact keyUrl_not_mem2 h3 (by decide) (by decide) (by decide) h5 h6 (by decide)
    (by decide)

theorem keyUrl_last_digit {key org repo ds : Str} (hds : allDigits ds = true) :
    ∀ c, (keyUrl key org repo ds).getLast? = some c → isDigitCh c = true := by
  obtain ⟨hne, hall⟩ := allDigits_parts hds
  intro c hc
  have hsh : keyUrl key org repo ds = (lit "https://" ++ lit "github.com" ++ ['/'] ++
      org ++ ['/'] ++ repo ++ ['/'] ++ key ++ ['/']) ++ ds := by
    simp [keyUrl, List.append_assoc]
  rw [hsh, getLast?_append_right hne] at hc
  exact hall c (List.mem_of_mem_getLast? hc)

theorem isWsCh_false_of_digit {c : Char} (h : isDigitCh c = true) :
    isWsCh c = false := by
  cases hw : isWsCh c with
  | false => rfl
  | true =>
    simp only [isWsCh, Bool.or_eq_true, decide_eq_true_eq] at hw
    rcases hw with (((((h2 | h2) | h2) | h2) | h2) | h2) | h2 <;> rw [h2] at h <;>
      exact Bool.noConfusion h

theorem joinLinesCRLF_cons (l : Str) (ls : List Str) :
    joinLinesCRLF (l :: ls) = l ++ ('\r' :: '\n' :: joinLinesCRLF ls) := by
  simp [joinLinesCRLF, crlf]

/-- The leftmost version token of a body whose first line is the
release-version line is the tag. -/
theorem firstVersionMatch_joinCons (d1 d2 d3 : Str) (opt4 : Option Str)
    (hok : tagOk d1 d2 d3 opt4 = true) (ls : List Str) :
    firstVersionMatch (joinLinesCRLF ((lit "**Release Version:** " ++ ['\x60'] ++
      tagStr d1 d2 d3 opt4 ++ ['\x60']) :: ls)) = some (tagStr d1 d2 d3 opt4) := by
  rw [joinLinesCRLF_cons]
  have hsh : (lit "**Release Version:** " ++ ['\x60'] ++ tagStr d1 d2 d3 opt4 ++
      ['\x60']) ++ ('\r' :: '\n' :: joinLinesCRLF ls) =
      (lit "**Release Version:** " ++ ['\x60']) ++
        (tagStr d1 d2 d3 opt4 ++ ('\x60' :: '\r' :: '\n' :: joinLinesCRLF ls)) := by
    simp [List.append_assoc]
  rw [hsh]
  exact firstVersionMatch_render d1 d2 d3 opt4 hok _

theorem jsContains_jsUnion {α : Type _} [DecidableEq α] (a b : List α) (x : α) :
    jsContains (jsUnion a b) x = (jsContains a x || jsContains b x) := by
  by_cases hx : x ∈ a ∨ x ∈ b
  · rw [jsContains_iff.2 ((jsUnion_mem a b x).2 hx)]
    rcases hx with h | h
    · rw [jsContains_iff.2 h]
      rfl
    · rw [(jsContains_iff.2 h : jsContains b x = true), Bool.or_true]
  · push_neg at hx
    have h1 : jsContains (jsUnion a b) x = false := by
      rw [Bool.eq_false_iff]
      intro hc
      rcases (jsUnion_mem a b x).1 (jsContains_iff.1 hc) with h | h
      · exact hx.1 h
      · exact hx.2 h
    have h2 : jsContains a x = false := by
      rw [Bool.eq_false_iff]
      intro hc
      exact hx.1 (jsContains_iff.1 hc)
    have h3 : jsContains b x = false := by
      rw [Bool.eq_false_iff]
      intro hc
      exact hx.2 (jsContains_iff.1 hc)
    rw [h1, h2, h3]
    rfl

theorem prSpec_url_inj {mains : List PRSpec} (hm : mains.all PRSpec.ok = true)
    (hndm : (mains.map PRSpec.num).Nodup) :
    ∀ a ∈ mains, ∀ b ∈ mains, PRSpec.url a = PRSpec.url b → a = b := by
  intro a ha b hb hab
  refine List.inj_on_of_nodup_map hndm ha hb ?_
  have h1 := prSpec_url_key (List.all_eq_true.1 hm a ha)
  have h2 := prSpec_url_key (List.all_eq_true.1 hm b hb)
  rw [← hab, h1] at h2
  exact Option.some.inj h2

theorem iqaSpec_url_inj {iqas : List IQASpec} (hq : iqas.all IQASpec.ok = true)
    (hndq : (iqas.map IQASpec.num).Nodup) :
    ∀ a ∈ iqas, ∀ b ∈ iqas, IQASpec.url a = IQASpec.url b → a = b := by
  intro a ha b hb hab
  refine List.inj_on_of_nodup_map hndq ha hb ?_
  have h1 := iqaSpec_url_key (List.all_eq_true.1 hq a ha)
  have h2 := iqaSpec_url_key (List.all_eq_true.1 hq b hb)
  rw [← hab, h1] at h2
  exact Option.some.inj h2

theorem dbSpec_url_inj {dbs : List DBSpec} (hd : dbs.all DBSpec.ok = true)
    (hnddb : (dbs.map DBSpec.num).Nodup) :
    ∀ a ∈ dbs, ∀ b ∈ dbs, DBSpec.url a = DBSpec.url b → a = b := by
  intro a ha b hb hab
  refine List.inj_on_of_nodup_map hnddb ha hb ?_
  have h1 := dbSpec_url_key (List.all_eq_true.1 hd a ha)
  have h2 := dbSpec_url_key (List.all_eq_true.1 hd b hb)
  rw [← hab, h1] at h2
  exact Option.some.inj h2

/-- Re-parsing the main-PR section of a rendered body. -/
theorem parsePRList_specBody {d1 d2 d3 : Str} {opt4 : Option Str}
    {V R RD : List Str} {mains : List PRSpec} {iqas : List IQASpec}
    {dbs : List DBSpec} {bT bF bG : Bool} (hok : tagOk d1 d2 d3 opt4 = true)
    (hm : mains.all PRSpec.ok = true) (hq : iqas.all IQASpec.ok = true)
    (hd : dbs.all DBSpec.ok = true) (hmne : mains ≠ []) :
    getStagingDeployCashPRList (joinLinesCRLF
        (specLines d1 d2 d3 opt4 V R RD mains iqas dbs bT bF bG)) =
      sortByKey PREntry.number ((sortByKey PRSpec.num mains).map (fun e =>
        { url := PRSpec.url e, number := PRSpec.num e,
          isVerified := jsContains V (PRSpec.url e) })) := by
  have hsec := @prSectionOf_specBody d1 d2 d3 opt4 V R RD mains iqas dbs bT bF bG
    hok hm hq hd hmne
  simp only [getStagingDeployCashPRList, hsec]
  rw [filterMap_map_comp]
  have hsome : ∀ e ∈ sortByKey PRSpec.num mains,
      (scanFirst prEntryAt (mainLineB V e)).map (fun m =>
        ({ url := m.2.1, number := m.2.2, isVerified := m.1 } : PREntry)) =
      some { url := PRSpec.url e, number := PRSpec.num e,
             isVerified := jsContains V (PRSpec.url e) } := by
    intro e he
    have hoke := List.all_eq_true.1 hm e
      ((sortByKey_perm PRSpec.num mains).mem_iff.1 he)
    have hscan : scanFirst prEntryAt (mainLineB V e) =
        some (jsContains V (PRSpec.url e), PRSpec.url e, PRSpec.num e) := by
      show scanFirst prEntryAt (checkbox (jsContains V (PRSpec.url e)) ++ [' '] ++
        PRSpec.url e) = _
      exact scanFirst_prEntry_line (pullUrlAt_spec hoke)
    rw [hscan]
    rfl
  rw [filterMap_congr_some hsome]

/-- Re-parsing the deploy-blocker section of a rendered body. -/
theorem parseDeployBlockers_specBody {d1 d2 d3 : Str} {opt4 : Option Str}
    {V R RD : List Str} {mains : List PRSpec} {iqas : List IQASpec}
    {dbs : List DBSpec} {bT bF bG : Bool} (hok : tagOk d1 d2 d3 opt4 = true)
    (hm : mains.all PRSpec.ok = true) (hq : iqas.all IQASpec.ok = true)
    (hd : dbs.all DBSpec.ok = true) (hdne : dbs ≠ []) :
    getStagingDeployCashDeployBlockers (joinLinesCRLF
        (specLines d1 d2 d3 opt4 V R RD mains iqas dbs bT bF bG)) =
      sortByKey DeployBlockerEntry.number ((sortByKey DBSpec.num dbs).map (fun e =>
        { url := DBSpec.url e, number := DBSpec.num e,
          isResolved := jsContains RD (DBSpec.url e) })) := by
  have hsec := @deployBlockerSectionOf_specBody d1 d2 d3 opt4 V R RD mains iqas dbs
    bT bF bG hok hm hq hd hdne
  simp only [getStagingDeployCashDeployBlockers, hsec]
  rw [filterMap_map_comp]
  have hsome : ∀ e ∈ sortByKey DBSpec.num dbs,
      (scanFirst (wsEntryAt issueOrPullUrlAt) (dbLineB RD e)).map (fun m =>
        ({ url := m.2.1, number := m.2.2, isResolved := m.1 } :
          DeployBlockerEntry)) =
      some { url := DBSpec.url e, number := DBSpec.num e,
             isResolved := jsContains RD (DBSpec.url e) } := by
    intro e he
    have hoke := List.all_eq_true.1 hd e
      ((sortByKey_perm DBSpec.num dbs).mem_iff.1 he)
    have hscan : scanFirst (wsEntryAt issueOrPullUrlAt) (dbLineB RD e) =
        some (jsContains RD (DBSpec.url e), DBSpec.url e, DBSpec.num e) := by
      show scanFirst (wsEntryAt issueOrPullUrlAt)
        (checkbox (jsContains RD (DBSpec.url e)) ++ [' '] ++ DBSpec.url e) = _
      exact scanFirst_wsEntry_line (issueOrPullUrlAt_spec hoke)
    rw [hscan]
    rfl
  rw [filterMap_congr_some hsome]

/-- Re-parsing the internal-QA section of a rendered body: the assignee
annotation is cut off, and no assignee is produced. -/
theorem parseInternalQA_specBody {d1 d2 d3 : Str} {opt4 : Option Str}
    {V R RD : List Str} {mains : List PRSpec} {iqas : List IQASpec}
    {dbs : List DBSpec} {bT bF bG : Bool} (hok : tagOk d1 d2 d3 opt4 = true)
    (hm : mains.all PRSpec.ok = true) (hq : iqas.all IQASpec.ok = true)
    (hd : dbs.all DBSpec.ok = true) (hqne : iqas ≠ []) :
    getStagingDeployCashInternalQA (joinLinesCRLF
        (specLines d1 d2 d3 opt4 V R RD mains iqas dbs bT bF bG)) =
      sortByKey InternalQAEntry.number (iqas.map (fun e =>
        { url := IQASpec.url e, number := IQASpec.num e,
          isResolved := jsContains R (IQASpec.url e) })) := by
  have hsec := @internalQASectionOf_specBody d1 d2 d3 opt4 V R RD mains iqas dbs
    bT bF bG hok hm hq hd hqne
  simp only [getStagingDeployCashInternalQA, hsec]
  rw [filterMap_map_comp]
  have hsome : ∀ e ∈ iqas,
      (scanFirst (wsEntryAt pullUrlAt) (iqaLineB R e)).map (fun m =>
        ({ url := jsTrim (splitDashHead m.2.1), number := m.2.2,
           isResolved := m.1 } : InternalQAEntry)) =
      some { url := IQASpec.url e, number := IQASpec.num e,
             isResolved := jsContains R (IQASpec.url e) } := by
    intro e he
    have hoke := List.all_eq_true.1 hq e he
    obtain ⟨ho1, ho2, ho3, ho4, ho5, ho6⟩ := iqaSpec_ok_parts hoke
    have hsh : iqaLineB R e = checkbox (jsContains R (IQASpec.url e)) ++ [' '] ++
        (IQASpec.url e ++ (lit " - @" ++ e.login)) := by
      simp [iqaLineB, List.append_assoc]
    have hscan : scanFirst (wsEntryAt pullUrlAt) (iqaLineB R e) =
        some (jsContains R (IQASpec.url e),
          IQASpec.url e ++ (lit " - @" ++ e.login), IQASpec.num e) := by
      rw [hsh]
      exact scanFirst_wsEntry_line (pullUrlAt_iqa_annotated hoke)
    rw [hscan]
    have hurl : jsTrim (splitDashHead (IQASpec.url e ++ (lit " - @" ++ e.login))) =
        IQASpec.url e := by
      have h0 : IQASpec.url e ++ (lit " - @" ++ e.login) =
          IQASpec.url e ++ lit " - @" ++ e.login := by
        simp [List.append_assoc]
      rw [h0, splitDashHead_annotated (iqaUrl_no_dash hoke) e.login]
      refine jsTrim_append_space ?_ ?_
      · intro c hc
        have h1 : (IQASpec.url e).head? = some 'h' := rfl
        rw [h1] at hc
        rw [← Option.some.inj hc]
        decide
      · intro c hc
        exact isWsCh_false_of_digit (keyUrl_last_digit ho3 c hc)
    show some ({ url := jsTrim (splitDashHead
                   (IQASpec.url e ++ (lit " - @" ++ e.login))),
                 number := IQASpec.num e,
                 isResolved := jsContains R (IQASpec.url e) } :
      InternalQAEntry) = _
    rw [hurl]
  rw [filterMap_congr_some hsome]

/-- The timing checkbox test on a rendered body reads back the flag. -/
theorem testTiming_specBody {d1 d2 d3 : Str} {opt4 : Option Str}
    {V R RD : List Str} {mains : List PRSpec} {iqas : List IQASpec}
    {dbs : List DBSpec} {bT bF bG : Bool} (hok : tagOk d1 d2 d3 opt4 = true)
    (hm : mains.all PRSpec.ok = true) (hq : iqas.all IQASpec.ok = true)
    (hd : dbs.all DBSpec.ok = true) :
    testCheckMark timingPhrase (joinLinesCRLF
        (specLines d1 d2 d3 opt4 V R RD mains iqas dbs bT bF bG)) = bT := by
  have hph : (lit timingPhrase).head? = some 'I' := rfl
  have hpcr : '\r' ∉ lit timingPhrase := by decide
  cases bT with
  | true =>
    have hsplit : specLines d1 d2 d3 opt4 V R RD mains iqas dbs true bF bG =
        ([lit "**Release Version:** " ++ ['\x60'] ++ tagStr d1 d2 d3 opt4 ++
          ['\x60'], compareLine, [], prSectionHeaderLine] ++
        (sortByKey PRSpec.num mains).map (mainLineB V) ++
        [[], [], internalQAHeaderLine] ++ iqas.map (iqaLineB R) ++
        [[], [], deployBlockersHeaderLine] ++
        (sortByKey DBSpec.num dbs).map (dbLineB RD) ++
        [[], [], deployerVerificationsLine]) ++
        timingLine true :: [firebaseLine bF, ghStatusLine bG, [], ccLine] := by
      simp [specLines, List.append_assoc]
    show (scanFirst (checkMarkAt (lit timingPhrase)) (joinLinesCRLF
      (specLines d1 d2 d3 opt4 V R RD mains iqas dbs true bF bG))).isSome = true
    rw [hsplit]
    exact scanFirst_checkMark_isSome _ _ (checkMark_timing_hit _)
  | false =>
    have hall : ∀ l ∈ specLines d1 d2 d3 opt4 V R RD mains iqas dbs false bF bG,
        NoCheck (lit timingPhrase) l := by
      refine specLines_cases ?_ ?_ ?_ ?_ ?_ ?_ ?_ ?_ ?_ ?_ ?_ ?_ ?_ ?_
      · exact noCheck_tagLine hok
      · exact noCheck_of_no_bracket (by decide)
      · exact noCheck_of_no_bracket (by decide)
      · exact noCheck_of_no_bracket (by decide)
      · intro e he
        obtain ⟨ho1, ho2, ho3⟩ := prSpec_ok_parts (List.all_eq_true.1 hm e he)
        have hsh : mainLineB V e = checkbox (jsContains V (PRSpec.url e)) ++
            ([' '] ++ PRSpec.url e) := by
          simp [mainLineB, List.append_assoc]
        rw [hsh]
        exact noCheck_entryLine hph _ (pullUrl_no_bracket ho1 ho2 ho3) rfl
      · exact noCheck_of_no_bracket (by decide)
      · intro e he
        obtain ⟨ho1, ho2, ho3, ho4, _, _⟩ :=
          iqaSpec_ok_parts (List.all_eq_true.1 hq e he)
        have hsh : iqaLineB R e = checkbox (jsContains R (IQASpec.url e)) ++
            ([' '] ++ (IQASpec.url e ++ (lit " - @" ++ e.login))) := by
          simp [iqaLineB, List.append_assoc]
        rw [hsh]
        refine noCheck_entryLine hph _ ?_ rfl
        intro hmem
        rcases List.mem_append.1 hmem with h1 | h1
        · exact pullUrl_no_bracket ho1 ho2 ho3 h1
        · rcases List.mem_append.1 h1 with h2 | h2
          · exact absurd h2 (by decide)
          · exact mentionOk_not_mem ho4 (by decide) h2
      · exact noCheck_of_no_bracket (by decide)
      · intro e he
        have hoke := List.all_eq_true.1 hd e he
        have hsh : dbLineB RD e = checkbox (jsContains RD (DBSpec.url e)) ++
            ([' '] ++ DBSpec.url e) := by
          simp [dbLineB, List.append_assoc]
        rw [hsh]
        refine noCheck_entryLine hph _ (dbUrl_no_bracket hoke) ?_
        rw [DBSpec.url]
        by_cases hp : e.isPull = true
        · rw [if_pos hp]
          rfl
        · rw [if_neg hp]
          rfl
      · exact noCheck_of_no_bracket (by decide)
      · exact (noCheck_verifLines_timing bF bG).1
      · exact (noCheck_verifLines_timing bF bG).2.1
      · exact (noCheck_verifLines_timing bF bG).2.2
      · exact noCheck_of_no_bracket (by decide)
    show (scanFirst (checkMarkAt (lit timingPhrase)) (joinLinesCRLF
      (specLines d1 d2 d3 opt4 V R RD mains iqas dbs false bF bG))).isSome = false
    rw [scanFirst_checkMark_none hph hpcr hall]
    rfl

/-- The Firebase checkbox test on a rendered body reads back the flag. -/
theorem testFirebase_specBody {d1 d2 d3 : Str} {opt4 : Option Str}
    {V R RD : List Str} {mains : List PRSpec} {iqas : List IQASpec}
    {dbs : List DBSpec} {bT bF bG : Bool} (hok : tagOk d1 d2 d3 opt4 = true)
    (hm : mains.all PRSpec.ok = true) (hq : iqas.all IQASpec.ok = true)
    (hd : dbs.all DBSpec.ok = true) :
    testCheckMark firebasePhrase (joinLinesCRLF
        (specLines d1 d2 d3 opt4 V R RD mains iqas dbs bT bF bG)) = bF := by
  have hph : (lit firebasePhrase).head? = some 'I' := rfl
  have hpcr : '\r' ∉ lit firebasePhrase := by decide
  cases bF with
  | true =>
    have hsplit : specLines d1 d2 d3 opt4 V R RD mains iqas dbs bT true bG =
        ([lit "**Release Version:** " ++ ['\x60'] ++ tagStr d1 d2 d3 opt4 ++
          ['\x60'], compareLine, [], prSectionHeaderLine] ++
        (sortByKey PRSpec.num mains).map (mainLineB V) ++
        [[], [], internalQAHeaderLine] ++ iqas.map (iqaLineB R) ++
        [[], [], deployBlockersHeaderLine] ++
        (sortByKey DBSpec.num dbs).map (dbLineB RD) ++
        [[], [], deployerVerificationsLine, timingLine bT]) ++
        firebaseLine true :: [ghStatusLine bG, [], ccLine] := by
      simp [specLines, List.append_assoc]
    show (scanFirst (checkMarkAt (lit firebasePhrase)) (joinLinesCRLF
      (specLines d1 d2 d3 opt4 V R RD mains iqas dbs bT true bG))).isSome = true
    rw [hsplit]
    exact scanFirst_checkMark_isSome _ _ (checkMark_firebase_hit _)
  | false =>
    have hall : ∀ l ∈ specLines d1 d2 d3 opt4 V R RD mains iqas dbs bT false bG,
        NoCheck (lit firebasePhrase) l := by
      refine specLines_cases ?_ ?_ ?_ ?_ ?_ ?_ ?_ ?_ ?_ ?_ ?_ ?_ ?_ ?_
      · exact noCheck_tagLine hok
      · exact noCheck_of_no_bracket (by decide)
      · exact noCheck_of_no_bracket (by decide)
      · exact noCheck_of_no_bracket (by decide)
      · intro e he
        obtain ⟨ho1, ho2, ho3⟩ := prSpec_ok_parts (List.all_eq_true.1 hm e he)
        have hsh : mainLineB V e = checkbox (jsContains V (PRSpec.url e)) ++
            ([' '] ++ PRSpec.url e) := by
          simp [mainLineB, List.append_assoc]
        rw [hsh]
        exact noCheck_entryLine hph _ (pullUrl_no_bracket ho1 ho2 ho3) rfl
      · exact noCheck_of_no_bracket (by decide)
      · intro e he
        obtain ⟨ho1, ho2, ho3, ho4, _, _⟩ :=
          iqaSpec_ok_parts (List.all_eq_true.1 hq e he)
        have hsh : iqaLineB R e = checkbox (jsContains R (IQASpec.url e)) ++
            ([' '] ++ (IQASpec.url e ++ (lit " - @" ++ e.login))) := by
          simp [iqaLineB, List.append_assoc]
        rw [hsh]
        refine noCheck_entryLine hph _ ?_ rfl
        intro hmem
        rcases List.mem_append.1 hmem with h1 | h1
        · exact pullUrl_no_bracket ho1 ho2 ho3 h1
        · rcases List.mem_append.1 h1 with h2 | h2
          · exact absurd h2 (by decide)
          · exact mentionOk_not_mem ho4 (by decide) h2
      · exact noCheck_of_no_bracket (by decide)
      · intro e he
        have hoke := List.all_eq_true.1 hd e he
        have hsh : dbLineB RD e = checkbox (jsContains RD (DBSpec.url e)) ++
            ([' '] ++ DBSpec.url e) := by
          simp [dbLineB, List.append_assoc]
        rw [hsh]
        refine noCheck_entryLine hph _ (dbUrl_no_bracket hoke) ?_
        rw [DBSpec.url]
        by_cases hp : e.isPull = true
        · rw [if_pos hp]
          rfl
        · rw [if_neg hp]
          rfl
      · exact noCheck_of_no_bracket (by decide)
      · exact (noCheck_verifLines_firebase bT bG).2.1
      · exact (noCheck_verifLines_firebase bT bG).1
      · exact (noCheck_verifLines_firebase bT bG).2.2
      · exact noCheck_of_no_bracket (by decide)
    show (scanFirst (checkMarkAt (lit firebasePhrase)) (joinLinesCRLF
      (specLines d1 d2 d3 opt4 V R RD mains iqas dbs bT false bG))).isSome = false
    rw [scanFirst_checkMark_none hph hpcr hall]
    rfl

/-- The GitHub-status checkbox test on a rendered body reads back the
flag. -/
theorem testGHStatus_specBody {d1 d2 d3 : Str} {opt4 : Option Str}
    {V R RD : List Str} {mains : List PRSpec} {iqas : List IQASpec}
    {dbs : List DBSpec} {bT bF bG : Bool} (hok : tagOk d1 d2 d3 opt4 = true)
    (hm : mains.all PRSpec.ok = true) (hq : iqas.all IQASpec.ok = true)
    (hd : dbs.all DBSpec.ok = true) :
    testCheckMark ghStatusPhrase (joinLinesCRLF
        (specLines d1 d2 d3 opt4 V R RD mains iqas dbs bT bF bG)) = bG := by
  have hph : (lit ghStatusPhrase).head? = some 'I' := rfl
  have hpcr : '\r' ∉ lit ghStatusPhrase := by decide
  cases bG with
  | true =>
    have hsplit : specLines d1 d2 d3 opt4 V R RD mains iqas dbs bT bF true =
        ([lit "**Release Version:** " ++ ['\x60'] ++ tagStr d1 d2 d3 opt4 ++
          ['\x60'], compareLine, [], prSectionHeaderLine] ++
        (sortByKey PRSpec.num mains).map (mainLineB V) ++
        [[], [], internalQAHeaderLine] ++ iqas.map (iqaLineB R) ++
        [[], [], deployBlockersHeaderLine] ++
        (sortByKey DBSpec.num dbs).map (dbLineB RD) ++
        [[], [], deployerVerificationsLine, timingLine bT, firebaseLine bF]) ++
        ghStatusLine true :: [[], ccLine] := by
      simp [specLines, List.append_assoc]
    show (scanFirst (checkMarkAt (lit ghStatusPhrase)) (joinLinesCRLF
      (specLines d1 d2 d3 opt4 V R RD mains iqas dbs bT bF true))).isSome = true
    rw [hsplit]
    exact scanFirst_checkMark_isSome _ _ (checkMark_ghStatus_hit _)
  | false =>
    have hall : ∀ l ∈ specLines d1 d2 d3 opt4 V R RD mains iqas dbs bT bF false,
        NoCheck (lit ghStatusPhrase) l := by
      refine specLines_cases ?_ ?_ ?_ ?_ ?_ ?_ ?_ ?_ ?_ ?_ ?_ ?_ ?_ ?_
      · exact noCheck_tagLine hok
      · exact noCheck_of_no_bracket (by decide)
      · exact noCheck_of_no_bracket (by decide)
      · exact noCheck_of_no_bracket (by decide)
      · intro e he
        obtain ⟨ho1, ho2, ho3⟩ := prSpec_ok_parts (List.all_eq_true.1 hm e he)
        have hsh : mainLineB V e = checkbox (jsContains V (PRSpec.url e)) ++
            ([' '] ++ PRSpec.url e) := by
          simp [mainLineB, List.append_assoc]
        rw [hsh]
        exact noCheck_entryLine hph _ (pullUrl_no_bracket ho1 ho2 ho3) rfl
      · exact noCheck_of_no_bracket (by decide)
      · intro e he
        obtain ⟨ho1, ho2, ho3, ho4, _, _⟩ :=
          iqaSpec_ok_parts (List.all_eq_true.1 hq e he)
        have hsh : iqaLineB R e = checkbox (jsContains R (IQASpec.url e)) ++
            ([' '] ++ (IQASpec.url e ++ (lit " - @" ++ e.login))) := by
          simp [iqaLineB, List.append_assoc]
        rw [hsh]
        refine noCheck_entryLine hph _ ?_ rfl
        intro hmem
        rcases List.mem_append.1 hmem with h1 | h1
        · exact pullUrl_no_bracket ho1 ho2 ho3 h1
        · rcases List.mem_append.1 h1 with h2 | h2
          · exact absurd h2 (by decide)
          · exact mentionOk_not_mem ho4 (by decide) h2
      · exact noCheck_of_no_bracket (by decide)
      · intro e he
        have hoke := List.all_eq_true.1 hd e he
        have hsh : dbLineB RD e = checkbox (jsContains RD (DBSpec.url e)) ++
            ([' '] ++ DBSpec.url e) := by
          simp [dbLineB, List.append_assoc]
        rw [hsh]
        refine noCheck_entryLine hph _ (dbUrl_no_bracket hoke) ?_
        rw [DBSpec.url]
        by_cases hp : e.isPull = true
        · rw [if_pos hp]
          rfl
        · rw [if_neg hp]
          rfl
      · exact noCheck_of_no_bracket (by decide)
      · exact (noCheck_verifLines_ghStatus bT bF).2.1
      · exact (noCheck_verifLines_ghStatus bT bF).2.2
      · exact (noCheck_verifLines_ghStatus bT bF).1
      · exact noCheck_of_no_bracket (by decide)
    show (scanFirst (checkMarkAt (lit ghStatusPhrase)) (joinLinesCRLF
      (specLines d1 d2 d3 opt4 V R RD mains iqas dbs bT bF false))).isSome = false
    rw [scanFirst_checkMark_none hph hpcr hall]
    rfl

/-! ### The rendered body with possibly-omitted sections -/

theorem findSectionFrom_none {header : Str} {needBlank : Bool}
    {dashPred : Str → Bool} {ls : List Str}
    (h : ∀ l ∈ ls, endsWithLit header (stripCR l) = false) :
    findSectionFrom header needBlank dashPred ls = none := by
  have h2 : findSectionFrom header needBlank dashPred (ls ++ []) =
      findSectionFrom header needBlank dashPred [] :=
    findSectionFrom_skip_all h []
  rw [List.append_nil] at h2
  rw [h2]
  rfl

theorem sortByKey_map_isEmpty {α β : Type _} (key : α → Nat) (f : α → β)
    (l : List α) : ((sortByKey key l).map f).isEmpty = l.isEmpty := by
  cases l with
  | nil => rfl
  | cons a as =>
    rw [map_isEmpty_false _ (sortByKey_ne_nil _ (by simp))]
    rfl

theorem isEmpty_false_ne_nil {α : Type _} {l : List α}
    (h : l.isEmpty = false) : l ≠ [] := by
  intro he
  rw [he] at h
  exact Bool.noConfusion h

/-- Case analysis on the lines of a rendered body with possibly-omitted
sections: a section's header only occurs when its list is nonempty. -/
theorem specLinesG_cases {P : Str → Prop} {d1 d2 d3 : Str} {opt4 : Option Str}
    {V R RD : List Str} {mains : List PRSpec} {iqas : List IQASpec}
    {dbs : List DBSpec} {bT bF bG : Bool}
    (htag : P (lit "**Release Version:** " ++ ['\x60'] ++ tagStr d1 d2 d3 opt4 ++
      ['\x60']))
    (hcmp : P compareLine) (hblank : P [])
    (hprh : mains.isEmpty = false → P prSectionHeaderLine)
    (hmain : ∀ e ∈ mains, P (mainLineB V e))
    (hiqah : iqas.isEmpty = false → P internalQAHeaderLine)
    (hiqa : ∀ e ∈ iqas, P (iqaLineB R e))
    (hdbh : dbs.isEmpty = false → P deployBlockersHeaderLine)
    (hdb : ∀ e ∈ dbs, P (dbLineB RD e))
    (hdep : P deployerVerificationsLine) (ht : P (timingLine bT))
    (hf : P (firebaseLine bF)) (hg : P (ghStatusLine bG)) (hcc : P ccLine) :
    ∀ l ∈ specLinesG d1 d2 d3 opt4 V R RD mains iqas dbs bT bF bG, P l := by
  intro l hl
  rw [specLinesG] at hl
  rcases List.mem_append.1 hl with h1 | h1
  · rcases List.mem_append.1 h1 with h2 | h2
    · rcases List.mem_append.1 h2 with h3 | h3
      · rcases List.mem_append.1 h3 with h4 | h4
        · rcases List.mem_cons.1 h4 with rfl | h5
          · exact htag
          · rcases List.mem_cons.1 h5 with rfl | h6
            · exact hcmp
            · exact absurd h6 (List.not_mem_nil l)
        · by_cases hc : mains.isEmpty = true
          · rw [if_pos hc] at h4
            exact absurd h4 (List.not_mem_nil l)
          · rw [if_neg hc] at h4
            rcases List.mem_append.1 h4 with h5 | h5
            · rcases List.mem_append.1 h5 with h6 | h6
              · rcases List.mem_cons.1 h6 with rfl | h7
                · exact hblank
                · rcases List.mem_cons.1 h7 with rfl | h8
                  · exact hprh (Bool.eq_false_iff.2 hc)
                  · exact absurd h8 (List.not_mem_nil l)
              · obtain ⟨e, he, rfl⟩ := List.mem_map.1 h6
                exact hmain e ((sortByKey_perm PRSpec.num mains).mem_iff.1 he)
            · rcases List.mem_cons.1 h5 with rfl | h7
              · exact hblank
              · rcases List.mem_cons.1 h7 with rfl | h8
                · exact hblank
                · exact absurd h8 (List.not_mem_nil l)
      · by_cases hc : iqas.isEmpty = true
        · rw [if_pos hc] at h3
          exact absurd h3 (List.not_mem_nil l)
        · rw [if_neg hc] at h3
          rcases List.mem_append.1 h3 with h5 | h5
          · rcases List.mem_append.1 h5 with h6 | h6
            · rcases List.mem_cons.1 h6 with rfl | h7
              · exact hiqah (Bool.eq_false_iff.2 hc)
              · exact absurd h7 (List.not_mem_nil l)
            · obtain ⟨e, he, rfl⟩ := List.mem_map.1 h6
              exact hiqa e he
          · rcases List.mem_cons.1 h5 with rfl | h7
            · exact hblank
            · rcases List.mem_cons.1 h7 with rfl | h8
              · exact hblank
              · exact absurd h8 (List.not_mem_nil l)
    · by_cases hc : dbs.isEmpty = true
      · rw [if_pos hc] at h2
        exact absurd h2 (List.not_mem_nil l)
      · rw [if_neg hc] at h2
        rcases List.mem_append.1 h2 with h5 | h5
        · rcases List.mem_append.1 h5 with h6 | h6
          · rcases List.mem_cons.1 h6 with rfl | h7
            · exact hdbh (Bool.eq_false_iff.2 hc)
            · exact absurd h7 (List.not_mem_nil l)
          · obtain ⟨e, he, rfl⟩ := List.mem_map.1 h6
            exact hdb e ((sortByKey_perm DBSpec.num dbs).mem_iff.1 he)
        · rcases List.mem_cons.1 h5 with rfl | h7
          · exact hblank
          · rcases List.mem_cons.1 h7 with rfl | h8
            · exact hblank
            · exact absurd h8 (List.not_mem_nil l)
  · rcases List.mem_cons.1 h1 with rfl | h2
    · exact hdep
    · rcases List.mem_cons.1 h2 with rfl | h3
      · exact ht
      · rcases List.mem_cons.1 h3 with rfl | h4
        · exact hf
        · rcases List.mem_cons.1 h4 with rfl | h5
          · exact hg
          · rcases List.mem_cons.1 h5 with rfl | h6
            · exact hblank
            · rcases List.mem_cons.1 h6 with rfl | h7
              · exact hcc
              · exact absurd h7 (List.not_mem_nil l)

theorem specLinesG_no_newline {d1 d2 d3 : Str} {opt4 : Option Str}
    {V R RD : List Str} {mains : List PRSpec} {iqas : List IQASpec}
    {dbs : List DBSpec} {bT bF bG : Bool} (hok : tagOk d1 d2 d3 opt4 = true)
    (hm : mains.all PRSpec.ok = true) (hq : iqas.all IQASpec.ok = true)
    (hd : dbs.all DBSpec.ok = true) :
    ∀ l ∈ specLinesG d1 d2 d3 opt4 V R RD mains iqas dbs bT bF bG, '\n' ∉ l := by
  have hcb : ∀ b, '\n' ∉ checkbox b := by decide
  refine specLinesG_cases ?_ ?_ ?_ ?_ ?_ ?_ ?_ ?_ ?_ ?_ ?_ ?_ ?_ ?_
  · intro hmem
    rcases List.mem_append.1 hmem with h1 | h1
    · rcases List.mem_append.1 h1 with h2 | h2
      · rcases List.mem_append.1 h2 with h3 | h3
        · exact absurd h3 (by decide)
        · exact absurd h3 (by decide)
      · rcases tagStr_chars hok _ h2 with h | h | h
        · exact absurd h (by decide)
        · exact absurd h (by decide)
        · exact absurd h (by decide)
    · exact absurd h1 (by decide)
  · exact (by decide : '\n' ∉ compareLine)
  · exact List.not_mem_nil _
  · exact fun _ => (by decide : '\n' ∉ prSectionHeaderLine)
  · intro e he hmem
    obtain ⟨ho1, ho2, ho3⟩ := prSpec_ok_parts (List.all_eq_true.1 hm e he)
    rcases List.mem_append.1 hmem with h1 | h1
    · rcases List.mem_append.1 h1 with h2 | h2
      · exact absurd h2 (hcb _)
      · exact absurd h2 (by decide)
    · exact not_newline_of_isDotCh (pullUrl_all_isDotCh ho1 ho2 ho3) h1
  · exact fun _ => (by decide : '\n' ∉ internalQAHeaderLine)
  · intro e he hmem
    obtain ⟨ho1, ho2, ho3, ho4, _, _⟩ := iqaSpec_ok_parts (List.all_eq_true.1 hq e he)
    rcases List.mem_append.1 hmem with h1 | h1
    · rcases List.mem_append.1 h1 with h2 | h2
      · rcases List.mem_append.1 h2 with h3 | h3
        · rcases List.mem_append.1 h3 with h4 | h4
          · exact absurd h4 (hcb _)
          · exact absurd h4 (by decide)
        · exact not_newline_of_isDotCh (pullUrl_all_isDotCh ho1 ho2 ho3) h3
      · exact absurd h2 (by decide)
    · exact not_newline_of_isDotCh (mention_all_isDotCh ho4) h1
  · exact fun _ => (by decide : '\n' ∉ deployBlockersHeaderLine)
  · intro e he hmem
    rcases List.mem_append.1 hmem with h1 | h1
    · rcases List.mem_append.1 h1 with h2 | h2
      · exact absurd h2 (hcb _)
      · exact absurd h2 (by decide)
    · exact not_newline_of_isDotCh
        (dbUrl_all_isDotCh (List.all_eq_true.1 hd e he)) h1
  · exact (by decide : '\n' ∉ deployerVerificationsLine)
  · cases bT with
    | false => decide
    | true => decide
  · cases bF with
    | false => decide
    | true => decide
  · cases bG with
    | false => decide
    | true => decide
  · exact (by decide : '\n' ∉ ccLine)

/-- Every line of the (possibly absent) main-PR chunk, `\r`-terminated,
fails the suffix test for a header ending in `*` other than the PR-list
header. -/
theorem mainChunkG_fails {p : Str} {V : List Str} {mains : List PRSpec}
    (hm : mains.all PRSpec.ok = true) (hstar : p.getLast? = some '*')
    (hne : endsWithLit p prSectionHeaderLine = false) :
    ∀ l ∈ ((if mains.isEmpty then ([] : List Str) else
        [[], prSectionHeaderLine] ++
        (sortByKey PRSpec.num mains).map (mainLineB V) ++ [[], []])).map
      (fun l => l ++ ['\r']),
      endsWithLit p (stripCR l) = false := by
  intro l hl
  have hpne : p ≠ [] := by
    intro hp0
    rw [hp0] at hstar
    exact Option.noConfusion hstar
  by_cases hc : mains.isEmpty = true
  · rw [if_pos hc, List.map_nil] at hl
    exact absurd hl (List.not_mem_nil l)
  · rw [if_neg hc] at hl
    obtain ⟨lx, hlx, rfl⟩ := List.mem_map.1 hl
    rw [stripCR_concat]
    rcases List.mem_append.1 hlx with h1 | h1
    · rcases List.mem_append.1 h1 with h2 | h2
      · rcases List.mem_cons.1 h2 with rfl | h3
        · exact endsWithLit_nil_false hpne
        · rcases List.mem_cons.1 h3 with rfl | h4
          · exact hne
          · exact absurd h4 (List.not_mem_nil lx)
      · obtain ⟨e, he, rfl⟩ := List.mem_map.1 h2
        exact main_line_endsWith_false
          (List.all_eq_true.1 hm e ((sortByKey_perm PRSpec.num mains).mem_iff.1 he))
          hstar
    · rcases List.mem_cons.1 h1 with rfl | h3
      · exact endsWithLit_nil_false hpne
      · rcases List.mem_cons.1 h3 with rfl | h4
        · exact endsWithLit_nil_false hpne
        · exact absurd h4 (List.not_mem_nil lx)

/-- Every line of the (possibly absent) internal-QA chunk,
`\r`-terminated, fails the suffix test for a header ending in `*` other
than the internal-QA header. -/
theorem iqaChunkG_fails {p : Str} {R : List Str} {iqas : List IQASpec}
    (hq : iqas.all IQASpec.ok = true) (hstar : p.getLast? = some '*')
    (hne : endsWithLit p internalQAHeaderLine = false) :
    ∀ l ∈ ((if iqas.isEmpty then ([] : List Str) else
        [internalQAHeaderLine] ++ iqas.map (iqaLineB R) ++ [[], []])).map
      (fun l => l ++ ['\r']),
      endsWithLit p (stripCR l) = false := by
  intro l hl
  have hpne : p ≠ [] := by
    intro hp0
    rw [hp0] at hstar
    exact Option.noConfusion hstar
  by_cases hc : iqas.isEmpty = true
  · rw [if_pos hc, List.map_nil] at hl
    exact absurd hl (List.not_mem_nil l)
  · rw [if_neg hc] at hl
    obtain ⟨lx, hlx, rfl⟩ := List.mem_map.1 hl
    rw [stripCR_concat]
    rcases List.mem_append.1 hlx with h1 | h1
    · rcases List.mem_append.1 h1 with h2 | h2
      · rcases List.mem_cons.1 h2 with rfl | h3
        · exact hne
        · exact absurd h3 (List.not_mem_nil lx)
      · obtain ⟨e, he, rfl⟩ := List.mem_map.1 h2
        exact iqa_line_endsWith_false (List.all_eq_true.1 hq e he) hstar
    · rcases List.mem_cons.1 h1 with rfl | h3
      · exact endsWithLit_nil_false hpne
      · rcases List.mem_cons.1 h3 with rfl | h4
        · exact endsWithLit_nil_false hpne
        · exact absurd h4 (List.not_mem_nil lx)

/-- The pull-request section search on a general rendered body: found
exactly when the main list is nonempty. -/
theorem prSectionOf_specBodyG {d1 d2 d3 : Str} {opt4 : Option Str}
    {V R RD : List Str} {mains : List PRSpec} {iqas : List IQASpec}
    {dbs : List DBSpec} {bT bF bG : Bool} (hok : tagOk d1 d2 d3 opt4 = true)
    (hm : mains.all PRSpec.ok = true) (hq : iqas.all IQASpec.ok = true)
    (hd : dbs.all DBSpec.ok = true) :
    prSectionOf (joinLinesCRLF
        (specLinesG d1 d2 d3 opt4 V R RD mains iqas dbs bT bF bG)) =
      (if mains.isEmpty then none
       else some ((sortByKey PRSpec.num mains).map (mainLineB V))) := by
  have hstar : (lit "pull requests:**").getLast? = some '*' := rfl
  rw [prSectionOf,
    completeLines_joinLinesCRLF (specLinesG_no_newline hok hm hq hd)]
  by_cases hc : mains.isEmpty = true
  · rw [if_pos hc]
    have hall : ∀ x ∈ specLinesG d1 d2 d3 opt4 V R RD mains iqas dbs bT bF bG,
        endsWithLit (lit "pull requests:**") x = false := by
      refine specLinesG_cases ?_ ?_ ?_ ?_ ?_ ?_ ?_ ?_ ?_ ?_ ?_ ?_ ?_ ?_
      · exact endsWith_star_false_backtick hstar
      · decide
      · exact endsWithLit_nil_false (by decide)
      · intro hfalse
        exact absurd (hfalse ▸ hc) (by decide)
      · exact fun e he =>
          main_line_endsWith_false (List.all_eq_true.1 hm e he) hstar
      · intro _
        decide
      · exact fun e he =>
          iqa_line_endsWith_false (List.all_eq_true.1 hq e he) hstar
      · intro _
        decide
      · exact fun e he =>
          db_line_endsWith_false (List.all_eq_true.1 hd e he) hstar
      · decide
      · cases bT with
        | false => decide
        | true => decide
      · cases bF with
        | false => decide
        | true => decide
      · cases bG with
        | false => decide
        | true => decide
      · decide
    refine findSectionFrom_none ?_
    intro l hl
    obtain ⟨lx, hlx, rfl⟩ := List.mem_map.1 hl
    rw [stripCR_concat]
    exact hall lx hlx
  · rw [if_neg hc]
    have hmne : mains ≠ [] := isEmpty_false_ne_nil (Bool.eq_false_iff.2 hc)
    have h1 : endsWithLit (lit "pull requests:**")
        (stripCR (lit "**Release Version:** " ++ ['\x60'] ++
          tagStr d1 d2 d3 opt4 ++ ['\x60'] ++ ['\r'])) = false := by
      rw [stripCR_concat]
      exact endsWith_star_false_backtick hstar
    have h2 : endsWithLit (lit "pull requests:**")
        (stripCR (compareLine ++ ['\r'])) = false := by
      rw [stripCR_concat]
      decide
    have h3 : endsWithLit (lit "pull requests:**") (stripCR ['\r']) = false :=
      endsWithLit_nil_false (by decide)
    have hhit : endsWithLit (lit "pull requests:**")
        (stripCR (prSectionHeaderLine ++ ['\r'])) = true := by
      rw [stripCR_concat]
      decide
    have hdash : ∀ x ∈ ((sortByKey PRSpec.num mains).map (mainLineB V)).map
        (fun l => l ++ ['\r']), isDashLine x = true := by
      intro x hx
      obtain ⟨lx, hlx, rfl⟩ := List.mem_map.1 hx
      obtain ⟨e, he, rfl⟩ := List.mem_map.1 hlx
      obtain ⟨ho1, ho2, ho3⟩ := prSpec_ok_parts
        (List.all_eq_true.1 hm e ((sortByKey_perm PRSpec.num mains).mem_iff.1 he))
      have hsh : mainLineB V e = checkbox (jsContains V (PRSpec.url e)) ++
          ([' '] ++ PRSpec.url e) := by
        simp [mainLineB, List.append_assoc]
      rw [hsh]
      exact isDashLine_entry _
        (List.all_eq_true.2 (pullUrl_all_isDotCh ho1 ho2 ho3))
    have hsh2 : (specLinesG d1 d2 d3 opt4 V R RD mains iqas dbs bT bF bG).map
        (fun l => l ++ ['\r']) =
        (lit "**Release Version:** " ++ ['\x60'] ++ tagStr d1 d2 d3 opt4 ++
          ['\x60'] ++ ['\r']) :: (compareLine ++ ['\r']) :: ['\r'] ::
        ((prSectionHeaderLine ++ ['\r']) ::
          (((sortByKey PRSpec.num mains).map (mainLineB V)).map
              (fun l => l ++ ['\r']) ++
            ['\r'] :: ['\r'] ::
              (((if iqas.isEmpty then ([] : List Str) else
                  [internalQAHeaderLine] ++ iqas.map (iqaLineB R) ++ [[], []]) ++
                (if dbs.isEmpty then ([] : List Str) else
                  [deployBlockersHeaderLine] ++
                  (sortByKey DBSpec.num dbs).map (dbLineB RD) ++ [[], []]) ++
                [deployerVerificationsLine, timingLine bT, firebaseLine bF,
                 ghStatusLine bG, [], ccLine]).map (fun l => l ++ ['\r'])))) := by
      rw [specLinesG, if_neg hc]
      simp [List.map_append, List.append_assoc]
    rw [hsh2, findSectionFrom_skip h1, findSectionFrom_skip h2,
      findSectionFrom_skip h3,
      findSectionFrom_hit_block hhit hdash
        (map_isEmpty_false _ (map_ne_nil _ (sortByKey_ne_nil _ hmne)))
        (by decide) stripCR_cr _, map_stripCR_concat]

/-- The internal-QA section search on a general rendered body: found
exactly when the internal-QA list is nonempty. -/
theorem internalQASectionOf_specBodyG {d1 d2 d3 : Str} {opt4 : Option Str}
    {V R RD : List Str} {mains : List PRSpec} {iqas : List IQASpec}
    {dbs : List DBSpec} {bT bF bG : Bool} (hok : tagOk d1 d2 d3 opt4 = true)
    (hm : mains.all PRSpec.ok = true) (hq : iqas.all IQASpec.ok = true)
    (hd : dbs.all DBSpec.ok = true) :
    internalQASectionOf (joinLinesCRLF
        (specLinesG d1 d2 d3 opt4 V R RD mains iqas dbs bT bF bG)) =
      (if iqas.isEmpty then none else some (iqas.map (iqaLineB R))) := by
  have hstar : (lit "Internal QA:**").getLast? = some '*' := rfl
  rw [internalQASectionOf,
    completeLines_joinLinesCRLF (specLinesG_no_newline hok hm hq hd)]
  by_cases hc : iqas.isEmpty = true
  · rw [if_pos hc]
    have hall : ∀ x ∈ specLinesG d1 d2 d3 opt4 V R RD mains iqas dbs bT bF bG,
        endsWithLit (lit "Internal QA:**") x = false := by
      refine specLinesG_cases ?_ ?_ ?_ ?_ ?_ ?_ ?_ ?_ ?_ ?_ ?_ ?_ ?_ ?_
      · exact endsWith_star_false_backtick hstar
      · decide
      · exact endsWithLit_nil_false (by decide)
      · intro _
        decide
      · exact fun e he =>
          main_line_endsWith_false (List.all_eq_true.1 hm e he) hstar
      · intro hfalse
        exact absurd (hfalse ▸ hc) (by decide)
      · exact fun e he =>
          iqa_line_endsWith_false (List.all_eq_true.1 hq e he) hstar
      · intro _
        decide
      · exact fun e he =>
          db_line_endsWith_false (List.all_eq_true.1 hd e he) hstar
      · decide
      · cases bT with
        | false => decide
        | true => decide
      · cases bF with
        | false => decide
        | true => decide
      · cases bG with
        | false => decide
        | true => decide
      · decide
    refine findSectionFrom_none ?_
    intro l hl
    obtain ⟨lx, hlx, rfl⟩ := List.mem_map.1 hl
    rw [stripCR_concat]
    exact hall lx hlx
  · rw [if_neg hc]
    have hqne : iqas ≠ [] := isEmpty_false_ne_nil (Bool.eq_false_iff.2 hc)
    have hfix : ∀ l ∈ [lit "**Release Version:** " ++ ['\x60'] ++
        tagStr d1 d2 d3 opt4 ++ ['\x60'] ++ ['\r'], compareLine ++ ['\r']],
        endsWithLit (lit "Internal QA:**") (stripCR l) = false := by
      intro l hl
      rcases List.mem_cons.1 hl with rfl | hl2
      · rw [stripCR_concat]
        exact endsWith_star_false_backtick hstar
      · rcases List.mem_cons.1 hl2 with rfl | hl3
        · rw [stripCR_concat]
          decide
        · exact absurd hl3 (List.not_mem_nil l)
    have hhit : endsWithLit (lit "Internal QA:**")
        (stripCR (internalQAHeaderLine ++ ['\r'])) = true := by
      rw [stripCR_concat]
      decide
    have hdash : ∀ x ∈ (iqas.map (iqaLineB R)).map (fun l => l ++ ['\r']),
        isInternalQALine x = true := by
      intro x hx
      obtain ⟨lx, hlx, rfl⟩ := List.mem_map.1 hx
      obtain ⟨e, he, rfl⟩ := List.mem_map.1 hlx
      have hoke := List.all_eq_true.1 hq e he
      have hsh : iqaLineB R e = checkbox (jsContains R (IQASpec.url e)) ++
          ([' '] ++ (IQASpec.url e ++ (lit " - @" ++ e.login))) := by
        simp [iqaLineB, List.append_assoc]
      rw [hsh]
      exact isInternalQALine_entry _ (iqaTail_all_isDotCh hoke)
    have hsh2 : (specLinesG d1 d2 d3 opt4 V R RD mains iqas dbs bT bF bG).map
        (fun l => l ++ ['\r']) =
        ((lit "**Release Version:** " ++ ['\x60'] ++ tagStr d1 d2 d3 opt4 ++
            ['\x60'] ++ ['\r']) :: (compareLine ++ ['\r']) :: ([] : List Str)) ++
        (((if mains.isEmpty then ([] : List Str) else
            [[], prSectionHeaderLine] ++
            (sortByKey PRSpec.num mains).map (mainLineB V) ++ [[], []])).map
            (fun l => l ++ ['\r']) ++
          ((internalQAHeaderLine ++ ['\r']) ::
            ((iqas.map (iqaLineB R)).map (fun l => l ++ ['\r']) ++
              ['\r'] :: ['\r'] ::
                (((if dbs.isEmpty then ([] : List Str) else
                    [deployBlockersHeaderLine] ++
                    (sortByKey DBSpec.num dbs).map (dbLineB RD) ++ [[], []]) ++
                  [deployerVerificationsLine, timingLine bT, firebaseLine bF,
                   ghStatusLine bG, [], ccLine]).map (fun l => l ++ ['\r']))))) := by
      rw [specLinesG, if_neg hc]
      simp [List.map_append, List.append_assoc]
    rw [hsh2, findSectionFrom_skip_all hfix,
      findSectionFrom_skip_all (mainChunkG_fails hm hstar (by decide)),
      findSectionFrom_hit_block hhit hdash
        (map_isEmpty_false _ (map_ne_nil _ hqne))
        (by decide) stripCR_cr _, map_stripCR_concat]

/-- The deploy-blocker section search on a general rendered body: found
exactly when the blocker list is nonempty. -/
theorem deployBlockerSectionOf_specBodyG {d1 d2 d3 : Str} {opt4 : Option Str}
    {V R RD : List Str} {mains : List PRSpec} {iqas : List IQASpec}
    {dbs : List DBSpec} {bT bF bG : Bool} (hok : tagOk d1 d2 d3 opt4 = true)
    (hm : mains.all PRSpec.ok = true) (hq : iqas.all IQASpec.ok = true)
    (hd : dbs.all DBSpec.ok = true) :
    deployBlockerSectionOf (joinLinesCRLF
        (specLinesG d1 d2 d3 opt4 V R RD mains iqas dbs bT bF bG)) =
      (if dbs.isEmpty then none
       else some ((sortByKey DBSpec.num dbs).map (dbLineB RD))) := by
  have hstar : (lit "Deploy Blockers:**").getLast? = some '*' := rfl
  rw [deployBlockerSectionOf,
    completeLines_joinLinesCRLF (specLinesG_no_newline hok hm hq hd)]
  by_cases hc : dbs.isEmpty = true
  · rw [if_pos hc]
    have hall : ∀ x ∈ specLinesG d1 d2 d3 opt4 V R RD mains iqas dbs bT bF bG,
        endsWithLit (lit "Deploy Blockers:**") x = false := by
      refine specLinesG_cases ?_ ?_ ?_ ?_ ?_ ?_ ?_ ?_ ?_ ?_ ?_ ?_ ?_ ?_
      · exact endsWith_star_false_backtick hstar
      · decide
      · exact endsWithLit_nil_false (by decide)
      · intro _
        decide
      · exact fun e he =>
          main_line_endsWith_false (List.all_eq_true.1 hm e he) hstar
      · intro _
        decide
      · exact fun e he =>
          iqa_line_endsWith_false (List.all_eq_true.1 hq e he) hstar
      · intro hfalse
        exact absurd (hfalse ▸ hc) (by decide)
      · exact fun e he =>
          db_line_endsWith_false (List.all_eq_true.1 hd e he) hstar
      · decide
      · cases bT with
        | false => decide
        | true => decide
      · cases bF with
        | false => decide
        | true => decide
      · cases bG with
        | false => decide
        | true => decide
      · decide
    refine findSectionFrom_none ?_
    intro l hl
    obtain ⟨lx, hlx, rfl⟩ := List.mem_map.1 hl
    rw [stripCR_concat]
    exact hall lx hlx
  · rw [if_neg hc]
    have hdne : dbs ≠ [] := isEmpty_false_ne_nil (Bool.eq_false_iff.2 hc)
    have hfix : ∀ l ∈ [lit "**Release Version:** " ++ ['\x60'] ++
        tagStr d1 d2 d3 opt4 ++ ['\x60'] ++ ['\r'], compareLine ++ ['\r']],
        endsWithLit (lit "Deploy Blockers:**") (stripCR l) = false := by
      intro l hl
      rcases List.mem_cons.1 hl with rfl | hl2
      · rw [stripCR_concat]
        exact endsWith_star_false_backtick hstar
      · rcases List.mem_cons.1 hl2 with rfl | hl3
        · rw [stripCR_concat]
          decide
        · exact absurd hl3 (List.not_mem_nil l)
    have hhit : endsWithLit (lit "Deploy Blockers:**")
        (stripCR (deployBlockersHeaderLine ++ ['\r'])) = true := by
      rw [stripCR_concat]
      decide
    have hdash : ∀ x ∈ ((sortByKey DBSpec.num dbs).map (dbLineB RD)).map
        (fun l => l ++ ['\r']), isDashLine x = true := by
      intro x hx
      obtain ⟨lx, hlx, rfl⟩ := List.mem_map.1 hx
      obtain ⟨e, he, rfl⟩ := List.mem_map.1 hlx
      have hoke := List.all_eq_true.1 hd e
        ((sortByKey_perm DBSpec.num dbs).mem_iff.1 he)
      have hsh : dbLineB RD e = checkbox (jsContains RD (DBSpec.url e)) ++
          ([' '] ++ DBSpec.url e) := by
        simp [dbLineB, List.append_assoc]
      rw [hsh]
      exact isDashLine_entry _ (List.all_eq_true.2 (dbUrl_all_isDotCh hoke))
    have hsh2 : (specLinesG d1 d2 d3 opt4 V R RD mains iqas dbs bT bF bG).map
        (fun l => l ++ ['\r']) =
        ((lit "**Release Version:** " ++ ['\x60'] ++ tagStr d1 d2 d3 opt4 ++
            ['\x60'] ++ ['\r']) :: (compareLine ++ ['\r']) :: ([] : List Str)) ++
        (((if mains.isEmpty then ([] : List Str) else
            [[], prSectionHeaderLine] ++
            (sortByKey PRSpec.num mains).map (mainLineB V) ++ [[], []])).map
            (fun l => l ++ ['\r']) ++
          (((if iqas.isEmpty then ([] : List Str) else
              [internalQAHeaderLine] ++ iqas.map (iqaLineB R) ++ [[], []])).map
              (fun l => l ++ ['\r']) ++
            ((deployBlockersHeaderLine ++ ['\r']) ::
              (((sortByKey DBSpec.num dbs).map (dbLineB RD)).map
                  (fun l => l ++ ['\r']) ++
                ['\r'] :: ['\r'] ::
                  (([deployerVerificationsLine, timingLine bT, firebaseLine bF,
                     ghStatusLine bG, [], ccLine] : List Str).map
                    (fun l => l ++ ['\r'])))))) := by
      rw [specLinesG, if_neg hc]
      simp [List.map_append, List.append_assoc]
    rw [hsh2, findSectionFrom_skip_all hfix,
      findSectionFrom_skip_all (mainChunkG_fails hm hstar (by decide)),
      findSectionFrom_skip_all (iqaChunkG_fails hq hstar (by decide)),
      findSectionFrom_hit_block hhit hdash
        (map_isEmpty_false _ (map_ne_nil _ (sortByKey_ne_nil _ hdne)))
        (by decide) stripCR_cr _, map_stripCR_concat]

/-- Re-parsing the main-PR section of a general rendered body: an
omitted section yields the empty list. -/
theorem parsePRList_specBodyG {d1 d2 d3 : Str} {opt4 : Option Str}
    {V R RD : List Str} {mains : List PRSpec} {iqas : List IQASpec}
    {dbs : List DBSpec} {bT bF bG : Bool} (hok : tagOk d1 d2 d3 opt4 = true)
    (hm : mains.all PRSpec.ok = true) (hq : iqas.all IQASpec.ok = true)
    (hd : dbs.all DBSpec.ok = true) :
    getStagingDeployCashPRList (joinLinesCRLF
        (specLinesG d1 d2 d3 opt4 V R RD mains iqas dbs bT bF bG)) =
      sortByKey PREntry.number ((sortByKey PRSpec.num mains).map (fun e =>
        { url := PRSpec.url e, number := PRSpec.num e,
          isVerified := jsContains V (PRSpec.url e) })) := by
  have hsec := @prSectionOf_specBodyG d1 d2 d3 opt4 V R RD mains iqas dbs
    bT bF bG hok hm hq hd
  by_cases hc : mains.isEmpty = true
  · rw [if_pos hc] at hsec
    have hm0 : mains = [] := by
      cases mains with
      | nil => rfl
      | cons a as => simp at hc
    subst hm0
    simp only [getStagingDeployCashPRList, hsec]
    rfl
  · rw [if_neg hc] at hsec
    simp only [getStagingDeployCashPRList, hsec]
    rw [filterMap_map_comp]
    have hsome : ∀ e ∈ sortByKey PRSpec.num mains,
        (scanFirst prEntryAt (mainLineB V e)).map (fun m =>
          ({ url := m.2.1, number := m.2.2, isVerified := m.1 } : PREntry)) =
        some { url := PRSpec.url e, number := PRSpec.num e,
               isVerified := jsContains V (PRSpec.url e) } := by
      intro e he
      have hoke := List.all_eq_true.1 hm e
        ((sortByKey_perm PRSpec.num mains).mem_iff.1 he)
      have hscan : scanFirst prEntryAt (mainLineB V e) =
          some (jsContains V (PRSpec.url e), PRSpec.url e, PRSpec.num e) := by
        show scanFirst prEntryAt (checkbox (jsContains V (PRSpec.url e)) ++
          [' '] ++ PRSpec.url e) = _
        exact scanFirst_prEntry_line (pullUrlAt_spec hoke)
      rw [hscan]
      rfl
    rw [filterMap_congr_some hsome]

/-- Re-parsing the deploy-blocker section of a general rendered body. -/
theorem parseDeployBlockers_specBodyG {d1 d2 d3 : Str} {opt4 : Option Str}
    {V R RD : List Str} {mains : List PRSpec} {iqas : List IQASpec}
    {dbs : List DBSpec} {bT bF bG : Bool} (hok : tagOk d1 d2 d3 opt4 = true)
    (hm : mains.all PRSpec.ok = true) (hq : iqas.all IQASpec.ok = true)
    (hd : dbs.all DBSpec.ok = true) :
    getStagingDeployCashDeployBlockers (joinLinesCRLF
        (specLinesG d1 d2 d3 opt4 V R RD mains iqas dbs bT bF bG)) =
      sortByKey DeployBlockerEntry.number ((sortByKey DBSpec.num dbs).map (fun e =>
        { url := DBSpec.url e, number := DBSpec.num e,
          isResolved := jsContains RD (DBSpec.url e) })) := by
  have hsec := @deployBlockerSectionOf_specBodyG d1 d2 d3 opt4 V R RD mains iqas
    dbs bT bF bG hok hm hq hd
  by_cases hc : dbs.isEmpty = true
  · rw [if_pos hc] at hsec
    have hd0 : dbs = [] := by
      cases dbs with
      | nil => rfl
      | cons a as => simp at hc
    subst hd0
    simp only [getStagingDeployCashDeployBlockers, hsec]
    rfl
  · rw [if_neg hc] at hsec
    simp only [getStagingDeployCashDeployBlockers, hsec]
    rw [filterMap_map_comp]
    have hsome : ∀ e ∈ sortByKey DBSpec.num dbs,
        (scanFirst (wsEntryAt issueOrPullUrlAt) (dbLineB RD e)).map (fun m =>
          ({ url := m.2.1, number := m.2.2, isResolved := m.1 } :
            DeployBlockerEntry)) =
        some { url := DBSpec.url e, number := DBSpec.num e,
               isResolved := jsContains RD (DBSpec.url e) } := by
      intro e he
      have hoke := List.all_eq_true.1 hd e
        ((sortByKey_perm DBSpec.num dbs).mem_iff.1 he)
      have hscan : scanFirst (wsEntryAt issueOrPullUrlAt) (dbLineB RD e) =
          some (jsContains RD (DBSpec.url e), DBSpec.url e, DBSpec.num e) := by
        show scanFirst (wsEntryAt issueOrPullUrlAt)
          (checkbox (jsContains RD (DBSpec.url e)) ++ [' '] ++ DBSpec.url e) = _
        exact scanFirst_wsEntry_line (issueOrPullUrlAt_spec hoke)
      rw [hscan]
      rfl
    rw [filterMap_congr_some hsome]

/-- Re-parsing the internal-QA section of a general rendered body: the
assignee annotation is cut off, and no assignee is produced. -/
theorem parseInternalQA_specBodyG {d1 d2 d3 : Str} {opt4 : Option Str}
    {V R RD : List Str} {mains : List PRSpec} {iqas : List IQASpec}
    {dbs : List DBSpec} {bT bF bG : Bool} (hok : tagOk d1 d2 d3 opt4 = true)
    (hm : mains.all PRSpec.ok = true) (hq : iqas.all IQASpec.ok = true)
    (hd : dbs.all DBSpec.ok = true) :
    getStagingDeployCashInternalQA (joinLinesCRLF
        (specLinesG d1 d2 d3 opt4 V R RD mains iqas dbs bT bF bG)) =
      sortByKey InternalQAEntry.number (iqas.map (fun e =>
        { url := IQASpec.url e, number := IQASpec.num e,
          isResolved := jsContains R (IQASpec.url e) })) := by
  have hsec := @internalQASectionOf_specBodyG d1 d2 d3 opt4 V R RD mains iqas
    dbs bT bF bG hok hm hq hd
  by_cases hc : iqas.isEmpty = true
  · rw [if_pos hc] at hsec
    have hq0 : iqas = [] := by
      cases iqas with
      | nil => rfl
      | cons a as => simp at hc
    subst hq0
    simp only [getStagingDeployCashInternalQA, hsec]
    rfl
  · rw [if_neg hc] at hsec
    simp only [getStagingDeployCashInternalQA, hsec]
    rw [filterMap_map_comp]
    have hsome : ∀ e ∈ iqas,
        (scanFirst (wsEntryAt pullUrlAt) (iqaLineB R e)).map (fun m =>
          ({ url := jsTrim (splitDashHead m.2.1), number := m.2.2,
             isResolved := m.1 } : InternalQAEntry)) =
        some { url := IQASpec.url e, number := IQASpec.num e,
               isResolved := jsContains R (IQASpec.url e) } := by
      intro e he
      have hoke := List.all_eq_true.1 hq e he
      obtain ⟨ho1, ho2, ho3, ho4, ho5, ho6⟩ := iqaSpec_ok_parts hoke
      have hsh : iqaLineB R e = checkbox (jsContains R (IQASpec.url e)) ++
          [' '] ++ (IQASpec.url e ++ (lit " - @" ++ e.login)) := by
        simp [iqaLineB, List.append_assoc]
      have hscan : scanFirst (wsEntryAt pullUrlAt) (iqaLineB R e) =
          some (jsContains R (IQASpec.url e),
            IQASpec.url e ++ (lit " - @" ++ e.login), IQASpec.num e) := by
        rw [hsh]
        exact scanFirst_wsEntry_line (pullUrlAt_iqa_annotated hoke)
      rw [hscan]
      have hurl : jsTrim (splitDashHead (IQASpec.url e ++
          (lit " - @" ++ e.login))) = IQASpec.url e := by
        have h0 : IQASpec.url e ++ (lit " - @" ++ e.login) =
            IQASpec.url e ++ lit " - @" ++ e.login := by
          simp [List.append_assoc]
        rw [h0, splitDashHead_annotated (iqaUrl_no_dash hoke) e.login]
        refine jsTrim_append_space ?_ ?_
        · intro c hcc
          have h1 : (IQASpec.url e).head? = some 'h' := rfl
          rw [h1] at hcc
          rw [← Option.some.inj hcc]
          decide
        · intro c hcc
          exact isWsCh_false_of_digit (keyUrl_last_digit ho3 c hcc)
      show some ({ url := jsTrim (splitDashHead
                     (IQASpec.url e ++ (lit " - @" ++ e.login))),
                   number := IQASpec.num e,
                   isResolved := jsContains R (IQASpec.url e) } :
        InternalQAEntry) = _
      rw [hurl]
    rw [filterMap_congr_some hsome]

/-- The timing checkbox test on a general rendered body reads back the
flag. -/
theorem testTiming_specBodyG {d1 d2 d3 : Str} {opt4 : Option Str}
    {V R RD : List Str} {mains : List PRSpec} {iqas : List IQASpec}
    {dbs : List DBSpec} {bT bF bG : Bool} (hok : tagOk d1 d2 d3 opt4 = true)
    (hm : mains.all PRSpec.ok = true) (hq : iqas.all IQASpec.ok = true)
    (hd : dbs.all DBSpec.ok = true) :
    testCheckMark timingPhrase (joinLinesCRLF
        (specLinesG d1 d2 d3 opt4 V R RD mains iqas dbs bT bF bG)) = bT := by
  have hph : (lit timingPhrase).head? = some 'I' := rfl
  have hpcr : '\r' ∉ lit timingPhrase := by decide
  cases bT with
  | true =>
    have hsplit : specLinesG d1 d2 d3 opt4 V R RD mains iqas dbs true bF bG =
        ([lit "**Release Version:** " ++ ['\x60'] ++ tagStr d1 d2 d3 opt4 ++
          ['\x60'], compareLine] ++
        (if mains.isEmpty then ([] : List Str) else
          [[], prSectionHeaderLine] ++
          (sortByKey PRSpec.num mains).map (mainLineB V) ++ [[], []]) ++
        (if iqas.isEmpty then ([] : List Str) else
          [internalQAHeaderLine] ++ iqas.map (iqaLineB R) ++ [[], []]) ++
        (if dbs.isEmpty then ([] : List Str) else
          [deployBlockersHeaderLine] ++
          (sortByKey DBSpec.num dbs).map (dbLineB RD) ++ [[], []]) ++
        [deployerVerificationsLine]) ++
        timingLine true :: [firebaseLine bF, ghStatusLine bG, [], ccLine] := by
      simp [specLinesG, List.append_assoc]
    show (scanFirst (checkMarkAt (lit timingPhrase)) (joinLinesCRLF
      (specLinesG d1 d2 d3 opt4 V R RD mains iqas dbs true bF bG))).isSome = true
    rw [hsplit]
    exact scanFirst_checkMark_isSome _ _ (checkMark_timing_hit _)
  | false =>
    have hall : ∀ l ∈ specLinesG d1 d2 d3 opt4 V R RD mains iqas dbs false bF bG,
        NoCheck (lit timingPhrase) l := by
      refine specLinesG_cases ?_ ?_ ?_ ?_ ?_ ?_ ?_ ?_ ?_ ?_ ?_ ?_ ?_ ?_
      · exact noCheck_tagLine hok
      · exact noCheck_of_no_bracket (by decide)
      · exact noCheck_of_no_bracket (by decide)
      · exact fun _ => noCheck_of_no_bracket (by decide)
      · intro e he
        obtain ⟨ho1, ho2, ho3⟩ := prSpec_ok_parts (List.all_eq_true.1 hm e he)
        have hsh : mainLineB V e = checkbox (jsContains V (PRSpec.url e)) ++
            ([' '] ++ PRSpec.url e) := by
          simp [mainLineB, List.append_assoc]
        rw [hsh]
        exact noCheck_entryLine hph _ (pullUrl_no_bracket ho1 ho2 ho3) rfl
      · exact fun _ => noCheck_of_no_bracket (by decide)
      · intro e he
        obtain ⟨ho1, ho2, ho3, ho4, _, _⟩ :=
          iqaSpec_ok_parts (List.all_eq_true.1 hq e he)
        have hsh : iqaLineB R e = checkbox (jsContains R (IQASpec.url e)) ++
            ([' '] ++ (IQASpec.url e ++ (lit " - @" ++ e.login))) := by
          simp [iqaLineB, List.append_assoc]
        rw [hsh]
        refine noCheck_entryLine hph _ ?_ rfl
        intro hmem
        rcases List.mem_append.1 hmem with h1 | h1
        · exact pullUrl_no_bracket ho1 ho2 ho3 h1
        · rcases List.mem_append.1 h1 with h2 | h2
          · exact absurd h2 (by decide)
          · exact mentionOk_not_mem ho4 (by decide) h2
      · exact fun _ => noCheck_of_no_bracket (by decide)
      · intro e he
        have hoke := List.all_eq_true.1 hd e he
        have hsh : dbLineB RD e = checkbox (jsContains RD (DBSpec.url e)) ++
            ([' '] ++ DBSpec.url e) := by
          simp [dbLineB, List.append_assoc]
        rw [hsh]
        refine noCheck_entryLine hph _ (dbUrl_no_bracket hoke) ?_
        rw [DBSpec.url]
        by_cases hp : e.isPull = true
        · rw [if_pos hp]
          rfl
        · rw [if_neg hp]
          rfl
      · exact noCheck_of_no_bracket (by decide)
      · exact (noCheck_verifLines_timing bF bG).1
      · exact (noCheck_verifLines_timing bF bG).2.1
      · exact (noCheck_verifLines_timing bF bG).2.2
      · exact noCheck_of_no_bracket (by decide)
    show (scanFirst (checkMarkAt (lit timingPhrase)) (joinLinesCRLF
      (specLinesG d1 d2 d3 opt4 V R RD mains iqas dbs false bF bG))).isSome = false
    rw [scanFirst_checkMark_none hph hpcr hall]
    rfl

/-- The Firebase checkbox test on a general rendered body reads back the
flag. -/
theorem testFirebase_specBodyG {d1 d2 d3 : Str} {opt4 : Option Str}
    {V R RD : List Str} {mains : List PRSpec} {iqas : List IQASpec}
    {dbs : List DBSpec} {bT bF bG : Bool} (hok : tagOk d1 d2 d3 opt4 = true)
    (hm : mains.all PRSpec.ok = true) (hq : iqas.all IQASpec.ok = true)
    (hd : dbs.all DBSpec.ok = true) :
    testCheckMark firebasePhrase (joinLinesCRLF
        (specLinesG d1 d2 d3 opt4 V R RD mains iqas dbs bT bF bG)) = bF := by
  have hph : (lit firebasePhrase).head? = some 'I' := rfl
  have hpcr : '\r' ∉ lit firebasePhrase := by decide
  cases bF with
  | true =>
    have hsplit : specLinesG d1 d2 d3 opt4 V R RD mains iqas dbs bT true bG =
        ([lit "**Release Version:** " ++ ['\x60'] ++ tagStr d1 d2 d3 opt4 ++
          ['\x60'], compareLine] ++
        (if mains.isEmpty then ([] : List Str) else
          [[], prSectionHeaderLine] ++
          (sortByKey PRSpec.num mains).map (mainLineB V) ++ [[], []]) ++
        (if iqas.isEmpty then ([] : List Str) else
          [internalQAHeaderLine] ++ iqas.map (iqaLineB R) ++ [[], []]) ++
        (if dbs.isEmpty then ([] : List Str) else
          [deployBlockersHeaderLine] ++
          (sortByKey DBSpec.num dbs).map (dbLineB RD) ++ [[], []]) ++
        [deployerVerificationsLine, timingLine bT]) ++
        firebaseLine true :: [ghStatusLine bG, [], ccLine] := by
      simp [specLinesG, List.append_assoc]
    show (scanFirst (checkMarkAt (lit firebasePhrase)) (joinLinesCRLF
      (specLinesG d1 d2 d3 opt4 V R RD mains iqas dbs bT true bG))).isSome = true
    rw [hsplit]
    exact scanFirst_checkMark_isSome _ _ (checkMark_firebase_hit _)
  | false =>
    have hall : ∀ l ∈ specLinesG d1 d2 d3 opt4 V R RD mains iqas dbs bT false bG,
        NoCheck (lit firebasePhrase) l := by
      refine specLinesG_cases ?_ ?_ ?_ ?_ ?_ ?_ ?_ ?_ ?_ ?_ ?_ ?_ ?_ ?_
      · exact noCheck_tagLine hok
      · exact noCheck_of_no_bracket (by decide)
      · exact noCheck_of_no_bracket (by decide)
      · exact fun _ => noCheck_of_no_bracket (by decide)
      · intro e he
        obtain ⟨ho1, ho2, ho3⟩ := prSpec_ok_parts (List.all_eq_true.1 hm e he)
        have hsh : mainLineB V e = checkbox (jsContains V (PRSpec.url e)) ++
            ([' '] ++ PRSpec.url e) := by
          simp [mainLineB, List.append_assoc]
        rw [hsh]
        exact noCheck_entryLine hph _ (pullUrl_no_bracket ho1 ho2 ho3) rfl
      · exact fun _ => noCheck_of_no_bracket (by decide)
      · intro e he
        obtain ⟨ho1, ho2, ho3, ho4, _, _⟩ :=
          iqaSpec_ok_parts (List.all_eq_true.1 hq e he)
        have hsh : iqaLineB R e = checkbox (jsContains R (IQASpec.url e)) ++
            ([' '] ++ (IQASpec.url e ++ (lit " - @" ++ e.login))) := by
          simp [iqaLineB, List.append_assoc]
        rw [hsh]
        refine noCheck_entryLine hph _ ?_ rfl
        intro hmem
        rcases List.mem_append.1 hmem with h1 | h1
        · exact pullUrl_no_bracket ho1 ho2 ho3 h1
        · rcases List.mem_append.1 h1 with h2 | h2
          · exact absurd h2 (by decide)
          · exact mentionOk_not_mem ho4 (by decide) h2
      · exact fun _ => noCheck_of_no_bracket (by decide)
      · intro e he
        have hoke := List.all_eq_true.1 hd e he
        have hsh : dbLineB RD e = checkbox (jsContains RD (DBSpec.url e)) ++
            ([' '] ++ DBSpec.url e) := by
          simp [dbLineB, List.append_assoc]
        rw [hsh]
        refine noCheck_entryLine hph _ (dbUrl_no_bracket hoke) ?_
        rw [DBSpec.url]
        by_cases hp : e.isPull = true
        · rw [if_pos hp]
          rfl
        · rw [if_neg hp]
          rfl
      · exact noCheck_of_no_bracket (by decide)
      · exact (noCheck_verifLines_firebase bT bG).2.1
      · exact (noCheck_verifLines_firebase bT bG).1
      · exact (noCheck_verifLines_firebase bT bG).2.2
      · exact noCheck_of_no_bracket (by decide)
    show (scanFirst (checkMarkAt (lit firebasePhrase)) (joinLinesCRLF
      (specLinesG d1 d2 d3 opt4 V R RD mains iqas dbs bT false bG))).isSome = false
    rw [scanFirst_checkMark_none hph hpcr hall]
    rfl

/-- The GitHub-status checkbox test on a general rendered body reads back
the flag. -/
theorem testGHStatus_specBodyG {d1 d2 d3 : Str} {opt4 : Option Str}
    {V R RD : List Str} {mains : List PRSpec} {iqas : List IQASpec}
    {dbs : List DBSpec} {bT bF bG : Bool} (hok : tagOk d1 d2 d3 opt4 = true)
    (hm : mains.all PRSpec.ok = true) (hq : iqas.all IQASpec.ok = true)
    (hd : dbs.all DBSpec.ok = true) :
    testCheckMark ghStatusPhrase (joinLinesCRLF
        (specLinesG d1 d2 d3 opt4 V R RD mains iqas dbs bT bF bG)) = bG := by
  have hph : (lit ghStatusPhrase).head? = some 'I' := rfl
  have hpcr : '\r' ∉ lit ghStatusPhrase := by decide
  cases bG with
  | true =>
    have hsplit : specLinesG d1 d2 d3 opt4 V R RD mains iqas dbs bT bF true =
        ([lit "**Release Version:** " ++ ['\x60'] ++ tagStr d1 d2 d3 opt4 ++
          ['\x60'], compareLine] ++
        (if mains.isEmpty then ([] : List Str) else
          [[], prSectionHeaderLine] ++
          (sortByKey PRSpec.num mains).map (mainLineB V) ++ [[], []]) ++
        (if iqas.isEmpty then ([] : List Str) else
          [internalQAHeaderLine] ++ iqas.map (iqaLineB R) ++ [[], []]) ++
        (if dbs.isEmpty then ([] : List Str) else
          [deployBlockersHeaderLine] ++
          (sortByKey DBSpec.num dbs).map (dbLineB RD) ++ [[], []]) ++
        [deployerVerificationsLine, timingLine bT, firebaseLine bF]) ++
        ghStatusLine true :: [[], ccLine] := by
      simp [specLinesG, List.append_assoc]
    show (scanFirst (checkMarkAt (lit ghStatusPhrase)) (joinLinesCRLF
      (specLinesG d1 d2 d3 opt4 V R RD mains iqas dbs bT bF true))).isSome = true
    rw [hsplit]
    exact scanFirst_checkMark_isSome _ _ (checkMark_ghStatus_hit _)
  | false =>
    have hall : ∀ l ∈ specLinesG d1 d2 d3 opt4 V R RD mains iqas dbs bT bF false,
        NoCheck (lit ghStatusPhrase) l := by
      refine specLinesG_cases ?_ ?_ ?_ ?_ ?_ ?_ ?_ ?_ ?_ ?_ ?_ ?_ ?_ ?_
      · exact noCheck_tagLine hok
      · exact noCheck_of_no_bracket (by decide)
      · exact noCheck_of_no_bracket (by decide)
      · exact fun _ => noCheck_of_no_bracket (by decide)
      · intro e he
        obtain ⟨ho1, ho2, ho3⟩ := prSpec_ok_parts (List.all_eq_true.1 hm e he)
        have hsh : mainLineB V e = checkbox (jsContains V (PRSpec.url e)) ++
            ([' '] ++ PRSpec.url e) := by
          simp [mainLineB, List.append_assoc]
        rw [hsh]
        exact noCheck_entryLine hph _ (pullUrl_no_bracket ho1 ho2 ho3) rfl
      · exact fun _ => noCheck_of_no_bracket (by decide)
      · intro e he
        obtain ⟨ho1, ho2, ho3, ho4, _, _⟩ :=
          iqaSpec_ok_parts (List.all_eq_true.1 hq e he)
        have hsh : iqaLineB R e = checkbox (jsContains R (IQASpec.url e)) ++
            ([' '] ++ (IQASpec.url e ++ (lit " - @" ++ e.login))) := by
          simp [iqaLineB, List.append_assoc]
        rw [hsh]
        refine noCheck_entryLine hph _ ?_ rfl
        intro hmem
        rcases List.mem_append.1 hmem with h1 | h1
        · exact pullUrl_no_bracket ho1 ho2 ho3 h1
        · rcases List.mem_append.1 h1 with h2 | h2
          · exact absurd h2 (by decide)
          · exact mentionOk_not_mem ho4 (by decide) h2
      · exact fun _ => noCheck_of_no_bracket (by decide)
      · intro e he
        have hoke := List.all_eq_true.1 hd e he
        have hsh : dbLineB RD e = checkbox (jsContains RD (DBSpec.url e)) ++
            ([' '] ++ DBSpec.url e) := by
          simp [dbLineB, List.append_assoc]
        rw [hsh]
        refine noCheck_entryLine hph _ (dbUrl_no_bracket hoke) ?_
        rw [DBSpec.url]
        by_cases hp : e.isPull = true
        · rw [if_pos hp]
          rfl
        · rw [if_neg hp]
          rfl
      · exact noCheck_of_no_bracket (by decide)
      · exact (noCheck_verifLines_ghStatus bT bF).2.1
      · exact (noCheck_verifLines_ghStatus bT bF).2.2
      · exact (noCheck_verifLines_ghStatus bT bF).1
      · exact noCheck_of_no_bracket (by decide)
    show (scanFirst (checkMarkAt (lit ghStatusPhrase)) (joinLinesCRLF
      (specLinesG d1 d2 d3 opt4 V R RD mains iqas dbs bT bF false))).isSome = false
    rw [scanFirst_checkMark_none hph hpcr hall]
    rfl

/-- Evaluation of the generator's callback on well-formed spec data with
no nonemptiness assumptions: sections of empty collections are omitted
exactly as `generateBodyLines` omits them. -/
theorem classifyAndRender_evalG (d1 d2 d3 : Str) (opt4 : Option Str)
    (mains : List PRSpec) (iqas : List IQASpec) (dbs : List DBSpec)
    (extras : List PullRequest) (bT bF bG : Bool)
    (hm : mains.all PRSpec.ok = true) (hq : iqas.all IQASpec.ok = true)
    (hd : dbs.all DBSpec.ok = true)
    (hnd : ((mains.map PRSpec.num) ++ (iqas.map IQASpec.num)).Nodup)
    (hnddb : (dbs.map DBSpec.num).Nodup)
    (hex : ∀ pr ∈ extras, jsContains pr.labels INTERNAL_QA_LABEL = false) :
    classifyAndRender (some (iqas.map iqaRecord ++ extras)) (tagStr d1 d2 d3 opt4)
      (specPRList mains iqas) (specVerified mains) (specDB dbs)
      (specResolvedDB dbs) (specResolvedIQA iqas) bT bF bG =
    Except.ok
      { issueBody := joinLinesCRLF (specLinesG d1 d2 d3 opt4
          (jsUnion (specVerified mains) (noQAUrls extras)) (specResolvedIQA iqas)
          (specResolvedDB dbs) mains iqas dbs bT bF bG),
        issueAssignees := iqas.map IQASpec.login } := by
  have hqnodup : ((([] : List (Str × Str)).map Prod.fst) ++
      iqas.map IQASpec.url).Nodup := by
    rw [List.map_nil, List.nil_append]
    have hnd2 : (iqas.map IQASpec.num).Nodup := (List.nodup_append.1 hnd).2.1
    have h1 : (iqas.map IQASpec.url).map getPullRequestNumberFromURL =
        (iqas.map IQASpec.num).map some := by
      rw [List.map_map, List.map_map]
      exact List.map_congr_left
        (fun e he => iqaSpec_url_key (List.all_eq_true.1 hq e he))
    exact List.Nodup.of_map getPullRequestNumberFromURL
      (h1 ▸ hnd2.map (Option.some_injective Nat))
  have hfold := iqaMap_fold_eval iqas [] hqnodup
  rw [List.nil_append] at hfold
  have hfilter := qaFilter_eval iqas extras hex
  have hnoqa := noQA_eval iqas extras
  have hplnd := specPRList_nodup hm hq hnd
  have hparts := List.nodup_append.1 (by rwa [specPRList] at hplnd)
  have hdisj : ∀ u ∈ mains.map PRSpec.url, u ∉ iqas.map IQASpec.url :=
    fun u hu hv => hparts.2.2 hu hv
  have hfst : (iqas.map (fun e => (IQASpec.url e, e.login))).map Prod.fst =
      iqas.map IQASpec.url := by
    rw [List.map_map]
    rfl
  have hsnd : (iqas.map (fun e => (IQASpec.url e, e.login))).map Prod.snd =
      iqas.map IQASpec.login := by
    rw [List.map_map]
    rfl
  have hdiff : jsDifference (specPRList mains iqas) (iqas.map IQASpec.url) =
      mains.map PRSpec.url := by
    rw [specPRList]
    exact jsDifference_append_self _ _ hdisj
  have huniq : jsUniq (mains.map PRSpec.url) = mains.map PRSpec.url :=
    jsUniq_eq_self hparts.1
  have hsortmain := sortByUrlNumber_eval getPullRequestNumberFromURL PRSpec.url
    PRSpec.num mains (fun e he => prSpec_url_key (List.all_eq_true.1 hm e he))
  have huniqdb : jsUniq (specDB dbs) = specDB dbs :=
    jsUniq_eq_self (dbs_urls_nodup hd hnddb)
  have hsortdb : sortByUrlNumber getIssueOrPullRequestNumberFromURL (specDB dbs) =
      Except.ok ((sortByKey DBSpec.num dbs).map DBSpec.url) :=
    sortByUrlNumber_eval getIssueOrPullRequestNumberFromURL DBSpec.url
      DBSpec.num dbs (fun e he => dbSpec_url_key (List.all_eq_true.1 hd e he))
  have hlines : generateBodyLines (tagStr d1 d2 d3 opt4)
      ((sortByKey PRSpec.num mains).map PRSpec.url)
      (iqas.map (fun e => (IQASpec.url e, e.login))) (specDB dbs)
      ((sortByKey DBSpec.num dbs).map DBSpec.url)
      (jsUnion (specVerified mains) (noQAUrls extras)) (specResolvedIQA iqas)
      (specResolvedDB dbs) bT bF bG =
    specLinesG d1 d2 d3 opt4 (jsUnion (specVerified mains) (noQAUrls extras))
      (specResolvedIQA iqas) (specResolvedDB dbs) mains iqas dbs bT bF bG := by
    have e1 : ((sortByKey PRSpec.num mains).map PRSpec.url).isEmpty =
        mains.isEmpty := sortByKey_map_isEmpty PRSpec.num PRSpec.url mains
    have e2 : (iqas.map (fun e => (IQASpec.url e, e.login))).isEmpty =
        iqas.isEmpty := by
      cases iqas with
      | nil => rfl
      | cons a as => rfl
    have e3 : (specDB dbs).isEmpty = dbs.isEmpty := by
      cases dbs with
      | nil => rfl
      | cons a as => rfl
    have hmap1 : ((sortByKey PRSpec.num mains).map PRSpec.url).map
        (fun URL => checkbox (jsContains
          (jsUnion (specVerified mains) (noQAUrls extras)) URL) ++ [' '] ++ URL) =
        (sortByKey PRSpec.num mains).map
          (mainLineB (jsUnion (specVerified mains) (noQAUrls extras))) := by
      rw [List.map_map]
      rfl
    have hmap2 : (iqas.map (fun e => (IQASpec.url e, e.login))).map
        (fun p => checkbox (jsContains (specResolvedIQA iqas) p.1) ++ [' '] ++
          p.1 ++ lit " - @" ++ p.2) =
        iqas.map (iqaLineB (specResolvedIQA iqas)) := by
      rw [List.map_map]
      rfl
    have hmap3 : ((sortByKey DBSpec.num dbs).map DBSpec.url).map
        (fun URL => checkbox (jsContains (specResolvedDB dbs) URL) ++ [' '] ++
          URL) =
        (sortByKey DBSpec.num dbs).map (dbLineB (specResolvedDB dbs)) := by
      rw [List.map_map]
      rfl
    simp only [generateBodyLines, specLinesG, e1, e2, e3]
    rw [hmap1, hmap2, hmap3]
  simp only [classifyAndRender, Option.getD_some, hfilter, hfold, except_bind_ok,
    hfst, hnoqa, hdiff, huniq, hsortmain, huniqdb, hsortdb]
  rw [hlines, hsnd]
  rfl

/-- Document-order numbers of the main section of a rendered body. -/
theorem prLineNumbers_specBody {d1 d2 d3 : Str} {opt4 : Option Str}
    {V R RD : List Str} {mains : List PRSpec} {iqas : List IQASpec}
    {dbs : List DBSpec} {bT bF bG : Bool} (hok : tagOk d1 d2 d3 opt4 = true)
    (hm : mains.all PRSpec.ok = true) (hq : iqas.all IQASpec.ok = true)
    (hd : dbs.all DBSpec.ok = true) (hmne : mains ≠ []) :
    prLineNumbers (joinLinesCRLF
        (specLines d1 d2 d3 opt4 V R RD mains iqas dbs bT bF bG)) =
      (sortByKey PRSpec.num mains).map PRSpec.num := by
  have hsec := @prSectionOf_specBody d1 d2 d3 opt4 V R RD mains iqas dbs bT bF bG
    hok hm hq hd hmne
  simp only [prLineNumbers, hsec]
  rw [filterMap_map_comp]
  have hsome : ∀ e ∈ sortByKey PRSpec.num mains,
      (scanFirst prEntryAt (mainLineB V e)).map (fun m => m.2.2) =
        some (PRSpec.num e) := by
    intro e he
    have hoke := List.all_eq_true.1 hm e
      ((sortByKey_perm PRSpec.num mains).mem_iff.1 he)
    have hscan : scanFirst prEntryAt (mainLineB V e) =
        some (jsContains V (PRSpec.url e), PRSpec.url e, PRSpec.num e) := by
      show scanFirst prEntryAt (checkbox (jsContains V (PRSpec.url e)) ++ [' '] ++
        PRSpec.url e) = _
      exact scanFirst_prEntry_line (pullUrlAt_spec hoke)
    rw [hscan]
    rfl
  rw [filterMap_congr_some hsome]

/-- Document-order numbers of the deploy-blocker section of a rendered
body. -/
theorem dbLineNumbers_specBody {d1 d2 d3 : Str} {opt4 : Option Str}
    {V R RD : List Str} {mains : List PRSpec} {iqas : List IQASpec}
    {dbs : List DBSpec} {bT bF bG : Bool} (hok : tagOk d1 d2 d3 opt4 = true)
    (hm : mains.all PRSpec.ok = true) (hq : iqas.all IQASpec.ok = true)
    (hd : dbs.all DBSpec.ok = true) (hdne : dbs ≠ []) :
    deployBlockerLineNumbers (joinLinesCRLF
        (specLines d1 d2 d3 opt4 V R RD mains iqas dbs bT bF bG)) =
      (sortByKey DBSpec.num dbs).map DBSpec.num := by
  have hsec := @deployBlockerSectionOf_specBody d1 d2 d3 opt4 V R RD mains iqas dbs
    bT bF bG hok hm hq hd hdne
  simp only [deployBlockerLineNumbers, hsec]
  rw [filterMap_map_comp]
  have hsome : ∀ e ∈ sortByKey DBSpec.num dbs,
      (scanFirst (wsEntryAt issueOrPullUrlAt) (dbLineB RD e)).map (fun m => m.2.2) =
        some (DBSpec.num e) := by
    intro e he
    have hoke := List.all_eq_true.1 hd e
      ((sortByKey_perm DBSpec.num dbs).mem_iff.1 he)
    have hscan : scanFirst (wsEntryAt issueOrPullUrlAt) (dbLineB RD e) =
        some (jsContains RD (DBSpec.url e), DBSpec.url e, DBSpec.num e) := by
      show scanFirst (wsEntryAt issueOrPullUrlAt)
        (checkbox (jsContains RD (DBSpec.url e)) ++ [' '] ++ DBSpec.url e) = _
      exact scanFirst_wsEntry_line (issueOrPullUrlAt_spec hoke)
    rw [hscan]
    rfl
  rw [filterMap_congr_some hsome]

/-- Document-order numbers of the internal-QA section of a rendered body:
the fetched (map insertion) order, with no sort applied. -/
theorem iqaLineNumbers_specBody {d1 d2 d3 : Str} {opt4 : Option Str}
    {V R RD : List Str} {mains : List PRSpec} {iqas : List IQASpec}
    {dbs : List DBSpec} {bT bF bG : Bool} (hok : tagOk d1 d2 d3 opt4 = true)
    (hm : mains.all PRSpec.ok = true) (hq : iqas.all IQASpec.ok = true)
    (hd : dbs.all DBSpec.ok = true) (hqne : iqas ≠ []) :
    internalQALineNumbers (joinLinesCRLF
        (specLines d1 d2 d3 opt4 V R RD mains iqas dbs bT bF bG)) =
      iqas.map IQASpec.num := by
  have hsec := @internalQASectionOf_specBody d1 d2 d3 opt4 V R RD mains iqas dbs
    bT bF bG hok hm hq hd hqne
  simp only [internalQALineNumbers, hsec]
  rw [filterMap_map_comp]
  have hsome : ∀ e ∈ iqas,
      (scanFirst (wsEntryAt pullUrlAt) (iqaLineB R e)).map (fun m => m.2.2) =
        some (IQASpec.num e) := by
    intro e he
    have hoke := List.all_eq_true.1 hq e he
    have hsh : iqaLineB R e = checkbox (jsContains R (IQASpec.url e)) ++ [' '] ++
        (IQASpec.url e ++ (lit " - @" ++ e.login)) := by
      simp [iqaLineB, List.append_assoc]
    have hscan : scanFirst (wsEntryAt pullUrlAt) (iqaLineB R e) =
        some (jsContains R (IQASpec.url e),
          IQASpec.url e ++ (lit " - @" ++ e.login), IQASpec.num e) := by
      rw [hsh]
      exact scanFirst_wsEntry_line (pullUrlAt_iqa_annotated hoke)
    rw [hscan]
    rfl
  rw [filterMap_congr_some hsome]

theorem tagStr_filter_backtick {d1 d2 d3 : Str} {opt4 : Option Str}
    (hok : tagOk d1 d2 d3 opt4 = true) :
    (tagStr d1 d2 d3 opt4).filter (fun c => c ≠ '\x60') = tagStr d1 d2 d3 opt4 := by
  rw [List.filter_eq_self]
  intro c hc
  rcases tagStr_chars hok c hc with h | h | h
  · exact decide_eq_true (char_ne_of_true_false h (by decide))
  · rw [h]
    decide
  · rw [h]
    decide

theorem paginateRun_stop_at (stop : List PullRequest → Bool)
    (pages : List (List PullRequest)) (i : Nat) (hi : i < pages.length)
    (hhit : stop (pages.get ⟨i, hi⟩) = true)
    (hmiss : ∀ j, (hj : j < i) → stop (pages.get ⟨j, Nat.lt_trans hj hi⟩) = false) :
    paginateRun stop (pages.map Except.ok) =
      Except.ok ((pages.take (i + 1)).flatten, i + 1) := by
  induction pages generalizing i with
  | nil => exact absurd hi (by simp)
  | cons p ps ih =>
    cases i with
    | zero =>
      simp only [List.get] at hhit
      simp [paginateRun, hhit]
    | succ n =>
      have h0 : stop p = false := hmiss 0 (Nat.succ_pos n)
      have hhit' : stop (ps.get ⟨n, Nat.lt_of_succ_lt_succ hi⟩) = true := hhit
      have hmiss' : ∀ j, (hj : j < n) →
          stop (ps.get ⟨j, Nat.lt_trans hj (Nat.lt_of_succ_lt_succ hi)⟩) = false :=
        fun j hj => hmiss (j + 1) (Nat.succ_lt_succ hj)
      have := ih n (Nat.lt_of_succ_lt_succ hi) hhit' hmiss'
      simp [paginateRun, h0, this, List.take_succ_cons]

theorem paginateRun_error_of_mem (stop : List PullRequest → Bool)
    (pages : List (Except TransportFailure (List PullRequest)))
    (i : Nat) (hi : i < pages.length) (e : TransportFailure)
    (herr : pages.get ⟨i, hi⟩ = Except.error e)
    (hmiss : ∀ j, (hj : j < i) → ∀ p,
      pages.get ⟨j, Nat.lt_trans hj hi⟩ = Except.ok p → stop p = false) :
    ∃ e2, paginateRun stop pages = Except.error e2 := by
  induction pages generalizing i with
  | nil => exact absurd hi (by simp)
  | cons q qs ih =>
    cases i with
    | zero =>
      simp only [List.get] at herr
      subst herr
      exact ⟨e, rfl⟩
    | succ n =>
      cases hq : q with
      | error e0 => exact ⟨e0, by simp [paginateRun, hq]⟩
      | ok p =>
        have h0 : stop p = false := hmiss 0 (Nat.succ_pos n) p (by simpa using hq)
        have herr' : qs.get ⟨n, Nat.lt_of_succ_lt_succ hi⟩ = Except.error e := herr
        have hmiss' : ∀ j, (hj : j < n) → ∀ p2,
            qs.get ⟨j, Nat.lt_trans hj (Nat.lt_of_succ_lt_succ hi)⟩ = Except.ok p2 →
              stop p2 = false :=
          fun j hj p2 hp2 => hmiss (j + 1) (Nat.succ_lt_succ hj) p2 hp2
        obtain ⟨e2, he2⟩ := ih n (Nat.lt_of_succ_lt_succ hi) herr' hmiss'
        exact ⟨e2, by simp [paginateRun, hq, h0, he2]⟩

/-! ## Claim theorems -/

/-- C3: the claim states that a client that always returns a rate-limit
signal makes the rate-limited client perform exactly 6 attempts
(5 retries) and then surface `RateLimitExceeded`; the source's own
comment (`// Retry five times when hitting a rate limit error, then give
up`) states the same intent.  The code, however, retries whenever
`options.request.retryCount <= 5`, and the throttling plugin passes
`retryCount = 0` on the first failure, so the condition grants six
retries: whenever at least 7 attempts of fuel are available, the client
performs exactly 7 attempts, not 6, before failing with
`RateLimitExceeded`. -/
theorem runThrottled_alwaysRateLimited (fuel : Nat) (h : 7 ≤ fuel) :
    runThrottled alwaysRateLimited fuel = (CallOutcome.rateLimitExceeded, 7) ∧
      (runThrottled alwaysRateLimited fuel).2 ≠ 6 := by
  obtain ⟨n, rfl⟩ : ∃ n, fuel = n + 7 := ⟨fuel - 7, by omega⟩
  have hrun : runThrottled alwaysRateLimited (n + 7) =
      (CallOutcome.rateLimitExceeded, 7) := rfl
  exact ⟨hrun, by rw [hrun]; decide⟩

/-- C3 witness: the failing scenario at concrete fuel. -/
theorem runThrottled_alwaysRateLimited_witness :
    runThrottled alwaysRateLimited 100 = (CallOutcome.rateLimitExceeded, 7) :=
  (runThrottled_alwaysRateLimited 100 (by decide)).1

/-- C8: `getStagingDeployCash` fails with the 404 not-found error for
zero open `StagingDeployCash` issues, with the 500 ambiguous-state error
for two or more, and otherwise resolves with
`getStagingDeployCashData` of the single issue (whose own parse failure
is the malformed-ticket error). -/
theorem getStagingDeployCash_single_ticket_invariant (issues : List Issue) :
    (issues = [] → getStagingDeployCash issues = .error .notFound) ∧
    (2 ≤ issues.length → getStagingDeployCash issues = .error .ambiguousState) ∧
    (∀ issue, issues = [issue] →
      getStagingDeployCash issues =
        match getStagingDeployCashData issue with
        | some d => .ok d
        | none => .error .malformedTicket) := by
  refine ⟨fun h => by subst h; rfl, fun h => ?_, fun issue h => by subst h; rfl⟩
  match issues, h with
  | _ :: _ :: _, _ => rfl

/-- C8 witness: the three branches at concrete inputs. -/
theorem getStagingDeployCash_single_ticket_invariant_witness :
    getStagingDeployCash [] = .error .notFound ∧
    getStagingDeployCash
        [{ title := [], url := [], labels := [], body := [] },
         { title := [], url := [], labels := [], body := [] }] =
      .error .ambiguousState ∧
    getStagingDeployCash [{ title := [], url := [], labels := [], body := [] }] =
      .error .malformedTicket := by
  refine ⟨(getStagingDeployCash_single_ticket_invariant []).1 rfl,
    (getStagingDeployCash_single_ticket_invariant _).2.1 (by decide), ?_⟩
  exact ((getStagingDeployCash_single_ticket_invariant _).2.2 _ rfl).trans (by decide)

/-- C5: the paginated pull-request fetcher issues descending-by-creation
page requests of size 100; as soon as a fetched page contains the minimum
of the requested number set it stops (having issued exactly `i + 1`
requests when the first such page is page `i`, zero-based); the
accumulated items are filtered down to exactly the requested numbers; a
requested number that was never observed is silently absent from the (non
error) result; and with the minimum on the third page at most four
requests are issued. -/
theorem fetchAllPullRequests_early_stop
    (pages : List (List PullRequest)) (numbers : List Nat) (m : Nat)
    (hold : oldestPROf numbers = some m)
    (i : Nat) (hi : i < pages.length)
    (hhit : pageHasOldest (some m) (pages.get ⟨i, hi⟩) = true)
    (hmiss : ∀ j, (hj : j < i) →
      pageHasOldest (some m) (pages.get ⟨j, Nat.lt_trans hj hi⟩) = false) :
    fetchAllPullRequestsParams.sort = lit "created" ∧
    fetchAllPullRequestsParams.direction = lit "desc" ∧
    fetchAllPullRequestsParams.per_page = 100 ∧
    fetchAllPullRequests (pages.map Except.ok) numbers =
      some (((pages.take (i + 1)).flatten).filter
          (fun pr => jsContains numbers pr.number), i + 1) ∧
    (∀ n, n ∈ numbers →
      (∀ pr, pr ∈ (pages.take (i + 1)).flatten → pr.number ≠ n) →
      ∀ pr, pr ∈ ((pages.take (i + 1)).flatten).filter
          (fun pr => jsContains numbers pr.number) → pr.number ≠ n) ∧
    (i = 2 → i + 1 ≤ 4) := by
  refine ⟨rfl, rfl, rfl, ?_, ?_, by omega⟩
  · unfold fetchAllPullRequests
    rw [hold, paginateRun_stop_at (pageHasOldest (some m)) pages i hi hhit hmiss]
  · intro n _ habs pr hpr
    exact habs pr (List.mem_of_mem_filter hpr)

/-- C5 witness: a five-page listing, requested numbers `[9, 5]`, minimum
`5` first appearing on page 3 (index 2): three page requests, result
filtered to the requested set, and `9` (observed) is kept while any
number never observed is absent. -/
theorem fetchAllPullRequests_early_stop_witness :
    fetchAllPullRequests (c5Pages.map Except.ok) [9, 5] =
      some ([barePR 9, barePR 5], 3) := by
  have h := (fetchAllPullRequests_early_stop c5Pages [9, 5] 5 (by decide) 2
    (by decide) (by decide) (by decide)).2.2.2.1
  exact h.trans (by decide)

/-- C2 counterexample: the claim states that when the underlying
pull-request fetch fails, the fetch and the whole body-generation
operation fail as a whole and the failure is reported to the caller.  On
the code, a transport failure of the very first page request is caught by
`fetchAllPullRequests`'s `.catch` (which only logs), the fetch resolves
with `undefined`, and `generateStagingDeployCashBody` completes,
resolving with a generated issue body: no failure reaches the caller. -/
theorem generate_fetch_failure_swallowed_cex :
    fetchAllPullRequests [Except.error { message := lit "HTTP 503" }] [1] = none ∧
    ∃ g, generateStagingDeployCashBody
        [Except.error { message := lit "HTTP 503" }] (lit "1.2.3")
        [lit "https://github.com/Expensify/App/pull/1"] [] [] [] []
        false false false = .ok (some g) := by
  exact ⟨rfl, ⟨_, rfl⟩⟩

/-- C2 as amended: if a requested page fails at the transport level, the
failure is caught and logged, `fetchAllPullRequests` resolves with
`undefined` (`none`), and `generateStagingDeployCashBody` completes
normally with the result computed as if no PR metadata had been fetched
(the `.then` callback receives `undefined`); no failure is reported to
the caller. -/
theorem generate_fetch_failure_swallowed (pages : List (Except TransportFailure (List PullRequest)))
    (tag : Str) (PRList verifiedPRList deployBlockers resolvedDeployBlockers
      resolvedInternalQAPRs : List Str)
    (c1 c2 c3 : Bool) (numbers : List Nat)
    (hnums : PRList.mapM getPullRequestNumberFromURL = some numbers)
    (e : TransportFailure)
    (hfail : paginateRun (pageHasOldest (oldestPROf numbers)) pages = .error e) :
    fetchAllPullRequests pages numbers = none ∧
    generateStagingDeployCashBody pages tag PRList verifiedPRList deployBlockers
        resolvedDeployBlockers resolvedInternalQAPRs c1 c2 c3 =
      .ok (match classifyAndRender none tag PRList verifiedPRList deployBlockers
              resolvedDeployBlockers resolvedInternalQAPRs c1 c2 c3 with
            | .ok issue => some issue
            | .error _ => none) := by
  have hfetch : fetchAllPullRequests pages numbers = none := by
    unfold fetchAllPullRequests
    rw [hfail]
  refine ⟨hfetch, ?_⟩
  unfold generateStagingDeployCashBody
  rw [hnums]
  dsimp only
  rw [hfetch]
  rfl

/-- C2 witness for the amended statement, at the counterexample-style
concrete input (distinct constants from the counterexample's). -/
theorem generate_fetch_failure_swallowed_witness :
    fetchAllPullRequests [Except.error { message := lit "boom" }] [2] = none ∧
    generateStagingDeployCashBody [Except.error { message := lit "boom" }]
        (lit "5.6.7") [lit "https://github.com/Expensify/App/pull/2"]
        [] [] [] [] false false false =
      .ok (match classifyAndRender none (lit "5.6.7")
              [lit "https://github.com/Expensify/App/pull/2"] [] [] [] []
              false false false with
            | .ok issue => some issue
            | .error _ => none) :=
  generate_fetch_failure_swallowed [Except.error { message := lit "boom" }]
    (lit "5.6.7") [lit "https://github.com/Expensify/App/pull/2"] [] [] [] []
    false false false [2] (by decide) { message := lit "boom" } (by decide)

/-- C9: with the ticket's own URL canonical, `getStagingDeployCashData`
fails with the malformed-ticket error exactly when no version token
`N.N.N[-N]` occurs anywhere in the body; and a body in which one of the
three named sections is missing parses successfully with the
corresponding list empty, not an error. -/
theorem parse_malformed_iff_no_tag (t : Str) (ls : List Str) (body : Str)
    (torg trepo tds : Str) (horg : segOk torg = true)
    (hrepo : segOk trepo = true) (hds : allDigits tds = true) :
    (getStagingDeployCashData
        { title := t, url := issueUrl torg trepo tds, labels := ls,
          body := body } = none ↔ firstVersionMatch body = none) ∧
    (∀ d, getStagingDeployCashData
        { title := t, url := issueUrl torg trepo tds, labels := ls,
          body := body } = some d →
      (prSectionOf body = none → d.PRList = []) ∧
      (deployBlockerSectionOf body = none → d.deployBlockers = []) ∧
      (internalQASectionOf body = none → d.internalQAPRList = [])) := by
  have hU := getIssueOrPullRequestNumberFromURL_issue horg hrepo hds
  constructor
  · constructor
    · intro hnone
      cases hv : firstVersionMatch body with
      | none => rfl
      | some tag => simp [getStagingDeployCashData, hv, hU] at hnone
    · intro hv
      simp [getStagingDeployCashData, hv]
  · intro d hd2
    cases hv : firstVersionMatch body with
    | none => simp [getStagingDeployCashData, hv] at hd2
    | some tag =>
      simp only [getStagingDeployCashData, hv, hU] at hd2
      have hd3 := Option.some.inj hd2
      refine ⟨fun hs => ?_, fun hs => ?_, fun hs => ?_⟩
      · rw [← hd3]
        show getStagingDeployCashPRList body = []
        simp [getStagingDeployCashPRList, hs]
      · rw [← hd3]
        show getStagingDeployCashDeployBlockers body = []
        simp [getStagingDeployCashDeployBlockers, hs]
      · rw [← hd3]
        show getStagingDeployCashInternalQA body = []
        simp [getStagingDeployCashInternalQA, hs]

/-- C9 witness: a body consisting of a lone version token and no section
at all. -/
theorem parse_malformed_iff_no_tag_witness :
    ((getStagingDeployCashData
        { title := [], url := issueUrl (lit "Org") (lit "App") (lit "7"),
          labels := [], body := lit "9.9.9" } = none ↔
      firstVersionMatch (lit "9.9.9") = none) ∧
    (∀ d, getStagingDeployCashData
        { title := [], url := issueUrl (lit "Org") (lit "App") (lit "7"),
          labels := [], body := lit "9.9.9" } = some d →
      (prSectionOf (lit "9.9.9") = none → d.PRList = []) ∧
      (deployBlockerSectionOf (lit "9.9.9") = none → d.deployBlockers = []) ∧
      (internalQASectionOf (lit "9.9.9") = none → d.internalQAPRList = []))) :=
  parse_malformed_iff_no_tag [] [] (lit "9.9.9") (lit "Org") (lit "App")
    (lit "7") (by decide) (by decide) (by decide)

/-- C6 counterexample: the claim states that re-parsing an internal-QA
line reads the trailing `@mention` back as the entry's assignee.  On the
code, `getStagingDeployCashInternalQA` produces objects carrying `url`,
`number` and `isResolved` only — two section bodies differing solely in
the mention parse to the same (nonempty) entry list, so no assignee is
read back from the document text. -/
theorem internalQA_mention_not_read_back_cex :
    getStagingDeployCashInternalQA (joinLinesCRLF
      [internalQAHeaderLine,
       lit "- [x] https://github.com/Org/App/pull/55 - @alice"]) =
      getStagingDeployCashInternalQA (joinLinesCRLF
        [internalQAHeaderLine,
         lit "- [x] https://github.com/Org/App/pull/55 - @bob"]) ∧
    getStagingDeployCashInternalQA (joinLinesCRLF
      [internalQAHeaderLine,
       lit "- [x] https://github.com/Org/App/pull/55 - @alice"]) =
      [{ url := lit "https://github.com/Org/App/pull/55", number := 55,
         isResolved := true }] := by
  constructor
  · decide
  · decide

/-- C6 as amended: re-parsing an internal-QA line
`- [x|space] <url> - @<mention>` yields an entry whose `url` is the URL
with the trailing dash-separated assignee annotation parsed off and whose
`number` and `isResolved` come from the URL and the checkbox; the
`@mention` itself is dropped — the parsed object has no assignee field
and the result does not depend on the mention. -/
theorem internalQA_entry_roundtrip (org repo ds login : Str) (b : Bool)
    (horg : segOk org = true) (hrepo : segOk repo = true)
    (hds : allDigits ds = true) (hlogin : mentionOk login = true)
    (horgd : '-' ∉ org) (hrepod : '-' ∉ repo) :
    getStagingDeployCashInternalQA (joinLinesCRLF
      [internalQAHeaderLine,
       checkbox b ++ [' '] ++ pullUrl org repo ds ++ lit " - @" ++ login]) =
    [{ url := pullUrl org repo ds, number := digitsToNat ds,
       isResolved := b }] := by
  have hTall : (pullUrl org repo ds ++ (lit " - @" ++ login)).all isDotCh = true := by
    refine List.all_eq_true.2 (fun c hc => ?_)
    rcases List.mem_append.1 hc with h1 | h1
    · exact pullUrl_all_isDotCh horg hrepo hds c h1
    · rcases List.mem_append.1 h1 with h2 | h2
      · exact (by decide : ∀ x ∈ (lit " - @" : Str), isDotCh x = true) c h2
      · exact mention_all_isDotCh hlogin c h2
  have hdnl : ∀ l ∈ [internalQAHeaderLine,
      checkbox b ++ [' '] ++ pullUrl org repo ds ++ lit " - @" ++ login],
      '\n' ∉ l := by
    intro l hl
    rcases List.mem_cons.1 hl with rfl | hl2
    · decide
    · rcases List.mem_cons.1 hl2 with rfl | hl3
      · intro hmem
        have hsh0 : checkbox b ++ [' '] ++ pullUrl org repo ds ++ lit " - @" ++
            login = (checkbox b ++ [' ']) ++
              (pullUrl org repo ds ++ (lit " - @" ++ login)) := by
          simp [List.append_assoc]
        rw [hsh0] at hmem
        rcases List.mem_append.1 hmem with h1 | h1
        · rcases List.mem_append.1 h1 with h2 | h2
          · cases b <;> revert h2 <;> decide
          · exact absurd h2 (by decide)
        · exact not_newline_of_isDotCh (List.all_eq_true.1 hTall) h1
      · exact absurd hl3 (List.not_mem_nil l)
  have hline : isInternalQALine ((checkbox b ++ [' '] ++ pullUrl org repo ds ++
      lit " - @" ++ login) ++ ['\r']) = true := by
    have hsh : checkbox b ++ [' '] ++ pullUrl org repo ds ++ lit " - @" ++
        login = checkbox b ++ ([' '] ++
          (pullUrl org repo ds ++ (lit " - @" ++ login))) := by
      simp [List.append_assoc]
    rw [hsh]
    exact isInternalQALine_entry b hTall
  have hsec : internalQASectionOf (joinLinesCRLF
      [internalQAHeaderLine,
       checkbox b ++ [' '] ++ pullUrl org repo ds ++ lit " - @" ++ login]) =
      some [checkbox b ++ [' '] ++ pullUrl org repo ds ++ lit " - @" ++ login] := by
    rw [internalQASectionOf, completeLines_joinLinesCRLF hdnl]
    simp only [List.map_cons, List.map_nil]
    have hhit : endsWithLit (lit "Internal QA:**")
        (stripCR (internalQAHeaderLine ++ ['\r'])) = true := by
      rw [stripCR_concat]
      decide
    have hblock : ([(checkbox b ++ [' '] ++ pullUrl org repo ds ++
        lit " - @" ++ login) ++ ['\r']] : List Str).takeWhile isInternalQALine =
        [(checkbox b ++ [' '] ++ pullUrl org repo ds ++ lit " - @" ++ login) ++
          ['\r']] := by
      rw [List.takeWhile_cons_of_pos hline]
      rfl
    have hblank : (!false || blankAfter
        [(checkbox b ++ [' '] ++ pullUrl org repo ds ++ lit " - @" ++ login) ++
          ['\r']]
        [(checkbox b ++ [' '] ++ pullUrl org repo ds ++ lit " - @" ++ login) ++
          ['\r']]) = true := rfl
    rw [findSectionFrom_hit hhit hblock rfl hblank]
    show some [stripCR ((checkbox b ++ [' '] ++ pullUrl org repo ds ++
      lit " - @" ++ login) ++ ['\r'])] = _
    rw [stripCR_concat]
  simp only [getStagingDeployCashInternalQA, hsec]
  have hpu : pullUrlAt (pullUrl org repo ds ++ (lit " - @" ++ login)) =
      some (digitsToNat ds) := by
    refine pullUrlAt_canonical horg hrepo hds ?_ ?_
    · intro hmem
      rcases List.mem_append.1 hmem with h5 | h5
      · exact absurd h5 (by decide)
      · exact mentionOk_no_slash hlogin h5
    · intro c hc
      have h6 : (lit " - @" ++ login : Str).head? = some ' ' := rfl
      rw [h6] at hc
      rw [← Option.some.inj hc]
      decide
  have hscan : scanFirst (wsEntryAt pullUrlAt)
      (checkbox b ++ [' '] ++ pullUrl org repo ds ++ lit " - @" ++ login) =
      some (b, pullUrl org repo ds ++ (lit " - @" ++ login), digitsToNat ds) := by
    have hsh2 : checkbox b ++ [' '] ++ pullUrl org repo ds ++ lit " - @" ++
        login = checkbox b ++ [' '] ++
          (pullUrl org repo ds ++ (lit " - @" ++ login)) := by
      simp [List.append_assoc]
    rw [hsh2]
    exact scanFirst_wsEntry_line hpu
  have hurl : jsTrim (splitDashHead (pullUrl org repo ds ++
      (lit " - @" ++ login))) = pullUrl org repo ds := by
    have h0 : pullUrl org repo ds ++ (lit " - @" ++ login) =
        pullUrl org repo ds ++ lit " - @" ++ login := by
      simp [List.append_assoc]
    have hnd : '-' ∉ pullUrl org repo ds :=
      keyUrl_not_mem2 hds (by decide) (by decide) (by decide) horgd hrepod
        (by decide) (by decide)
    rw [h0, splitDashHead_annotated hnd login]
    refine jsTrim_append_space ?_ ?_
    · intro c hc
      have h1 : (pullUrl org repo ds).head? = some 'h' := rfl
      rw [h1] at hc
      rw [← Option.some.inj hc]
      decide
    · intro c hc
      exact isWsCh_false_of_digit (keyUrl_last_digit hds c hc)
  rw [List.filterMap_cons, hscan]
  show sortByKey InternalQAEntry.number
    ({ url := jsTrim (splitDashHead (pullUrl org repo ds ++
         (lit " - @" ++ login))), number := digitsToNat ds,
       isResolved := b } :: List.filterMap _ []) = _
  rw [hurl, List.filterMap_nil]
  rfl

/-- C4 counterexample: the claim states that an explicit ascending-number
sort is applied to every rendered list, including the internal-QA list.
On the code, the internal-QA section is emitted by iterating the
`internalQAPRMap` object in insertion order — the order the records were
fetched — with no sort: with internal-QA PRs fetched in the order 5, 3,
the rendered body lists them as `[5, 3]`, which is not ascending. -/
theorem render_internalQA_unsorted_cex :
    (match generateStagingDeployCashBody
        [Except.ok [iqaRecord { org := lit "Org", repo := lit "App",
                                ds := lit "5", resolved := false,
                                login := lit "alice" },
                    iqaRecord { org := lit "Org", repo := lit "App",
                                ds := lit "3", resolved := false,
                                login := lit "bob" }]]
        (lit "1.0.0")
        [lit "https://github.com/Org/App/pull/9",
         lit "https://github.com/Org/App/pull/5",
         lit "https://github.com/Org/App/pull/3"]
        [] [lit "https://github.com/Org/App/issues/2"] [] []
        false false false with
      | Except.ok (some g) => some (internalQALineNumbers g.issueBody)
      | _ => none) = some [5, 3] ∧
    ¬ List.Pairwise (fun a b => a ≤ b) [5, 3] := by
  constructor
  · decide
  · decide

/-- C4 as amended: in a rendered body the main-PR and deploy-blocker
lists are sorted ascending by the number extracted from each entry's URL
(and deduplicated), but the internal-QA list is emitted in the map's
insertion order — the fetched order — with no sort applied to it. -/
theorem render_ordering (d1 d2 d3 : Str) (opt4 : Option Str)
    (mains : List PRSpec) (iqas : List IQASpec) (dbs : List DBSpec)
    (extras : List PullRequest) (bT bF bG : Bool)
    (hok : tagOk d1 d2 d3 opt4 = true)
    (hm : mains.all PRSpec.ok = true) (hq : iqas.all IQASpec.ok = true)
    (hd : dbs.all DBSpec.ok = true)
    (hnd : ((mains.map PRSpec.num) ++ (iqas.map IQASpec.num)).Nodup)
    (hnddb : (dbs.map DBSpec.num).Nodup)
    (hex : ∀ pr ∈ extras, jsContains pr.labels INTERNAL_QA_LABEL = false)
    (hmne : mains ≠ []) (hqne : iqas ≠ []) (hdne : dbs ≠ []) :
    ∃ issue,
      classifyAndRender (some (iqas.map iqaRecord ++ extras))
          (tagStr d1 d2 d3 opt4) (specPRList mains iqas) (specVerified mains)
          (specDB dbs) (specResolvedDB dbs) (specResolvedIQA iqas) bT bF bG =
        Except.ok issue ∧
      prLineNumbers issue.issueBody =
        (sortByKey PRSpec.num mains).map PRSpec.num ∧
      List.Pairwise (fun a b => a ≤ b) (prLineNumbers issue.issueBody) ∧
      deployBlockerLineNumbers issue.issueBody =
        (sortByKey DBSpec.num dbs).map DBSpec.num ∧
      List.Pairwise (fun a b => a ≤ b)
        (deployBlockerLineNumbers issue.issueBody) ∧
      internalQALineNumbers issue.issueBody = iqas.map IQASpec.num := by
  have hce := classifyAndRender_eval d1 d2 d3 opt4 mains iqas dbs extras bT bF bG
    hm hq hd hnd hnddb hex hmne hqne hdne
  refine ⟨_, hce, ?_, ?_, ?_, ?_, ?_⟩
  · exact prLineNumbers_specBody hok hm hq hd hmne
  · show List.Pairwise (fun a b => a ≤ b) (prLineNumbers (joinLinesCRLF
      (specLines d1 d2 d3 opt4 (jsUnion (specVerified mains) (noQAUrls extras))
        (specResolvedIQA iqas) (specResolvedDB dbs) mains iqas dbs bT bF bG)))
    rw [prLineNumbers_specBody hok hm hq hd hmne, List.pairwise_map]
    exact sortByKey_sorted PRSpec.num mains
  · exact dbLineNumbers_specBody hok hm hq hd hdne
  · show List.Pairwise (fun a b => a ≤ b) (deployBlockerLineNumbers (joinLinesCRLF
      (specLines d1 d2 d3 opt4 (jsUnion (specVerified mains) (noQAUrls extras))
        (specResolvedIQA iqas) (specResolvedDB dbs) mains iqas dbs bT bF bG)))
    rw [dbLineNumbers_specBody hok hm hq hd hdne, List.pairwise_map]
    exact sortByKey_sorted DBSpec.num dbs
  · exact iqaLineNumbers_specBody hok hm hq hd hqne

/-- C4 witness for the amended statement. -/
theorem render_ordering_witness :
    ∃ issue,
      classifyAndRender
          (some (([{ org := lit "Org", repo := lit "App", ds := lit "5",
                     resolved := false, login := lit "alice" },
                   { org := lit "Org", repo := lit "App", ds := lit "3",
                     resolved := false, login := lit "bob" }] :
              List IQASpec).map iqaRecord ++ []))
          (tagStr (lit "1") (lit "0") (lit "0") none)
          (specPRList [{ org := lit "Org", repo := lit "App", ds := lit "9",
                         verified := false }]
            [{ org := lit "Org", repo := lit "App", ds := lit "5",
               resolved := false, login := lit "alice" },
             { org := lit "Org", repo := lit "App", ds := lit "3",
               resolved := false, login := lit "bob" }])
          (specVerified [{ org := lit "Org", repo := lit "App", ds := lit "9",
                           verified := false }])
          (specDB [{ isPull := true, org := lit "Org", repo := lit "App",
                     ds := lit "2", resolved := false }])
          (specResolvedDB [{ isPull := true, org := lit "Org",
                             repo := lit "App", ds := lit "2",
                             resolved := false }])
          (specResolvedIQA
            [{ org := lit "Org", repo := lit "App", ds := lit "5",
               resolved := false, login := lit "alice" },
             { org := lit "Org", repo := lit "App", ds := lit "3",
               resolved := false, login := lit "bob" }]) false false false =
        Except.ok issue ∧
      prLineNumbers issue.issueBody =
        (sortByKey PRSpec.num
          [{ org := lit "Org", repo := lit "App", ds := lit "9",
             verified := false }]).map PRSpec.num ∧
      List.Pairwise (fun a b => a ≤ b) (prLineNumbers issue.issueBody) ∧
      deployBlockerLineNumbers issue.issueBody =
        (sortByKey DBSpec.num
          [{ isPull := true, org := lit "Org", repo := lit "App",
             ds := lit "2", resolved := false }]).map DBSpec.num ∧
      List.Pairwise (fun a b => a ≤ b)
        (deployBlockerLineNumbers issue.issueBody) ∧
      internalQALineNumbers issue.issueBody =
        ([{ org := lit "Org", repo := lit "App", ds := lit "5",
            resolved := false, login := lit "alice" },
          { org := lit "Org", repo := lit "App", ds := lit "3",
            resolved := false, login := lit "bob" }] :
          List IQASpec).map IQASpec.num :=
  render_ordering (lit "1") (lit "0") (lit "0") none
    [{ org := lit "Org", repo := lit "App", ds := lit "9", verified := false }]
    [{ org := lit "Org", repo := lit "App", ds := lit "5", resolved := false,
       login := lit "alice" },
     { org := lit "Org", repo := lit "App", ds := lit "3", resolved := false,
       login := lit "bob" }]
    [{ isPull := true, org := lit "Org", repo := lit "App", ds := lit "2",
       resolved := false }]
    [] false false false (by decide) (by decide) (by decide) (by decide)
    (by decide) (by decide) (by decide) (by decide) (by decide) (by decide)

/-- C7 counterexample: the claim concludes that no PR number appears in
both the main list and the internal-QA list of one rendered body.  The
main list is computed as a set difference of URLs, not of numbers: with a
main PR and an internal-QA PR in different repositories sharing the
number 5, one rendered body lists the number 5 in both sections. -/
theorem main_iqa_number_collision_cex :
    (match generateStagingDeployCashBody
        [Except.ok [iqaRecord { org := lit "Org", repo := lit "RepoB",
                                ds := lit "5", resolved := false,
                                login := lit "alice" }]]
        (lit "1.0.0")
        [lit "https://github.com/Org/RepoA/pull/5",
         lit "https://github.com/Org/RepoB/pull/5"]
        [] [lit "https://github.com/Org/App/issues/2"] [] []
        false false false with
      | Except.ok (some g) =>
        some (prLineNumbers g.issueBody, internalQALineNumbers g.issueBody)
      | _ => none) = some ([5], [5]) := by
  decide

/-- C7 as amended: the main list is the caller-supplied PR URL set minus
the internal-QA URL set, deduplicated and sorted ascending by number; a
main-list line's checkbox state is membership of its URL in the union of
the caller-supplied verified set and the no-QA set; and the rendered
numbers of the main and internal-QA sections are disjoint when — and in
general only when — the URLs' numbers are distinct across the two
collections. -/
theorem mainList_difference_union (d1 d2 d3 : Str) (opt4 : Option Str)
    (mains : List PRSpec) (iqas : List IQASpec) (dbs : List DBSpec)
    (extras : List PullRequest) (bT bF bG : Bool)
    (hok : tagOk d1 d2 d3 opt4 = true)
    (hm : mains.all PRSpec.ok = true) (hq : iqas.all IQASpec.ok = true)
    (hd : dbs.all DBSpec.ok = true)
    (hnd : ((mains.map PRSpec.num) ++ (iqas.map IQASpec.num)).Nodup)
    (hnddb : (dbs.map DBSpec.num).Nodup)
    (hex : ∀ pr ∈ extras, jsContains pr.labels INTERNAL_QA_LABEL = false)
    (hmne : mains ≠ []) (hqne : iqas ≠ []) (hdne : dbs ≠ []) :
    sortByUrlNumber getPullRequestNumberFromURL
        (jsUniq (jsDifference (specPRList mains iqas) (iqas.map IQASpec.url))) =
      Except.ok ((sortByKey PRSpec.num mains).map PRSpec.url) ∧
    (∀ e ∈ mains,
      (jsContains (jsUnion (specVerified mains) (noQAUrls extras))
          (PRSpec.url e) = true ↔
        PRSpec.url e ∈ specVerified mains ∨ PRSpec.url e ∈ noQAUrls extras)) ∧
    ∃ issue,
      classifyAndRender (some (iqas.map iqaRecord ++ extras))
          (tagStr d1 d2 d3 opt4) (specPRList mains iqas) (specVerified mains)
          (specDB dbs) (specResolvedDB dbs) (specResolvedIQA iqas) bT bF bG =
        Except.ok issue ∧
      ∀ n, n ∈ prLineNumbers issue.issueBody →
        n ∉ internalQALineNumbers issue.issueBody := by
  have hplnd := specPRList_nodup hm hq hnd
  have hparts := List.nodup_append.1 (by rwa [specPRList] at hplnd)
  have hdisj : ∀ u ∈ mains.map PRSpec.url, u ∉ iqas.map IQASpec.url :=
    fun u hu hv => hparts.2.2 hu hv
  have hdiff : jsDifference (specPRList mains iqas) (iqas.map IQASpec.url) =
      mains.map PRSpec.url := by
    rw [specPRList]
    exact jsDifference_append_self _ _ hdisj
  have huniq : jsUniq (mains.map PRSpec.url) = mains.map PRSpec.url :=
    jsUniq_eq_self hparts.1
  have hsortmain := sortByUrlNumber_eval getPullRequestNumberFromURL PRSpec.url
    PRSpec.num mains (fun e he => prSpec_url_key (List.all_eq_true.1 hm e he))
  refine ⟨?_, ?_, ?_⟩
  · rw [hdiff, huniq]
    exact hsortmain
  · exact fun e _ => jsContains_iff.trans (jsUnion_mem _ _ _)
  · have hce := classifyAndRender_eval d1 d2 d3 opt4 mains iqas dbs extras
      bT bF bG hm hq hd hnd hnddb hex hmne hqne hdne
    refine ⟨_, hce, ?_⟩
    have h1 := @prLineNumbers_specBody d1 d2 d3 opt4
      (jsUnion (specVerified mains) (noQAUrls extras)) (specResolvedIQA iqas)
      (specResolvedDB dbs) mains iqas dbs bT bF bG hok hm hq hd hmne
    have h2 := @iqaLineNumbers_specBody d1 d2 d3 opt4
      (jsUnion (specVerified mains) (noQAUrls extras)) (specResolvedIQA iqas)
      (specResolvedDB dbs) mains iqas dbs bT bF bG hok hm hq hd hqne
    intro n hn hniqa
    have hn2 : n ∈ (sortByKey PRSpec.num mains).map PRSpec.num := by
      rw [← h1]
      exact hn
    have hq2 : n ∈ iqas.map IQASpec.num := by
      rw [← h2]
      exact hniqa
    exact List.disjoint_of_nodup_append hnd
      (((sortByKey_perm PRSpec.num mains).map PRSpec.num).mem_iff.1 hn2) hq2

/-- C7 witness for the amended statement. -/
theorem mainList_difference_union_witness :
    sortByUrlNumber getPullRequestNumberFromURL
        (jsUniq (jsDifference
          (specPRList [{ org := lit "Org", repo := lit "App", ds := lit "8",
                         verified := true }]
            [{ org := lit "Org", repo := lit "App", ds := lit "6",
               resolved := true, login := lit "dana" }])
          (([{ org := lit "Org", repo := lit "App", ds := lit "6",
               resolved := true, login := lit "dana" }] :
              List IQASpec).map IQASpec.url))) =
      Except.ok ((sortByKey PRSpec.num
        [{ org := lit "Org", repo := lit "App", ds := lit "8",
           verified := true }]).map PRSpec.url) ∧
    (∀ e ∈ ([{ org := lit "Org", repo := lit "App", ds := lit "8",
               verified := true }] : List PRSpec),
      (jsContains (jsUnion (specVerified
            [{ org := lit "Org", repo := lit "App", ds := lit "8",
               verified := true }])
          (noQAUrls [])) (PRSpec.url e) = true ↔
        PRSpec.url e ∈ specVerified
          [{ org := lit "Org", repo := lit "App", ds := lit "8",
             verified := true }] ∨
        PRSpec.url e ∈ noQAUrls [])) ∧
    ∃ issue,
      classifyAndRender
          (some (([{ org := lit "Org", repo := lit "App", ds := lit "6",
                     resolved := true, login := lit "dana" }] :
              List IQASpec).map iqaRecord ++ []))
          (tagStr (lit "2") (lit "1") (lit "0") none)
          (specPRList [{ org := lit "Org", repo := lit "App", ds := lit "8",
                         verified := true }]
            [{ org := lit "Org", repo := lit "App", ds := lit "6",
               resolved := true, login := lit "dana" }])
          (specVerified [{ org := lit "Org", repo := lit "App", ds := lit "8",
                           verified := true }])
          (specDB [{ isPull := false, org := lit "Org", repo := lit "App",
                     ds := lit "4", resolved := true }])
          (specResolvedDB [{ isPull := false, org := lit "Org",
                             repo := lit "App", ds := lit "4",
                             resolved := true }])
          (specResolvedIQA [{ org := lit "Org", repo := lit "App",
                              ds := lit "6", resolved := true,
                              login := lit "dana" }]) true true true =
        Except.ok issue ∧
      ∀ n, n ∈ prLineNumbers issue.issueBody →
        n ∉ internalQALineNumbers issue.issueBody :=
  mainList_difference_union (lit "2") (lit "1") (lit "0") none
    [{ org := lit "Org", repo := lit "App", ds := lit "8", verified := true }]
    [{ org := lit "Org", repo := lit "App", ds := lit "6", resolved := true,
       login := lit "dana" }]
    [{ isPull := false, org := lit "Org", repo := lit "App", ds := lit "4",
       resolved := true }]
    [] true true true (by decide) (by decide) (by decide) (by decide)
    (by decide) (by decide) (by decide) (by decide) (by decide) (by decide)

/-- C1 counterexample: the claim states that for every document whose
entry URLs match the platform URL shape and whose lists are unique by
number, parsing the rendered body reconstructs the fed-in entries.  An
internal-QA URL whose organisation segment contains a dash is a
well-formed platform URL, but the parser recovers the entry URL with
`split('-')[0].trim()`, which truncates it at the first dash: the
round-tripped entry's URL is `https://github.com/my`, not the URL fed
in. -/
theorem roundtrip_dashed_url_cex :
    (match generateStagingDeployCashBody
        [Except.ok [iqaRecord { org := lit "my-org", repo := lit "Repo",
                                ds := lit "7", resolved := false,
                                login := lit "alice" }]]
        (lit "1.0.0") [lit "https://github.com/my-org/Repo/pull/7"]
        [] [lit "https://github.com/my-org/Repo/issues/2"] [] []
        false false false with
      | Except.ok (some g) => some (getStagingDeployCashInternalQA g.issueBody)
      | _ => none) =
    some [{ url := lit "https://github.com/my", number := 7,
            isResolved := false }] := by
  decide

/-- C1 as amended: the render/parse round trip holds for well-formed
documents whose internal-QA org/repo segments are additionally dash-free
(`IQASpec.ok` includes that restriction) and whose numbers are distinct
per collection — any of the three collections may be empty, in which
case its section is omitted from the body and re-parsed as the empty
list: generating the body and re-parsing it as a ticket with a canonical
issue URL reconstructs the fed-in entry sets and checkbox states, with
every parsed list sorted ascending by number. -/
theorem checklist_roundtrip (t : Str) (lbls : List Str)
    (torg trepo tds : Str) (d1 d2 d3 : Str) (opt4 : Option Str)
    (mains : List PRSpec) (iqas : List IQASpec) (dbs : List DBSpec)
    (bT bF bG : Bool) (hok : tagOk d1 d2 d3 opt4 = true)
    (hm : mains.all PRSpec.ok = true) (hq : iqas.all IQASpec.ok = true)
    (hd : dbs.all DBSpec.ok = true)
    (hnd : ((mains.map PRSpec.num) ++ (iqas.map IQASpec.num)).Nodup)
    (hnddb : (dbs.map DBSpec.num).Nodup)
    (htorg : segOk torg = true) (htrepo : segOk trepo = true)
    (htds : allDigits tds = true) :
    ∃ issue,
      classifyAndRender (some (iqas.map iqaRecord)) (tagStr d1 d2 d3 opt4)
          (specPRList mains iqas) (specVerified mains) (specDB dbs)
          (specResolvedDB dbs) (specResolvedIQA iqas) bT bF bG =
        Except.ok issue ∧
      getStagingDeployCashData
          { title := t, url := issueUrl torg trepo tds, labels := lbls,
            body := issue.issueBody } =
        some { title := t, url := issueUrl torg trepo tds,
               number := digitsToNat tds, labels := lbls,
               PRList := sortByKey PREntry.number (mains.map PRSpec.entry),
               deployBlockers :=
                 sortByKey DeployBlockerEntry.number (dbs.map DBSpec.entry),
               internalQAPRList :=
                 sortByKey InternalQAEntry.number (iqas.map IQASpec.entry),
               isTimingDashboardChecked := bT, isFirebaseChecked := bF,
               isGHStatusChecked := bG, tag := tagStr d1 d2 d3 opt4 } := by
  have hce := classifyAndRender_evalG d1 d2 d3 opt4 mains iqas dbs [] bT bF bG
    hm hq hd hnd hnddb (fun pr hpr => absurd hpr (List.not_mem_nil pr))
  rw [List.append_nil] at hce
  refine ⟨_, hce, ?_⟩
  show getStagingDeployCashData
      { title := t, url := issueUrl torg trepo tds, labels := lbls,
        body := joinLinesCRLF (specLinesG d1 d2 d3 opt4
          (jsUnion (specVerified mains) (noQAUrls [])) (specResolvedIQA iqas)
          (specResolvedDB dbs) mains iqas dbs bT bF bG) } = _
  have hV : firstVersionMatch (joinLinesCRLF (specLinesG d1 d2 d3 opt4
      (jsUnion (specVerified mains) (noQAUrls [])) (specResolvedIQA iqas)
      (specResolvedDB dbs) mains iqas dbs bT bF bG)) =
      some (tagStr d1 d2 d3 opt4) :=
    firstVersionMatch_joinCons d1 d2 d3 opt4 hok _
  have hU := getIssueOrPullRequestNumberFromURL_issue htorg htrepo htds
  simp only [getStagingDeployCashData, hV, hU]
  rw [parsePRList_specBodyG hok hm hq hd,
      parseDeployBlockers_specBodyG hok hm hq hd,
      parseInternalQA_specBodyG hok hm hq hd,
      testTiming_specBodyG hok hm hq hd,
      testFirebase_specBodyG hok hm hq hd,
      testGHStatus_specBodyG hok hm hq hd,
      tagStr_filter_backtick hok]
  have hndm : (mains.map PRSpec.num).Nodup := (List.nodup_append.1 hnd).1
  have hndq : (iqas.map IQASpec.num).Nodup := (List.nodup_append.1 hnd).2.1
  have hprmap : (sortByKey PRSpec.num mains).map (fun e =>
      ({ url := PRSpec.url e, number := PRSpec.num e,
         isVerified := jsContains (jsUnion (specVerified mains) (noQAUrls []))
           (PRSpec.url e) } : PREntry)) =
      (sortByKey PRSpec.num mains).map PRSpec.entry := by
    refine List.map_congr_left (fun e he => ?_)
    have hemem := (sortByKey_perm PRSpec.num mains).mem_iff.1 he
    have hjc : jsContains (jsUnion (specVerified mains) (noQAUrls []))
        (PRSpec.url e) = e.verified := by
      rw [jsContains_jsUnion]
      have h0 : jsContains (noQAUrls ([] : List PullRequest))
          (PRSpec.url e) = false := rfl
      rw [h0, Bool.or_false]
      exact jsContains_map_filter PRSpec.url PRSpec.verified mains
        (prSpec_url_inj hm hndm) hemem
    rw [hjc]
    rfl
  have hpr2 : sortByKey PREntry.number ((sortByKey PRSpec.num mains).map
      PRSpec.entry) = sortByKey PREntry.number (mains.map PRSpec.entry) := by
    rw [sortByKey_map PREntry.number PRSpec.entry (sortByKey PRSpec.num mains),
        sortByKey_map PREntry.number PRSpec.entry mains]
    show (sortByKey PRSpec.num (sortByKey PRSpec.num mains)).map PRSpec.entry =
      (sortByKey PRSpec.num mains).map PRSpec.entry
    rw [sortByKey_idem PRSpec.num mains hndm]
  have hdbmap : (sortByKey DBSpec.num dbs).map (fun e =>
      ({ url := DBSpec.url e, number := DBSpec.num e,
         isResolved := jsContains (specResolvedDB dbs) (DBSpec.url e) } :
        DeployBlockerEntry)) = (sortByKey DBSpec.num dbs).map DBSpec.entry := by
    refine List.map_congr_left (fun e he => ?_)
    have hemem := (sortByKey_perm DBSpec.num dbs).mem_iff.1 he
    have hjc : jsContains (specResolvedDB dbs) (DBSpec.url e) = e.resolved :=
      jsContains_map_filter DBSpec.url DBSpec.resolved dbs
        (dbSpec_url_inj hd hnddb) hemem
    rw [hjc]
    rfl
  have hdb2 : sortByKey DeployBlockerEntry.number
      ((sortByKey DBSpec.num dbs).map DBSpec.entry) =
      sortByKey DeployBlockerEntry.number (dbs.map DBSpec.entry) := by
    rw [sortByKey_map DeployBlockerEntry.number DBSpec.entry
          (sortByKey DBSpec.num dbs),
        sortByKey_map DeployBlockerEntry.number DBSpec.entry dbs]
    show (sortByKey DBSpec.num (sortByKey DBSpec.num dbs)).map DBSpec.entry =
      (sortByKey DBSpec.num dbs).map DBSpec.entry
    rw [sortByKey_idem DBSpec.num dbs hnddb]
  have hiqamap : iqas.map (fun e =>
      ({ url := IQASpec.url e, number := IQASpec.num e,
         isResolved := jsContains (specResolvedIQA iqas) (IQASpec.url e) } :
        InternalQAEntry)) = iqas.map IQASpec.entry := by
    refine List.map_congr_left (fun e he => ?_)
    have hjc : jsContains (specResolvedIQA iqas) (IQASpec.url e) = e.resolved :=
      jsContains_map_filter IQASpec.url IQASpec.resolved iqas
        (iqaSpec_url_inj hq hndq) he
    rw [hjc]
    rfl
  rw [hprmap, hpr2, hdbmap, hdb2, hiqamap]

/-- C1 witness for the amended round-trip statement, with the internal-QA
and deploy-blocker collections empty: their sections are omitted from the
rendered body and re-parsed as empty lists. -/
theorem checklist_roundtrip_witness :
    ∃ issue,
      classifyAndRender (some (([] : List IQASpec).map iqaRecord))
          (tagStr (lit "3") (lit "2") (lit "1") none)
          (specPRList [{ org := lit "Org", repo := lit "App", ds := lit "9",
                         verified := true }] [])
          (specVerified [{ org := lit "Org", repo := lit "App", ds := lit "9",
                           verified := true }])
          (specDB []) (specResolvedDB []) (specResolvedIQA [])
          true false true =
        Except.ok issue ∧
      getStagingDeployCashData
          { title := lit "Deploy Checklist",
            url := issueUrl (lit "Org") (lit "App") (lit "1"), labels := [],
            body := issue.issueBody } =
        some { title := lit "Deploy Checklist",
               url := issueUrl (lit "Org") (lit "App") (lit "1"),
               number := digitsToNat (lit "1"), labels := [],
               PRList := sortByKey PREntry.number
                 (([{ org := lit "Org", repo := lit "App", ds := lit "9",
                      verified := true }] : List PRSpec).map PRSpec.entry),
               deployBlockers := sortByKey DeployBlockerEntry.number
                 (([] : List DBSpec).map DBSpec.entry),
               internalQAPRList := sortByKey InternalQAEntry.number
                 (([] : List IQASpec).map IQASpec.entry),
               isTimingDashboardChecked := true, isFirebaseChecked := false,
               isGHStatusChecked := true,
               tag := tagStr (lit "3") (lit "2") (lit "1") none } :=
  checklist_roundtrip (lit "Deploy Checklist") [] (lit "Org") (lit "App")
    (lit "1") (lit "3") (lit "2") (lit "1") none
    [{ org := lit "Org", repo := lit "App", ds := lit "9", verified := true }]
    [] [] true false true (by decide) (by decide) (by decide) (by decide)
    (by decide) (by decide) (by decide) (by decide) (by decide)

/-- C6 witness for the amended statement. -/
theorem internalQA_entry_roundtrip_witness :
    getStagingDeployCashInternalQA (joinLinesCRLF
      [internalQAHeaderLine,
       checkbox true ++ [' '] ++ pullUrl (lit "Org") (lit "App") (lit "64") ++
         lit " - @" ++ lit "carol"]) =
    [{ url := pullUrl (lit "Org") (lit "App") (lit "64"), number := 64,
       isResolved := true }] :=
  internalQA_entry_roundtrip (lit "Org") (lit "App") (lit "64") (lit "carol")
    true (by decide) (by decide) (by decide) (by decide) (by decide) (by decide)

end Checklist
